import Mathlib

/-!
# go-recurse: four recursive factorials and their driver

A shallow embedding of `conventional.go`.

* `Factorial` and `FactorialTail` are pure recursive functions on Go `int`s.  They are
  embedded as functions with a bound on the nested invocations (the call stack),
  because for `x ≤ 0` the source recursion never reaches its base case `x == 1`.
* `FactorialDefer` and `FactorialChannel` act on a channel.  Their bodies are embedded
  as the statements the body executes on the given arguments, and the statements are
  run by a small-step machine (`step`) over goroutines, call frames with their
  deferred calls, and channels with Go's blocking rules: a send on an unbuffered
  channel completes only together with a receive by another goroutine, the program
  ends when the main goroutine returns, and it is deadlocked when no goroutine can
  move before that.
* `main` is the statement sequence of the driver.

A schedule is the list of the goroutines that move, in order; the statements about
runs quantify over every schedule (`EveryRun`).  The events of a run (invocations,
sends, closes, receives, printed lines) are recorded in the state's trace.

The file has the definitions first and then the theorems: the pure variants, general
facts about runs, the chain of invocations under every schedule, and the statements
about the channel variants, the base case, the driver and the doc comments.
-/

namespace GoRecurse

/-! ## Go `int` -/

/-- How Go's `int` is read: as a mathematical integer, or as a two's complement
integer of the given width whose arithmetic wraps around. -/
inductive IntModel where
  | unbounded
  | wrapping (bits : Nat)
  deriving DecidableEq, Repr

/-- The value an arithmetic result is stored as. -/
def IntModel.norm : IntModel → Int → Int
  | .unbounded, z => z
  | .wrapping w, z => (z + 2 ^ (w - 1)) % 2 ^ w - 2 ^ (w - 1)

/-! ## The pure variants (conventional.go, lines 20-25 and 67-72) -/

/-- The function `Factorial(x)`.  The first argument bounds the number of nested
invocations; `none` means the bound was reached before the base case. -/
def Factorial (m : IntModel) : Nat → Int → Option Int
  | 0, _ => none
  | fuel + 1, x =>
    if x = 1 then some 1
    else (Factorial m fuel (m.norm (x - 1))).map (fun r => m.norm (r * x))

/-- The function `FactorialTail(x, progress)`, with the same invocation bound. -/
def FactorialTail (m : IntModel) : Nat → Int → Int → Option Int
  | 0, _, _ => none
  | fuel + 1, x, progress =>
    if x = 1 then some (m.norm (1 * progress))
    else FactorialTail m fuel (m.norm (x - 1)) (m.norm (progress * x))

/-! ## Statements, frames, goroutines and channels -/

/-- The two functions that take a channel. -/
inductive Fn where
  | factorialDefer
  | factorialChannel
  deriving DecidableEq, Repr

/-- The statements that occur in the channel variants and in `main`.  Channels are
named by their allocation number. -/
inductive Instr where
  /-- The call `f(x, progress, back)`. -/
  | call (f : Fn) (x progress : Int) (back : Nat)
  /-- The statement `defer f(x, progress, back)`. -/
  | deferCall (f : Fn) (x progress : Int) (back : Nat)
  /-- The statement `go f(x, progress, back)`. -/
  | goCall (f : Fn) (x progress : Int) (back : Nat)
  /-- The statement `back <- v`. -/
  | send (back : Nat) (v : Int)
  /-- The statement `close(back)`. -/
  | close (back : Nat)
  /-- The statement `return`. -/
  | ret
  /-- The receive `v, ok := <-back`. -/
  | recv (back : Nat)
  /-- The statement `make(chan int)`. -/
  | makeChan
  /-- The statement `fmt.Println(label, Factorial(x))`. -/
  | printlnFactorial (label : String) (x : Int)
  /-- The statement `fmt.Println(label, FactorialTail(x, progress))`. -/
  | printlnFactorialTail (label : String) (x progress : Int)
  /-- The statement `fmt.Println(label, <-back)`. -/
  | printlnRecv (label : String) (back : Nat)
  deriving DecidableEq, Repr

/-- The body of `FactorialDefer(x, progress, back)` (lines 35-42). -/
def FactorialDefer (m : IntModel) (x progress : Int) (back : Nat) : List Instr :=
  if x = 1 then
    [Instr.send back progress, Instr.close back, Instr.ret]
  else
    [Instr.deferCall Fn.factorialDefer (m.norm (x - 1)) (m.norm (x * progress)) back]

/-- The body of `FactorialChannel(x, progress, back)` (lines 52-59). -/
def FactorialChannel (m : IntModel) (x progress : Int) (back : Nat) : List Instr :=
  if x = 1 then
    [Instr.send back progress, Instr.close back, Instr.ret]
  else
    [Instr.goCall Fn.factorialChannel (m.norm (x - 1)) (m.norm (x * progress)) back]

/-- The body of the function a call enters. -/
def Fn.body (m : IntModel) : Fn → Int → Int → Nat → List Instr
  | .factorialDefer => FactorialDefer m
  | .factorialChannel => FactorialChannel m

/-- The body of `main` (lines 78-88).  `main` is the only allocator of channels, so
`fact1` is channel 0 and `fact2` is channel 1. -/
def main : List Instr :=
  let value : Int := 11
  [ Instr.printlnFactorial "Normal: " value,
    Instr.printlnFactorialTail "Tail: " value 1,
    Instr.makeChan,
    Instr.call Fn.factorialChannel value 1 0,
    Instr.printlnRecv "Channel: " 0,
    Instr.makeChan,
    Instr.call Fn.factorialChannel value 1 1,
    Instr.printlnRecv "Defer: " 1 ]

/-- A channel: its buffer capacity (0 for `make(chan int)`), the buffered values,
oldest first, and whether it has been closed. -/
structure Chan where
  cap : Nat
  buf : List Int
  closed : Bool
  deriving DecidableEq, Repr

/-- A fresh channel of the given capacity. -/
def Chan.fresh (cap : Nat) : Chan := { cap := cap, buf := [], closed := false }

/-- A call frame: the statements still to run and the calls deferred so far, the
most recently deferred first. -/
structure Frame where
  code : List Instr
  deferred : List Instr
  deriving DecidableEq, Repr

/-- A goroutine is its call stack, innermost frame first.  The empty stack is a
goroutine that has finished. -/
abbrev Task := List Frame

/-- What an execution does, in the order it happens. -/
inductive Event where
  /-- An invocation of `f(x, progress, back)` begins. -/
  | call (f : Fn) (x progress : Int) (back : Nat)
  /-- A send of `v` on `back` completes. -/
  | send (back : Nat) (v : Int)
  /-- A `close(back)` completes. -/
  | close (back : Nat)
  /-- A receive on `back` completes with `v, ok`. -/
  | recv (back : Nat) (v : Int) (ok : Bool)
  /-- A line is written to standard output. -/
  | print (line : String)
  /-- A run-time panic (send on or close of a closed channel). -/
  | panic
  deriving DecidableEq, Repr

/-- The state of a running program. -/
structure State where
  /-- The main goroutine. -/
  main : Task
  /-- The other live goroutines, oldest first. -/
  others : List Task
  /-- The channels made so far, in allocation order. -/
  chans : List Chan
  /-- The events so far, oldest first. -/
  trace : List Event
  /-- Whether the program has panicked. -/
  panicked : Bool
  deriving DecidableEq, Repr

/-- Parameters of a run: the reading of `int` and the depth of call stack available
to the pure variants. -/
structure Cfg where
  ints : IntModel
  stack : Nat

/-- Whether the frame is returning: its statements are used up, or it is at a
`return`. -/
def Frame.returning (fr : Frame) : Bool :=
  match fr.code with
  | [] => true
  | Instr.ret :: _ => true
  | _ => false

/-- Returning from functions: a returning frame runs its deferred calls, the most
recently deferred first, and is then left, which resumes the caller. -/
def unwind : Task → Task
  | [] => []
  | fr :: stk =>
    if fr.returning then
      match fr.deferred with
      | [] => unwind stk
      | d :: ds => { code := [d], deferred := ds } :: stk
    else fr :: stk

/-- The statement a goroutine executes next. -/
def Task.next : Task → Option Instr
  | [] => none
  | fr :: _ => fr.code.head?

/-- The goroutine once its current statement has completed. -/
def Task.advance : Task → Task
  | [] => []
  | fr :: stk => unwind ({ fr with code := fr.code.tail } :: stk)

/-- Whether the goroutine is at a receive on channel `c`. -/
def Task.receivesOn (c : Nat) (t : Task) : Bool :=
  match t.next with
  | some (Instr.recv b) => b == c
  | some (Instr.printlnRecv _ b) => b == c
  | _ => false

/-- The line `fmt.Println(label, v)` writes: the operands separated by a space. -/
def printlnLine (label : String) (v : Int) : String :=
  label ++ " " ++ toString v

/-- The events of a receive that completes with `v, ok` at the statement `i`. -/
def recvEvents (i : Instr) (c : Nat) (v : Int) (ok : Bool) : List Event :=
  match i with
  | Instr.printlnRecv label _ => [Event.recv c v ok, Event.print (printlnLine label v)]
  | _ => [Event.recv c v ok]

/-- The first goroutine other than `i`, counting from `j`, that is at a receive
on `c`. -/
def findReceiver (c i : Nat) : Nat → List Task → Option Nat
  | _, [] => none
  | j, t :: ts =>
    if j ≠ i ∧ t.receivesOn c = true then some j else findReceiver c i (j + 1) ts

/-- All goroutines, the main one first. -/
def State.tasks (s : State) : List Task := s.main :: s.others

/-- Put the goroutines back; finished goroutines other than main are dropped. -/
def State.withTasks (s : State) (ts : List Task) : State :=
  { s with main := ts.headD [], others := ts.tail.filter (fun t => !t.isEmpty) }

/-- Append events to the trace. -/
def State.log (s : State) (es : List Event) : State :=
  { s with trace := s.trace ++ es }

/-- Goroutine `i` has completed its current statement. -/
def State.advance (s : State) (i : Nat) : State :=
  s.withTasks (s.tasks.modify Task.advance i)

/-- The program panics. -/
def State.crash (s : State) : State :=
  { s with trace := s.trace ++ [Event.panic], panicked := true }

/-- One step of goroutine `i` (0 is main).  `none` means the goroutine cannot move:
it has finished, it is blocked on a channel, or the program is over (main has
returned, or a panic).  A send needs buffer space or, on an unbuffered channel,
another goroutine at a receive; a receive needs a buffered value or a closed
channel (a receive on an unbuffered channel completes in the step of the sender). -/
def step (cfg : Cfg) (s : State) (i : Nat) : Option State :=
  if s.main = [] ∨ s.panicked = true then none else
  match s.tasks.get? i with
  | none => none
  | some t =>
    match t with
    | [] => none
    | fr :: stk =>
      match fr.code with
      | [] => none
      | Instr.call f x p c :: rest =>
        let callee : Frame := { code := f.body cfg.ints x p c, deferred := [] }
        let t1 : Task := unwind (callee :: { fr with code := rest } :: stk)
        some ((s.withTasks (s.tasks.set i t1)).log [Event.call f x p c])
      | Instr.deferCall f x p c :: rest =>
        let t1 : Task :=
          unwind ({ code := rest, deferred := Instr.call f x p c :: fr.deferred } :: stk)
        some (s.withTasks (s.tasks.set i t1))
      | Instr.goCall f x p c :: rest =>
        let t1 : Task := unwind ({ fr with code := rest } :: stk)
        let child : Task := [{ code := [Instr.call f x p c], deferred := [] }]
        some (s.withTasks (s.tasks.set i t1 ++ [child]))
      | Instr.ret :: _ =>
        some (s.withTasks (s.tasks.set i (unwind ({ fr with code := [] } :: stk))))
      | Instr.makeChan :: _ =>
        some ({ s with chans := s.chans ++ [Chan.fresh 0] }.advance i)
      | Instr.printlnFactorial label x :: _ =>
        match Factorial cfg.ints cfg.stack x with
        | none => none
        | some v => some ((s.advance i).log [Event.print (printlnLine label v)])
      | Instr.printlnFactorialTail label x p :: _ =>
        match FactorialTail cfg.ints cfg.stack x p with
        | none => none
        | some v => some ((s.advance i).log [Event.print (printlnLine label v)])
      | Instr.close c :: _ =>
        match s.chans.get? c with
        | none => none
        | some ch =>
          if ch.closed then some s.crash
          else some (({ s with chans := s.chans.set c { ch with closed := true } }.advance i).log
            [Event.close c])
      | Instr.send c v :: _ =>
        match s.chans.get? c with
        | none => none
        | some ch =>
          if ch.closed then some s.crash
          else if ch.buf.length < ch.cap then
            some (({ s with chans := s.chans.set c { ch with buf := ch.buf ++ [v] } }.advance i).log
              [Event.send c v])
          else if ch.cap = 0 then
            match findReceiver c i 0 s.tasks with
            | none => none
            | some j =>
              match (s.tasks.get? j).bind Task.next with
              | none => none
              | some r =>
                some (((s.withTasks ((s.tasks.modify Task.advance i).modify Task.advance j)).log
                  [Event.send c v]).log (recvEvents r c v true))
          else none
      | Instr.recv c :: _ =>
        match s.chans.get? c with
        | none => none
        | some ch =>
          match ch.buf with
          | v :: vs =>
            some (({ s with chans := s.chans.set c { ch with buf := vs } }.advance i).log
              (recvEvents (Instr.recv c) c v true))
          | [] =>
            if ch.closed then some ((s.advance i).log (recvEvents (Instr.recv c) c 0 false))
            else none
      | Instr.printlnRecv label c :: _ =>
        match s.chans.get? c with
        | none => none
        | some ch =>
          match ch.buf with
          | v :: vs =>
            some (({ s with chans := s.chans.set c { ch with buf := vs } }.advance i).log
              (recvEvents (Instr.printlnRecv label c) c v true))
          | [] =>
            if ch.closed then
              some ((s.advance i).log (recvEvents (Instr.printlnRecv label c) c 0 false))
            else none

/-- Run the goroutines in the order the schedule names them; `none` when the
schedule names a goroutine that cannot move. -/
def runSchedule (cfg : Cfg) : State → List Nat → Option State
  | s, [] => some s
  | s, i :: is =>
    match step cfg s i with
    | none => none
    | some s1 => runSchedule cfg s1 is

/-- Whether some goroutine can move. -/
def State.canMove (cfg : Cfg) (s : State) : Bool :=
  (List.range s.tasks.length).any (fun i => (step cfg s i).isSome)

/-- Whether the main goroutine has returned, which ends the program. -/
def State.exited (s : State) : Bool := s.main.isEmpty

/-- Whether the program is stuck: main has not returned, nothing has panicked, and
no goroutine can move. -/
def State.deadlocked (cfg : Cfg) (s : State) : Bool :=
  !s.exited && !s.panicked && !s.canMove cfg

/-- The state in which main is about to run `prog`, with the given channels
already made and the given other goroutines already started. -/
def State.start (prog : List Instr) (chans : List Chan) (others : List Task) : State :=
  { main := [{ code := prog, deferred := [] }], others := others, chans := chans,
    trace := [], panicked := false }

/-- The goroutine started by `go f(x, progress, back)`. -/
def goroutine (f : Fn) (x progress : Int) (back : Nat) : Task :=
  [{ code := [Instr.call f x progress back], deferred := [] }]

/-- The results `v, ok` of the receives on `c`, in order. -/
def recvsOn (c : Nat) (es : List Event) : List (Int × Bool) :=
  es.filterMap (fun e =>
    match e with
    | Event.recv b v ok => if b = c then some (v, ok) else none
    | _ => none)

/-- The sends and closes on `c`, in order. -/
def writesOn (c : Nat) (es : List Event) : List Event :=
  es.filter (fun e =>
    match e with
    | Event.send b _ => b == c
    | Event.close b => b == c
    | _ => false)

/-- The lines written to standard output, in order. -/
def printed (es : List Event) : List String :=
  es.filterMap (fun e =>
    match e with
    | Event.print l => some l
    | _ => none)

/-- The invocations begun, in order: function, `x` and `progress`. -/
def callsIn (es : List Event) : List (Fn × Int × Int) :=
  es.filterMap (fun e =>
    match e with
    | Event.call f x p _ => some (f, x, p)
    | _ => none)

/-- The configuration the contracts are stated over: unbounded integers. -/
def Cfg.ideal (stack : Nat) : Cfg := { ints := IntModel.unbounded, stack := stack }

/-- A 64-bit `int`. -/
def Cfg.int64 (stack : Nat) : Cfg := { ints := IntModel.wrapping 64, stack := stack }

/-! ## Properties of runs -/

/-- Every schedule from `s` runs for at most `n` steps, is never stuck while main has
not returned (so it neither deadlocks nor panics), and leaves a state satisfying `Q`
once main has returned. -/
def EveryRun (cfg : Cfg) (s : State) (n : Nat) (Q : State → Prop) : Prop :=
  ∀ (sched : List Nat) (s1 : State), runSchedule cfg s sched = some s1 →
    sched.length ≤ n ∧ (s1.exited = true → Q s1) ∧
      (s1.exited = false → s1.canMove cfg = true)

/-- The same property, by induction on the steps: main has returned in a state
satisfying `Q`, or some goroutine can move and every move leads to a state with the
property for one step less. -/
inductive AllRuns (cfg : Cfg) (Q : State → Prop) : Nat → State → Prop
  | done {n : Nat} {s : State} : s.main = [] → Q s → AllRuns cfg Q n s
  | next {n : Nat} {s : State} : s.main ≠ [] → (∃ i s1, step cfg s i = some s1) →
      (∀ i s1, step cfg s i = some s1 → AllRuns cfg Q n s1) → AllRuns cfg Q (n + 1) s

/-- The states one step away. -/
def State.succs (cfg : Cfg) (s : State) : List State :=
  (List.range s.tasks.length).filterMap (fun i => step cfg s i)

/-- Explore every schedule for `n` steps: every state met satisfies `inv`, is not
stuck unless main has returned, satisfies `post` when main has returned, and no
schedule is longer than `n - 1` steps. -/
def checkRuns (cfg : Cfg) (inv post : State → Bool) : Nat → List State → Bool
  | 0, ss => ss.isEmpty
  | n + 1, ss =>
    ss.all (fun s => inv s && (if s.exited then post s else s.canMove cfg)) &&
      checkRuns cfg inv post n (ss.flatMap (State.succs cfg))

/-! ## The scenarios -/

/-- The reference values of the spec for 1! to 12!. -/
def referenceTable : List Int :=
  [1, 2, 6, 24, 120, 720, 5040, 40320, 362880, 3628800, 39916800, 479001600]

/-- The four lines of the spec's CLI surface. -/
def mainLines : List String :=
  ["Normal:  39916800", "Tail:  39916800", "Channel:  39916800", "Defer:  39916800"]

/-- The program: main runs the body of `main`. -/
def program : State := State.start main [] []

/-- What holds in every state of every run of `main`: only `FactorialChannel` has
been invoked, a closed channel holds no value, and if `fact1` is closed then main
has already received the result from it. -/
def mainInvariant (s : State) : Bool :=
  (callsIn s.trace).all (fun c => c.1 == Fn.factorialChannel) &&
    s.chans.all (fun ch => !ch.closed || ch.buf.isEmpty) &&
    (s.chans.get? 0).all (fun ch =>
      !ch.closed || s.trace.contains (Event.recv 0 39916800 true))

/-- What holds when `main` has returned: the four lines have been printed, and the
last events are the send by the base case of `FactorialChannel` on `fact2`, its
receipt by main and the line labelled `Defer:`. -/
def mainPost (s : State) : Bool :=
  printed s.trace == mainLines &&
    s.trace.contains (Event.call Fn.factorialChannel 1 39916800 1) &&
    s.trace.drop (s.trace.length - 3) ==
      [Event.send 1 39916800, Event.recv 1 39916800 true, Event.print "Defer:  39916800"]

/-- Whether every call of a pure variant that a goroutine is about to make returns
within the stack of `cfg`. -/
def pureCallsReturn (cfg : Cfg) (s : State) : Bool :=
  s.tasks.all (fun t =>
    match t.next with
    | some (Instr.printlnFactorial _ x) => (Factorial cfg.ints cfg.stack x).isSome
    | some (Instr.printlnFactorialTail _ x p) => (FactorialTail cfg.ints cfg.stack x p).isSome
    | _ => true)

/-- What is checked in every state of every run of `main`. -/
def mainChecks (cfg : Cfg) (s : State) : Bool :=
  mainInvariant s && pureCallsReturn cfg s

/-- The frame of a reader that receives twice from channel 0. -/
def readerFrame : Frame := { code := [Instr.recv 0, Instr.recv 0], deferred := [] }

/-- The caller invokes `f(x, progress, ch)` on a fresh channel of capacity `cap`
and then reads `ch` twice, all in the main goroutine, as the driver calls its
variants. -/
def callThenRead (cap : Nat) (f : Fn) (x progress : Int) : State :=
  State.start [Instr.call f x progress 0, Instr.recv 0, Instr.recv 0] [Chan.fresh cap] []

/-- The invocation `f(x, progress, ch)` runs as a goroutine of its own on a fresh
unbuffered channel while main reads `ch` twice. -/
def goThenRead (f : Fn) (x progress : Int) : State :=
  State.start [Instr.recv 0, Instr.recv 0] [Chan.fresh 0] [goroutine f x progress 0]

/-- The call events of a chain of `n + 1` invocations that starts at `x`, `p`. -/
def chainCalls (f : Fn) : Nat → Int → Int → List Event
  | 0, x, p => [Event.call f x p 0]
  | n + 1, x, p => Event.call f x p 0 :: chainCalls f n (x - 1) (x * p)

/-- The accumulator of the last invocation of that chain. -/
def chainValue : Nat → Int → Int → Int
  | 0, _, p => p
  | n + 1, x, p => chainValue n (x - 1) (x * p)

/-- The channel events when the value is handed to a waiting reader. -/
def readEvents (v : Int) : List Event :=
  [Event.send 0 v, Event.recv 0 v true, Event.close 0, Event.recv 0 0 false]

/-- The channel events when the value is buffered and read after the close. -/
def bufferedEvents (v : Int) : List Event :=
  [Event.send 0 v, Event.close 0, Event.recv 0 v true, Event.recv 0 0 false]

/-- The program is over with the events `es`: every other goroutine has finished
and the one channel, of capacity `cap`, is empty and closed. -/
def State.finished (cap : Nat) (es : List Event) (s : State) : Prop :=
  s.trace = es ∧ s.others = [] ∧ s.chans = [{ cap := cap, buf := [], closed := true }]

/-- The chain of `f` is over after `calls` invocations and a single write: every
goroutine but main has finished, the sends and closes on the channel are one send of
`v` followed by one close, the send directly follows the invocation with `x == 1`,
and no send or close precedes that invocation. -/
def ChainDone (f : Fn) (calls : Nat) (v : Int) (s : State) : Prop :=
  s.others = []
    ∧ writesOn 0 s.trace = [Event.send 0 v, Event.close 0]
    ∧ (callsIn s.trace).length = calls
    ∧ ∃ pre post, writesOn 0 pre = []
        ∧ s.trace = pre ++ Event.call f 1 v 0 :: Event.send 0 v :: post

/-- A reader in main and one other goroutine that is about to call
`f(x, p, ch)` with the frames `stk` below, on an unbuffered channel. -/
def readerState (f : Fn) (x p : Int) (rest dfr : List Instr) (stk : Task)
    (t : List Event) : State :=
  { main := [readerFrame],
    others := [{ code := Instr.call f x p 0 :: rest, deferred := dfr } :: stk],
    chans := [Chan.fresh 0], trace := t, panicked := false }

/-- Main alone, about to call `FactorialDefer(x, p, ch)` with the frames `stk`
below, on a channel of capacity `cap`. -/
def deferSyncState (cap : Nat) (x p : Int) (rest dfr : List Instr) (stk : Task)
    (t : List Event) : State :=
  { main := { code := Instr.call Fn.factorialDefer x p 0 :: rest, deferred := dfr } :: stk,
    others := [], chans := [Chan.fresh cap], trace := t, panicked := false }


/-! ## The pure variants with their arithmetic recorded -/

/-- Whether `z` is stored unchanged, that is, computing it does not overflow. -/
def IntModel.fits (m : IntModel) (z : Int) : Bool := m.norm z == z

/-- A result with what the computation did: the exact values (before they are
stored) of the subtractions and multiplications, in the order they are computed, and
the number of recursive calls made. -/
structure Traced where
  value : Int
  arith : List Int
  calls : Nat
  deriving DecidableEq, Repr

/-- The function `Factorial(x)` with its arithmetic and its recursive calls recorded. -/
def FactorialTraced (m : IntModel) : Nat → Int → Option Traced
  | 0, _ => none
  | fuel + 1, x =>
    if x = 1 then some { value := 1, arith := [], calls := 0 }
    else (FactorialTraced m fuel (m.norm (x - 1))).map (fun t =>
      { value := m.norm (t.value * x), arith := (x - 1) :: t.arith ++ [t.value * x],
        calls := t.calls + 1 })

/-- The function `FactorialTail(x, progress)` with its arithmetic and its recursive
calls recorded. -/
def FactorialTailTraced (m : IntModel) : Nat → Int → Int → Option Traced
  | 0, _, _ => none
  | fuel + 1, x, progress =>
    if x = 1 then some { value := m.norm (1 * progress), arith := [1 * progress], calls := 0 }
    else (FactorialTailTraced m fuel (m.norm (x - 1)) (m.norm (progress * x))).map (fun t =>
      { value := t.value, arith := (x - 1) :: (progress * x) :: t.arith,
        calls := t.calls + 1 })

/-- Whether the computation returned `v` and none of its arithmetic overflowed. -/
def exactly (m : IntModel) (v : Int) (r : Option Traced) : Bool :=
  match r with
  | none => false
  | some t => t.value == v && t.arith.all m.fits

/-! ## The shape of a chain -/

/-- The chain started by `f(x, progress, ch)` as the trace shows it: the first
arguments of the invocations are `x, x - 1, ..., 1` in this order; every invocation
is one of `f`, and with first argument `k` it carries the accumulator
`progress * (x! / k!)`, so that `k! * accumulator = x! * progress`; the invocation
with first argument 1 is the last one, only it is followed by a write, and it writes
`x! * progress`. -/
def ChainShape (f : Fn) (x progress : Int) (s : State) : Prop :=
  (callsIn s.trace).map (fun c => c.2.1) = (List.iota x.toNat).map (fun (k : Nat) => (k : Int))
    ∧ (∀ c ∈ callsIn s.trace, c.1 = f
        ∧ ((c.2.1.toNat.factorial : Nat) : Int) * c.2.2
            = ((x.toNat.factorial : Nat) : Int) * progress
        ∧ c.2.2 = progress * ((x.toNat.factorial / c.2.1.toNat.factorial : Nat) : Int))
    ∧ ∃ pre post, writesOn 0 pre = [] ∧ callsIn post = []
        ∧ s.trace = pre ++ Event.call f 1 (((x.toNat.factorial : Nat) : Int) * progress) 0
            :: Event.send 0 (((x.toNat.factorial : Nat) : Int) * progress) :: post

/-! ## Runs that block -/

/-- Every schedule from `s` runs for at most `n` steps, main never returns and
nothing panics, every state on the way satisfies `P`, and a state in which no
goroutine can move satisfies `Q`; and some schedule does reach such a deadlocked
state.  So every run, continued as long as a goroutine can move, ends deadlocked in a
state satisfying `Q`. -/
def EveryRunBlocks (cfg : Cfg) (s : State) (n : Nat) (P Q : State → Prop) : Prop :=
  (∀ (sched : List Nat) (s1 : State), runSchedule cfg s sched = some s1 →
      sched.length ≤ n ∧ P s1 ∧ s1.exited = false ∧ s1.panicked = false ∧
        (s1.canMove cfg = false → Q s1))
    ∧ ∃ (sched : List Nat) (s1 : State), runSchedule cfg s sched = some s1 ∧
        s1.deadlocked cfg = true ∧ Q s1

/-- The same property, by induction on the steps. -/
inductive AllBlock (cfg : Cfg) (P Q : State → Prop) : Nat → State → Prop
  | stuck {n : Nat} {s : State} : s.main ≠ [] → s.panicked = false → P s → Q s →
      (∀ i, step cfg s i = none) → AllBlock cfg P Q n s
  | next {n : Nat} {s : State} : s.main ≠ [] → s.panicked = false → P s →
      (∃ i s1, step cfg s i = some s1) →
      (∀ i s1, step cfg s i = some s1 → AllBlock cfg P Q n s1) → AllBlock cfg P Q (n + 1) s

/-- The call has not returned and nothing has happened on the channel: no goroutine
has been started, the channel is open and empty, nothing has been sent, closed or
received, and main is not at a receive. -/
def StillInCall (s : State) : Prop :=
  s.others = [] ∧ s.chans = [Chan.fresh 0] ∧ writesOn 0 s.trace = []
    ∧ recvsOn 0 s.trace = [] ∧ s.main.receivesOn 0 = false

/-- Main itself is at the send of `v` on the channel. -/
def AtSend (v : Int) (s : State) : Prop :=
  s.main.next = some (Instr.send 0 v)

/-- Main alone, about to call `f(x, p, ch)` with the frames `stk` below, on an
unbuffered channel. -/
def callState (f : Fn) (x p : Int) (rest dfr : List Instr) (stk : Task)
    (t : List Event) : State :=
  { main := { code := Instr.call f x p 0 :: rest, deferred := dfr } :: stk,
    others := [], chans := [Chan.fresh 0], trace := t, panicked := false }

/-- The goroutine has nothing left to do but receive: its frames hold only receives
and no deferred call. -/
def Task.onlyReceives (t : Task) : Prop :=
  ∀ fr ∈ t, fr.deferred = [] ∧ ∀ ins ∈ fr.code, ∃ c, ins = Instr.recv c

/-! ## Determinism -/

/-- A reader in main and one other goroutine that is about to call
`FactorialChannel(x, p, ch)`, on a channel of capacity `cap`. -/
def bufferedReaderState (cap : Nat) (x p : Int) (t : List Event) : State :=
  { main := [readerFrame], others := [goroutine Fn.factorialChannel x p 0],
    chans := [Chan.fresh cap], trace := t, panicked := false }

/-- The reader has received `v` and then the channel-closed signal, and the channel
has seen one send, of `v`, and then one close. -/
def ReadTwice (v : Int) (s : State) : Prop :=
  recvsOn 0 s.trace = [(v, true), (0, false)] ∧
    writesOn 0 s.trace = [Event.send 0 v, Event.close 0]

/-- The receives on channel 0 do not depend on the schedule nor on the stack: with
the stack of `cfg1` and with the stack of `cfg2`, every schedule from `s` runs for at
most `n` steps and is never stuck before main has returned, and any two runs in which
main has returned have the same receive results, which are `r`. -/
def SameReads (cfg1 cfg2 : Cfg) (s : State) (n : Nat) (r : List (Int × Bool)) : Prop :=
  EveryRun cfg1 s n (fun s1 => recvsOn 0 s1.trace = r) ∧
    EveryRun cfg2 s n (fun s2 => recvsOn 0 s2.trace = r) ∧
    ∀ (sched1 sched2 : List Nat) (s1 s2 : State),
      runSchedule cfg1 s sched1 = some s1 → s1.exited = true →
      runSchedule cfg2 s sched2 = some s2 → s2.exited = true →
      recvsOn 0 s1.trace = recvsOn 0 s2.trace

/-- What holds when `main` has returned: the read of `fact1` and the read of `fact2`
have delivered the same result, the value 39916800. -/
def mainReads (s : State) : Bool :=
  recvsOn 0 s.trace == recvsOn 1 s.trace && recvsOn 0 s.trace == [(39916800, true)]

/-! ## Chains with the integers of the machine -/

/-- The call events of a chain of `n + 1` invocations that starts at `x`, `p`, with
each product stored as the integer type `m` stores it. -/
def chainCallsIn (m : IntModel) (f : Fn) : Nat → Int → Int → List Event
  | 0, x, p => [Event.call f x p 0]
  | n + 1, x, p => Event.call f x p 0 :: chainCallsIn m f n (x - 1) (m.norm (x * p))

/-- The accumulator that the chain hands to its base case, with each product stored
as the integer type `m` stores it. -/
def chainValueIn (m : IntModel) : Nat → Int → Int → Int
  | 0, _, p => p
  | n + 1, x, p => chainValueIn m n (x - 1) (m.norm (x * p))

/-- The program is over after the events `es` and the hand-over of `v`: every other
goroutine has finished, and the trace is `es`, then the send of `v`, then the receipt
of `v`, the close and the receipt of the channel-closed signal, with the close
before or after the receipt of `v`. -/
def State.handedOver (es : List Event) (v : Int) (s : State) : Prop :=
  s.others = [] ∧ (s.trace = es ++ readEvents v ∨ s.trace = es ++ bufferedEvents v)

/-- Main itself is at the send of `v` on the channel, after exactly the events
`es`. -/
def BlockedAt (es : List Event) (v : Int) (s : State) : Prop :=
  s.trace = es ∧ s.main.next = some (Instr.send 0 v)

/-- The invocations of the chain started by `f(x, progress, ch)` as the events `es`
show them, with the integer type `m`: the first arguments are `x, x - 1, ..., 1` in
this order; every invocation is one of `f`, and with first argument `k` and
accumulator `a`, the integer type stores `k! * a` and `x! * progress` as the same
value. -/
def CountsDown (m : IntModel) (f : Fn) (x progress : Int) (es : List Event) : Prop :=
  (callsIn es).map (fun c => c.2.1) = (List.iota x.toNat).map (fun (k : Nat) => (k : Int))
    ∧ ∀ c ∈ callsIn es, c.1 = f
        ∧ m.norm (((c.2.1.toNat.factorial : Nat) : Int) * c.2.2)
            = m.norm (((x.toNat.factorial : Nat) : Int) * progress)

/-- The chain started by `f(x, progress, ch)` has run, with the integer type `m`:
there have been `x` invocations, counting down as `CountsDown` says; the invocation
with first argument 1 is the last one, only it is followed by a write, and it writes
the accumulator it was handed; and when `x! * progress` is a value of the integer
type nothing has overflowed, so the accumulators are exactly `progress * (x! / k!)`
and the value written is `x! * progress`. -/
def ChainRan (m : IntModel) (f : Fn) (x progress : Int) (s : State) : Prop :=
  CountsDown m f x progress s.trace
    ∧ (callsIn s.trace).length = x.toNat
    ∧ (∃ pre post, writesOn 0 pre = [] ∧ callsIn post = []
        ∧ s.trace = pre ++ Event.call f 1 (chainValueIn m (x.toNat - 1) x progress) 0
            :: Event.send 0 (chainValueIn m (x.toNat - 1) x progress) :: post)
    ∧ (m.fits (((x.toNat.factorial : Nat) : Int) * progress) = true → ChainShape f x progress s)

/-- The chain started by `f(x, progress, ch)` is stuck at its write, with the integer
type `m`: there have been `x` invocations, counting down as `CountsDown` says,
nothing else has happened, and main itself is at the send of the accumulator that
the last invocation was handed. -/
def ChainStuck (m : IntModel) (f : Fn) (x progress : Int) (s : State) : Prop :=
  CountsDown m f x progress s.trace
    ∧ (callsIn s.trace).length = x.toNat
    ∧ s.trace.length = x.toNat
    ∧ (callsIn s.trace).getLast? = some (f, 1, chainValueIn m (x.toNat - 1) x progress)
    ∧ s.main.next = some (Instr.send 0 (chainValueIn m (x.toNat - 1) x progress))

/-! ## The pure variants -/

theorem Factorial_succ (fuel n : Nat) (h : n + 1 ≤ fuel) :
    Factorial IntModel.unbounded fuel ((n : Int) + 1)
      = some (((n + 1).factorial : Nat) : Int) := by
  induction n generalizing fuel with
  | zero =>
    cases fuel with
    | zero => omega
    | succ k => simp [Factorial]
  | succ n ih =>
    cases fuel with
    | zero => omega
    | succ k =>
      have hne : ((n : Int) + 1 + 1) ≠ 1 := by omega
      have hk : n + 1 ≤ k := by omega
      simp only [Factorial, IntModel.norm, Nat.cast_add, Nat.cast_one, hne, if_false]
      rw [show ((n : Int) + 1 + 1 - 1) = (n : Int) + 1 by ring, ih k hk]
      simp only [Option.map_some']
      congr 1
      rw [Nat.factorial_succ (n + 1)]
      push_cast
      ring

theorem FactorialTail_succ (fuel n : Nat) (p : Int) (h : n + 1 ≤ fuel) :
    FactorialTail IntModel.unbounded fuel ((n : Int) + 1) p
      = some ((((n + 1).factorial : Nat) : Int) * p) := by
  induction n generalizing fuel p with
  | zero =>
    cases fuel with
    | zero => omega
    | succ k => simp [FactorialTail, IntModel.norm]
  | succ n ih =>
    cases fuel with
    | zero => omega
    | succ k =>
      have hne : ((n : Int) + 1 + 1) ≠ 1 := by omega
      have hk : n + 1 ≤ k := by omega
      simp only [FactorialTail, IntModel.norm, Nat.cast_add, Nat.cast_one, hne, if_false]
      rw [show ((n : Int) + 1 + 1 - 1) = (n : Int) + 1 by ring, ih k _ hk]
      congr 1
      rw [Nat.factorial_succ (n + 1)]
      push_cast
      ring

theorem int_eq_succ (x : Int) (hx : 1 ≤ x) : x = ((x.toNat - 1 : Nat) : Int) + 1 := by
  omega

/-- C1: for every integer `x ≥ 1`, `Factorial(x)` returns `x!`, the product of the
integers from 1 to `x`, over unbounded integers, as soon as the stack allows `x`
nested invocations. -/
theorem Factorial_returns_factorial (x : Int) (fuel : Nat) (hx : 1 ≤ x)
    (hfuel : x.toNat ≤ fuel) :
    Factorial IntModel.unbounded fuel x = some ((x.toNat.factorial : Nat) : Int)
      ∧ ((x.toNat.factorial : Nat) : Int) = ∏ i ∈ Finset.Icc 1 x.toNat, (i : Int) := by
  obtain ⟨n, rfl⟩ : ∃ n : Nat, x = (n : Int) + 1 := ⟨x.toNat - 1, int_eq_succ x hx⟩
  have ht : ((n : Int) + 1).toNat = n + 1 := by omega
  rw [ht] at hfuel ⊢
  refine ⟨Factorial_succ fuel n hfuel, ?_⟩
  rw [← Finset.prod_Ico_id_eq_factorial, Nat.cast_prod, Nat.Ico_succ_right]

theorem Factorial_returns_factorial_witness :
    (1 : Int) ≤ 5 ∧ (5 : Int).toNat ≤ 5 ∧
      (Factorial IntModel.unbounded 5 5 = some ((((5 : Int).toNat).factorial : Nat) : Int)
        ∧ ((((5 : Int).toNat).factorial : Nat) : Int)
            = ∏ i ∈ Finset.Icc 1 (5 : Int).toNat, (i : Int)) :=
  ⟨by decide, by decide, Factorial_returns_factorial 5 5 (by decide) (by decide)⟩

/-- C2: for every integer `x ≥ 1` and every `progress ≥ 1`, `FactorialTail(x, progress)`
returns `x! * progress` over unbounded integers, and `FactorialTail(x, 1)` returns
`x!`, as soon as the stack allows `x` nested invocations. -/
theorem FactorialTail_returns_product (x progress : Int) (fuel : Nat) (hx : 1 ≤ x)
    (hp : 1 ≤ progress) (hfuel : x.toNat ≤ fuel) :
    FactorialTail IntModel.unbounded fuel x progress
        = some (((x.toNat.factorial : Nat) : Int) * progress)
      ∧ FactorialTail IntModel.unbounded fuel x 1 = some ((x.toNat.factorial : Nat) : Int) := by
  have _ := hp
  obtain ⟨n, rfl⟩ : ∃ n : Nat, x = (n : Int) + 1 := ⟨x.toNat - 1, int_eq_succ x hx⟩
  have ht : ((n : Int) + 1).toNat = n + 1 := by omega
  rw [ht] at hfuel ⊢
  refine ⟨FactorialTail_succ fuel n progress hfuel, ?_⟩
  rw [FactorialTail_succ fuel n 1 hfuel, mul_one]

theorem FactorialTail_returns_product_witness :
    (1 : Int) ≤ 4 ∧ (1 : Int) ≤ 3 ∧ (4 : Int).toNat ≤ 6 ∧
      (FactorialTail IntModel.unbounded 6 4 3
          = some (((((4 : Int).toNat).factorial : Nat) : Int) * 3)
        ∧ FactorialTail IntModel.unbounded 6 4 1
          = some ((((4 : Int).toNat).factorial : Nat) : Int)) :=
  ⟨by decide, by decide, by decide,
    FactorialTail_returns_product 4 3 6 (by decide) (by decide) (by decide)⟩

/-- C3: for every `x` from 1 to 12, `Factorial(x)` and `FactorialTail(x, 1)` return the
same value, the `x`-th entry of the reference table. -/
theorem variants_agree_with_table (x fuel : Nat) (h1 : 1 ≤ x) (h12 : x ≤ 12)
    (hfuel : x ≤ fuel) :
    Factorial IntModel.unbounded fuel (x : Int) = FactorialTail IntModel.unbounded fuel (x : Int) 1
      ∧ Factorial IntModel.unbounded fuel (x : Int) = referenceTable.get? (x - 1) := by
  obtain ⟨n, rfl⟩ : ∃ n : Nat, x = n + 1 := ⟨x - 1, by omega⟩
  have e : (((n + 1 : Nat)) : Int) = (n : Int) + 1 := by push_cast; ring
  rw [e, Factorial_succ fuel n hfuel, FactorialTail_succ fuel n 1 hfuel, mul_one]
  refine ⟨rfl, ?_⟩
  have hn : n ≤ 11 := by omega
  interval_cases n <;> rfl

theorem variants_agree_with_table_witness :
    1 ≤ 11 ∧ 11 ≤ 12 ∧ 11 ≤ 11 ∧
      (Factorial IntModel.unbounded 11 ((11 : Nat) : Int)
          = FactorialTail IntModel.unbounded 11 ((11 : Nat) : Int) 1
        ∧ Factorial IntModel.unbounded 11 ((11 : Nat) : Int) = referenceTable.get? (11 - 1)) :=
  ⟨by decide, by decide, by decide,
    variants_agree_with_table 11 11 (by decide) (by decide) (by decide)⟩


/-! ## Runs: general facts -/

theorem step_exited (cfg : Cfg) (s : State) (i : Nat) (h : s.main = []) :
    step cfg s i = none := by
  simp [step, h]

theorem step_lt (cfg : Cfg) (s s1 : State) (i : Nat) (h : step cfg s i = some s1) :
    i < s.tasks.length := by
  by_contra hlt
  have hnone : s.tasks.get? i = none := List.get?_eq_none.mpr (by omega)
  unfold step at h
  split at h
  · cases h
  · rw [hnone] at h
    cases h

theorem mem_succs (cfg : Cfg) (s s1 : State) (i : Nat) (h : step cfg s i = some s1) :
    s1 ∈ s.succs cfg := by
  unfold State.succs
  rw [List.mem_filterMap]
  exact ⟨i, List.mem_range.mpr (step_lt cfg s s1 i h), h⟩

theorem canMove_of_step (cfg : Cfg) (s s1 : State) (i : Nat) (h : step cfg s i = some s1) :
    s.canMove cfg = true := by
  unfold State.canMove
  rw [List.any_eq_true]
  exact ⟨i, List.mem_range.mpr (step_lt cfg s s1 i h), by simp [h]⟩

theorem exited_iff (s : State) : s.exited = true ↔ s.main = [] := by
  simp [State.exited]

theorem AllRuns.sound {cfg : Cfg} {Q : State → Prop} {n : Nat} {s : State}
    (h : AllRuns cfg Q n s) : EveryRun cfg s n Q := by
  induction h with
  | done hm hq =>
    intro sched s1 hr
    cases sched with
    | nil =>
      simp only [runSchedule, Option.some.injEq] at hr
      subst hr
      exact ⟨Nat.zero_le _, fun _ => hq, fun hne => by simp [State.exited, hm] at hne⟩
    | cons i is =>
      simp [runSchedule, step_exited _ _ _ hm] at hr
  | next hm hex _ ih =>
    intro sched s1 hr
    cases sched with
    | nil =>
      simp only [runSchedule, Option.some.injEq] at hr
      subst hr
      refine ⟨Nat.zero_le _, fun h0 => absurd ((exited_iff _).mp h0) hm, fun _ => ?_⟩
      obtain ⟨i, s2, hs⟩ := hex
      exact canMove_of_step cfg _ s2 i hs
    | cons i is =>
      simp only [runSchedule] at hr
      split at hr
      · cases hr
      · next s2 hs =>
        obtain ⟨h1, h2, h3⟩ := ih i s2 hs is s1 hr
        exact ⟨by simpa using h1, h2, h3⟩

theorem AllRuns.only {cfg : Cfg} {Q : State → Prop} {n : Nat} {s : State} (i0 : Nat)
    (hm : s.main ≠ []) (s1 : State) (h0 : step cfg s i0 = some s1)
    (hrest : ∀ i, i ≠ i0 → step cfg s i = none) (h : AllRuns cfg Q n s1) :
    AllRuns cfg Q (n + 1) s := by
  refine AllRuns.next hm ⟨i0, s1, h0⟩ (fun i s2 hs => ?_)
  by_cases hi : i = i0
  · subst hi
    rw [h0] at hs
    cases hs
    exact h
  · rw [hrest i hi] at hs
    cases hs

theorem AllRuns.mono {cfg : Cfg} {Q : State → Prop} {n m : Nat} {s : State}
    (h : AllRuns cfg Q n s) (hnm : n ≤ m) : AllRuns cfg Q m s := by
  induction h generalizing m with
  | done hm hq => exact AllRuns.done hm hq
  | next hm hex _ ih =>
    cases m with
    | zero => omega
    | succ m => exact AllRuns.next hm hex (fun i s1 hs => ih i s1 hs (by omega))

theorem EveryRun.imp {cfg : Cfg} {s : State} {n : Nat} {Q R : State → Prop}
    (h : EveryRun cfg s n Q) (hqr : ∀ s1, Q s1 → R s1) : EveryRun cfg s n R := by
  intro sched s1 hr
  obtain ⟨h1, h2, h3⟩ := h sched s1 hr
  exact ⟨h1, fun he => hqr s1 (h2 he), h3⟩

theorem checkRuns_sound (cfg : Cfg) (inv post : State → Bool) (n : Nat) :
    ∀ (ss : List State), checkRuns cfg inv post n ss = true → ∀ s ∈ ss,
      ∀ (sched : List Nat) (s1 : State), runSchedule cfg s sched = some s1 →
        sched.length < n ∧ inv s1 = true ∧ (s1.exited = true → post s1 = true) ∧
          (s1.exited = false → s1.canMove cfg = true) := by
  induction n with
  | zero =>
    intro ss h s hs
    simp only [checkRuns, List.isEmpty_iff] at h
    subst h
    cases hs
  | succ n ih =>
    intro ss h s hs sched s1 hr
    simp only [checkRuns, Bool.and_eq_true, List.all_eq_true] at h
    obtain ⟨hall, hnext⟩ := h
    cases sched with
    | nil =>
      simp only [runSchedule, Option.some.injEq] at hr
      subst hr
      obtain ⟨hi, hp⟩ := hall s hs
      refine ⟨Nat.succ_pos _, hi, fun he => ?_, fun he => ?_⟩
      · simpa [he] using hp
      · simpa [he] using hp
    | cons i is =>
      simp only [runSchedule] at hr
      split at hr
      · cases hr
      · next s2 hs2 =>
        have hmem : s2 ∈ ss.flatMap (State.succs cfg) :=
          List.mem_flatMap.mpr ⟨s, hs, mem_succs cfg s s2 i hs2⟩
        obtain ⟨h1, h2, h3, h4⟩ := ih _ hnext s2 hmem is s1 hr
        exact ⟨by simpa using h1, h2, h3, h4⟩

/-! ## Returning from frames -/

theorem unwind_running (i : Instr) (c d : List Instr) (stk : Task) (h : i ≠ Instr.ret) :
    unwind ({ code := i :: c, deferred := d } :: stk)
      = { code := i :: c, deferred := d } :: stk := by
  cases i <;> simp_all [unwind, Frame.returning]

theorem unwind_ret (c : List Instr) (stk : Task) :
    unwind ({ code := Instr.ret :: c, deferred := [] } :: stk) = unwind stk := by
  simp [unwind, Frame.returning]

theorem unwind_done (stk : Task) :
    unwind ({ code := [], deferred := [] } :: stk) = unwind stk := by
  simp [unwind, Frame.returning]

theorem unwind_deferred (d : Instr) (ds : List Instr) (stk : Task) :
    unwind ({ code := [], deferred := d :: ds } :: stk)
      = { code := [d], deferred := ds } :: stk := by
  simp [unwind, Frame.returning]

/-! ## The chain of invocations -/

theorem chainValue_eq (n : Nat) : ∀ (x p : Int), x = (n : Int) + 1 →
    chainValue n x p = (((n + 1).factorial : Nat) : Int) * p := by
  induction n with
  | zero => intro x p _; simp [chainValue]
  | succ n ih =>
    intro x p hx
    rw [chainValue, ih (x - 1) (x * p) (by omega), Nat.factorial_succ (n + 1), hx]
    push_cast
    ring

theorem chainCalls_last (f : Fn) (n : Nat) : ∀ (x p : Int), x = (n : Int) + 1 →
    ∃ pre, chainCalls f n x p = pre ++ [Event.call f 1 (chainValue n x p) 0]
      ∧ pre.length = n ∧ writesOn 0 pre = [] ∧ recvsOn 0 pre = [] := by
  induction n with
  | zero =>
    intro x p hx
    have hx1 : x = 1 := by simpa using hx
    exact ⟨[], by simp [chainCalls, chainValue, hx1], rfl, rfl, rfl⟩
  | succ n ih =>
    intro x p hx
    obtain ⟨pre, h1, h2, h3, h4⟩ := ih (x - 1) (x * p) (by omega)
    refine ⟨Event.call f x p 0 :: pre, by simp [chainCalls, chainValue, h1], by simp [h2],
      ?_, ?_⟩
    · simpa [writesOn] using h3
    · simpa [recvsOn] using h4

theorem callsIn_chainCalls (f : Fn) (n : Nat) (x p : Int) :
    (callsIn (chainCalls f n x p)).length = n + 1 := by
  induction n generalizing x p with
  | zero => simp [chainCalls, callsIn]
  | succ n ih =>
    have h := ih (x - 1) (x * p)
    simp only [callsIn] at h
    simp [chainCalls, callsIn, h]


/-! ## The chains under every schedule -/

/-- The tail of a chain when its goroutine, with the frames `stk` below that are all
returning, is at the base case and a reader waits. -/
theorem reader_base (k : Nat) (f : Fn) (p : Int) (rest dfr : List Instr) (stk : Task)
    (t : List Event) (hK : unwind ({ code := rest, deferred := dfr } :: stk) = []) :
    AllRuns (Cfg.ideal k)
      (State.finished 0 (t ++ [Event.call f 1 p 0] ++ readEvents p)) 4
      (readerState f 1 p rest dfr stk t) := by
  refine AllRuns.only 1 (by simp [readerState])
    { main := [readerFrame],
      others := [{ code := [Instr.send 0 p, Instr.close 0, Instr.ret], deferred := [] } ::
        { code := rest, deferred := dfr } :: stk],
      chans := [Chan.fresh 0], trace := t ++ [Event.call f 1 p 0],
      panicked := false } ?_ ?_ ?_
  · cases f <;>
      simp [step, readerState, readerFrame, State.tasks, State.withTasks, State.log, Fn.body,
        FactorialChannel, FactorialDefer, unwind_running, Cfg.ideal, IntModel.norm]
  · intro i hi
    match i with
    | 0 => simp [step, readerState, readerFrame, State.tasks, Chan.fresh]
    | 1 => exact absurd rfl hi
    | j + 2 => simp [step, readerState, readerFrame, State.tasks]
  refine AllRuns.only 1 (by simp [readerFrame])
    { main := [{ code := [Instr.recv 0], deferred := [] }],
      others := [{ code := [Instr.close 0, Instr.ret], deferred := [] } ::
        { code := rest, deferred := dfr } :: stk],
      chans := [Chan.fresh 0],
      trace := t ++ [Event.call f 1 p 0] ++ [Event.send 0 p, Event.recv 0 p true],
      panicked := false } ?_ ?_ ?_
  · simp [step, readerFrame, State.tasks, State.withTasks, State.log, State.advance,
      Task.advance, unwind_running, Chan.fresh, findReceiver, Task.receivesOn, Task.next,
      recvEvents]
  · intro i hi
    match i with
    | 0 => simp [step, readerFrame, State.tasks, Chan.fresh]
    | 1 => exact absurd rfl hi
    | j + 2 => simp [step, State.tasks]
  refine AllRuns.only 1 (by simp)
    { main := [{ code := [Instr.recv 0], deferred := [] }],
      others := [],
      chans := [{ cap := 0, buf := [], closed := true }],
      trace := t ++ [Event.call f 1 p 0] ++ [Event.send 0 p, Event.recv 0 p true]
        ++ [Event.close 0],
      panicked := false } ?_ ?_ ?_
  · simp [step, State.tasks, State.withTasks, State.log, State.advance, Task.advance,
      unwind_running, unwind_ret, hK, Chan.fresh]
  · intro i hi
    match i with
    | 0 => simp [step, State.tasks, Chan.fresh]
    | 1 => exact absurd rfl hi
    | j + 2 => simp [step, State.tasks]
  refine AllRuns.only 0 (by simp)
    { main := [],
      others := [],
      chans := [{ cap := 0, buf := [], closed := true }],
      trace := t ++ [Event.call f 1 p 0] ++ [Event.send 0 p, Event.recv 0 p true]
        ++ [Event.close 0] ++ [Event.recv 0 0 false],
      panicked := false } ?_ ?_ ?_
  · simp [step, State.tasks, State.withTasks, State.log, State.advance, Task.advance,
      unwind, Frame.returning, recvEvents]
  · intro i hi
    match i with
    | 0 => exact absurd rfl hi
    | j + 1 => simp [step, State.tasks]
  exact AllRuns.done rfl (by simp [State.finished, readEvents])

/-- The chain of `FactorialChannel` goroutines with a reader in main. -/
theorem reader_factorialChannel (k n : Nat) : ∀ (x p : Int) (t : List Event),
    x = (n : Int) + 1 →
    AllRuns (Cfg.ideal k)
      (State.finished 0
        (t ++ chainCalls Fn.factorialChannel n x p ++ readEvents (chainValue n x p)))
      (2 * n + 4) (readerState Fn.factorialChannel x p [] [] [] t) := by
  induction n with
  | zero =>
    intro x p t hx
    have hx1 : x = 1 := by simpa using hx
    subst hx1
    simpa [chainCalls, chainValue] using
      reader_base k Fn.factorialChannel p [] [] [] t (by simp [unwind, Frame.returning])
  | succ n ih =>
    intro x p t hx
    have hx1 : x ≠ 1 := by omega
    refine AllRuns.only 1 (by simp [readerState])
      { main := [readerFrame],
          others := [[{ code := [Instr.goCall Fn.factorialChannel (x - 1) (x * p) 0],
                        deferred := [] },
                      { code := [], deferred := [] }]],
          chans := [Chan.fresh 0], trace := t ++ [Event.call Fn.factorialChannel x p 0],
          panicked := false } ?_ ?_ ?_
    · simp [step, readerState, readerFrame, State.tasks, State.withTasks, State.log, Fn.body,
        FactorialChannel, unwind_running, Cfg.ideal, IntModel.norm, hx1]
    · intro i hi
      match i with
      | 0 => simp [step, readerState, readerFrame, State.tasks, Chan.fresh]
      | 1 => exact absurd rfl hi
      | j + 2 => simp [step, readerState, readerFrame, State.tasks]
    refine AllRuns.only 1 (by simp [readerFrame])
      (readerState Fn.factorialChannel (x - 1) (x * p) [] [] []
        (t ++ [Event.call Fn.factorialChannel x p 0])) ?_ ?_ ?_
    · simp [step, readerState, readerFrame, State.tasks, State.withTasks, unwind,
        Frame.returning]
    · intro i hi
      match i with
      | 0 => simp [step, readerFrame, State.tasks, Chan.fresh]
      | 1 => exact absurd rfl hi
      | j + 2 => simp [step, State.tasks]
    have h := ih (x - 1) (x * p) (t ++ [Event.call Fn.factorialChannel x p 0]) (by omega)
    simpa [chainCalls, chainValue] using
      AllRuns.mono h (show 2 * n + 4 ≤ 2 * (n + 1) + 2 by omega)

/-- The chain of deferred `FactorialDefer` calls in a goroutine of its own, with a
reader in main. -/
theorem reader_factorialDefer (k n : Nat) : ∀ (x p : Int) (rest dfr : List Instr)
    (stk : Task) (t : List Event), x = (n : Int) + 1 →
    unwind ({ code := rest, deferred := dfr } :: stk) = [] →
    AllRuns (Cfg.ideal k)
      (State.finished 0
        (t ++ chainCalls Fn.factorialDefer n x p ++ readEvents (chainValue n x p)))
      (2 * n + 4) (readerState Fn.factorialDefer x p rest dfr stk t) := by
  induction n with
  | zero =>
    intro x p rest dfr stk t hx hK
    have hx1 : x = 1 := by simpa using hx
    subst hx1
    simpa [chainCalls, chainValue] using reader_base k Fn.factorialDefer p rest dfr stk t hK
  | succ n ih =>
    intro x p rest dfr stk t hx hK
    have hx1 : x ≠ 1 := by omega
    refine AllRuns.only 1 (by simp [readerState])
      { main := [readerFrame],
          others := [{ code := [Instr.deferCall Fn.factorialDefer (x - 1) (x * p) 0],
                       deferred := [] } :: { code := rest, deferred := dfr } :: stk],
          chans := [Chan.fresh 0], trace := t ++ [Event.call Fn.factorialDefer x p 0],
          panicked := false } ?_ ?_ ?_
    · simp [step, readerState, readerFrame, State.tasks, State.withTasks, State.log, Fn.body,
        FactorialDefer, unwind_running, Cfg.ideal, IntModel.norm, hx1]
    · intro i hi
      match i with
      | 0 => simp [step, readerState, readerFrame, State.tasks, Chan.fresh]
      | 1 => exact absurd rfl hi
      | j + 2 => simp [step, readerState, readerFrame, State.tasks]
    refine AllRuns.only 1 (by simp [readerFrame])
      (readerState Fn.factorialDefer (x - 1) (x * p) [] []
        ({ code := rest, deferred := dfr } :: stk)
        (t ++ [Event.call Fn.factorialDefer x p 0])) ?_ ?_ ?_
    · simp [step, readerState, readerFrame, State.tasks, State.withTasks, unwind_deferred]
    · intro i hi
      match i with
      | 0 => simp [step, readerFrame, State.tasks, Chan.fresh]
      | 1 => exact absurd rfl hi
      | j + 2 => simp [step, State.tasks]
    have h := ih (x - 1) (x * p) [] [] ({ code := rest, deferred := dfr } :: stk)
      (t ++ [Event.call Fn.factorialDefer x p 0]) (by omega) (by rw [unwind_done]; exact hK)
    simpa [chainCalls, chainValue] using
      AllRuns.mono h (show 2 * n + 4 ≤ 2 * (n + 1) + 2 by omega)

/-- Both chains, started as a goroutine, with a reader in main. -/
theorem goThenRead_runs (k : Nat) (f : Fn) (n : Nat) (x p : Int) (hx : x = (n : Int) + 1) :
    AllRuns (Cfg.ideal k)
      (State.finished 0 (chainCalls f n x p ++ readEvents (chainValue n x p)))
      (2 * n + 4) (goThenRead f x p) := by
  cases f with
  | factorialDefer =>
    simpa using reader_factorialDefer k n x p [] [] [] [] hx (by simp [unwind, Frame.returning])
  | factorialChannel =>
    simpa using reader_factorialChannel k n x p [] hx

/-- A synchronous `FactorialDefer` on a channel with buffer space, followed by two
reads in the same goroutine. -/
theorem sync_factorialDefer (k cap n : Nat) (hcap : 0 < cap) :
    ∀ (x p : Int) (rest dfr : List Instr) (stk : Task) (t : List Event), x = (n : Int) + 1 →
    unwind ({ code := rest, deferred := dfr } :: stk) = [readerFrame] →
    AllRuns (Cfg.ideal k)
      (State.finished cap
        (t ++ chainCalls Fn.factorialDefer n x p ++ bufferedEvents (chainValue n x p)))
      (2 * n + 5) (deferSyncState cap x p rest dfr stk t) := by
  induction n with
  | zero =>
    intro x p rest dfr stk t hx hK
    have hx1 : x = 1 := by simpa using hx
    subst hx1
    refine AllRuns.only 0 (by simp [deferSyncState])
      { main := { code := [Instr.send 0 p, Instr.close 0, Instr.ret], deferred := [] } ::
            { code := rest, deferred := dfr } :: stk,
          others := [], chans := [Chan.fresh cap],
          trace := t ++ [Event.call Fn.factorialDefer 1 p 0], panicked := false } ?_ ?_ ?_
    · simp [step, deferSyncState, State.tasks, State.withTasks, State.log, Fn.body,
        FactorialDefer, unwind_running, Cfg.ideal, IntModel.norm]
    · intro i hi
      match i with
      | 0 => exact absurd rfl hi
      | j + 1 => simp [step, deferSyncState, State.tasks]
    refine AllRuns.only 0 (by simp)
      { main := { code := [Instr.close 0, Instr.ret], deferred := [] } ::
            { code := rest, deferred := dfr } :: stk,
          others := [], chans := [{ cap := cap, buf := [p], closed := false }],
          trace := t ++ [Event.call Fn.factorialDefer 1 p 0] ++ [Event.send 0 p],
          panicked := false } ?_ ?_ ?_
    · simp [step, State.tasks, State.withTasks, State.log, State.advance, Task.advance,
        unwind_running, Chan.fresh, hcap]
    · intro i hi
      match i with
      | 0 => exact absurd rfl hi
      | j + 1 => simp [step, State.tasks]
    refine AllRuns.only 0 (by simp)
      { main := [readerFrame],
          others := [], chans := [{ cap := cap, buf := [p], closed := true }],
          trace := t ++ [Event.call Fn.factorialDefer 1 p 0] ++ [Event.send 0 p]
            ++ [Event.close 0],
          panicked := false } ?_ ?_ ?_
    · simp [step, State.tasks, State.withTasks, State.log, State.advance, Task.advance,
        unwind_ret, hK]
    · intro i hi
      match i with
      | 0 => exact absurd rfl hi
      | j + 1 => simp [step, State.tasks]
    refine AllRuns.only 0 (by simp)
      { main := [{ code := [Instr.recv 0], deferred := [] }],
          others := [], chans := [{ cap := cap, buf := [], closed := true }],
          trace := t ++ [Event.call Fn.factorialDefer 1 p 0] ++ [Event.send 0 p]
            ++ [Event.close 0] ++ [Event.recv 0 p true],
          panicked := false } ?_ ?_ ?_
    · simp [step, readerFrame, State.tasks, State.withTasks, State.log, State.advance,
        Task.advance, unwind_running, recvEvents]
    · intro i hi
      match i with
      | 0 => exact absurd rfl hi
      | j + 1 => simp [step, State.tasks]
    refine AllRuns.only 0 (by simp)
      { main := [],
          others := [], chans := [{ cap := cap, buf := [], closed := true }],
          trace := t ++ [Event.call Fn.factorialDefer 1 p 0] ++ [Event.send 0 p]
            ++ [Event.close 0] ++ [Event.recv 0 p true] ++ [Event.recv 0 0 false],
          panicked := false } ?_ ?_ ?_
    · simp [step, State.tasks, State.withTasks, State.log, State.advance, Task.advance,
        unwind, Frame.returning, recvEvents]
    · intro i hi
      match i with
      | 0 => exact absurd rfl hi
      | j + 1 => simp [step, State.tasks]
    exact AllRuns.done rfl (by simp [State.finished, chainCalls, chainValue, bufferedEvents])
  | succ n ih =>
    intro x p rest dfr stk t hx hK
    have hx1 : x ≠ 1 := by omega
    refine AllRuns.only 0 (by simp [deferSyncState])
      { main := { code := [Instr.deferCall Fn.factorialDefer (x - 1) (x * p) 0],
                    deferred := [] } :: { code := rest, deferred := dfr } :: stk,
          others := [], chans := [Chan.fresh cap],
          trace := t ++ [Event.call Fn.factorialDefer x p 0], panicked := false } ?_ ?_ ?_
    · simp [step, deferSyncState, State.tasks, State.withTasks, State.log, Fn.body,
        FactorialDefer, unwind_running, Cfg.ideal, IntModel.norm, hx1]
    · intro i hi
      match i with
      | 0 => exact absurd rfl hi
      | j + 1 => simp [step, deferSyncState, State.tasks]
    refine AllRuns.only 0 (by simp)
      (deferSyncState cap (x - 1) (x * p) [] [] ({ code := rest, deferred := dfr } :: stk)
        (t ++ [Event.call Fn.factorialDefer x p 0])) ?_ ?_ ?_
    · simp [step, deferSyncState, State.tasks, State.withTasks, unwind_deferred]
    · intro i hi
      match i with
      | 0 => exact absurd rfl hi
      | j + 1 => simp [step, State.tasks]
    have h := ih (x - 1) (x * p) [] [] ({ code := rest, deferred := dfr } :: stk)
      (t ++ [Event.call Fn.factorialDefer x p 0]) (by omega) (by rw [unwind_done]; exact hK)
    simpa [chainCalls, chainValue] using
      AllRuns.mono h (show 2 * n + 5 ≤ 2 * (n + 1) + 3 by omega)

/-- The way the driver calls `FactorialChannel`, for `x ≥ 2`, with two reads. -/
theorem callThenRead_factorialChannel (k n : Nat) (x p : Int) (hx : x = (n : Int) + 2) :
    AllRuns (Cfg.ideal k)
      (State.finished 0
        (chainCalls Fn.factorialChannel (n + 1) x p ++ readEvents (chainValue (n + 1) x p)))
      (2 * n + 6) (callThenRead 0 Fn.factorialChannel x p) := by
  have hx1 : x ≠ 1 := by omega
  refine AllRuns.only 0 (by simp [callThenRead, State.start])
    { main := [{ code := [Instr.goCall Fn.factorialChannel (x - 1) (x * p) 0], deferred := [] },
               readerFrame],
      others := [], chans := [Chan.fresh 0],
      trace := [Event.call Fn.factorialChannel x p 0], panicked := false } ?_ ?_ ?_
  · simp [step, callThenRead, State.start, readerFrame, State.tasks, State.withTasks, State.log,
      Fn.body, FactorialChannel, unwind_running, Cfg.ideal, IntModel.norm, hx1]
  · intro i hi
    match i with
    | 0 => exact absurd rfl hi
    | j + 1 => simp [step, callThenRead, State.start, State.tasks]
  refine AllRuns.only 0 (by simp)
    (readerState Fn.factorialChannel (x - 1) (x * p) [] [] []
      [Event.call Fn.factorialChannel x p 0]) ?_ ?_ ?_
  · simp [step, readerState, readerFrame, State.tasks, State.withTasks, unwind_done,
      unwind_running]
  · intro i hi
    match i with
    | 0 => exact absurd rfl hi
    | j + 1 => simp [step, State.tasks]
  have h := reader_factorialChannel k n (x - 1) (x * p) [Event.call Fn.factorialChannel x p 0]
    (by omega)
  simpa [chainCalls, chainValue] using
    AllRuns.mono h (show 2 * n + 4 ≤ 2 * n + 4 by omega)


/-! ## What the reader sees -/

theorem recvsOn_chainCalls (f : Fn) (n : Nat) (x p : Int) :
    recvsOn 0 (chainCalls f n x p) = [] := by
  induction n generalizing x p with
  | zero => simp [chainCalls, recvsOn]
  | succ n ih =>
    have h := ih (x - 1) (x * p)
    simp only [recvsOn] at h
    simp [chainCalls, recvsOn, h]

theorem writesOn_chainCalls (f : Fn) (n : Nat) (x p : Int) :
    writesOn 0 (chainCalls f n x p) = [] := by
  induction n generalizing x p with
  | zero => simp [chainCalls, writesOn]
  | succ n ih =>
    have h := ih (x - 1) (x * p)
    simp only [writesOn] at h
    simp [chainCalls, writesOn, h]

theorem recvsOn_append (c : Nat) (a b : List Event) :
    recvsOn c (a ++ b) = recvsOn c a ++ recvsOn c b := by
  simp [recvsOn]

theorem writesOn_append (c : Nat) (a b : List Event) :
    writesOn c (a ++ b) = writesOn c a ++ writesOn c b := by
  simp [writesOn]

theorem callsIn_append (a b : List Event) : callsIn (a ++ b) = callsIn a ++ callsIn b := by
  simp [callsIn]

theorem recvsOn_read (f : Fn) (n : Nat) (x p v : Int) :
    recvsOn 0 (chainCalls f n x p ++ readEvents v) = [(v, true), (0, false)] := by
  rw [recvsOn_append, recvsOn_chainCalls]
  simp [recvsOn, readEvents]

theorem recvsOn_buffered (f : Fn) (n : Nat) (x p v : Int) :
    recvsOn 0 (chainCalls f n x p ++ bufferedEvents v) = [(v, true), (0, false)] := by
  rw [recvsOn_append, recvsOn_chainCalls]
  simp [recvsOn, bufferedEvents]

theorem toNat_succ (n : Nat) : ((n : Int) + 1).toNat = n + 1 := by omega

/-! ## The claims on the channel variants -/

/-- C4, as stated, fails: on a fresh unbuffered channel, the kind `make(chan int)`
gives, `FactorialDefer(1, 1, ch)` called by the goroutine that is to read `ch` has
one possible first step, after which the program is deadlocked at the send: main has
not returned and nothing has been read.  The same happens at the other end of the
range, for `FactorialDefer(12, 1, ch)`, after the 23 steps that build the chain. -/
theorem FactorialDefer_call_then_read_deadlocks :
    (runSchedule (Cfg.ideal 0) (callThenRead 0 Fn.factorialDefer 1 1) [0]).map
        (fun s => (s.deadlocked (Cfg.ideal 0), s.exited, recvsOn 0 s.trace, s.main.head?))
      = some (true, false, [],
          some { code := [Instr.send 0 1, Instr.close 0, Instr.ret], deferred := [] })
    ∧ ((callThenRead 0 Fn.factorialDefer 1 1).succs (Cfg.ideal 0)).length = 1
    ∧ (runSchedule (Cfg.ideal 0) (callThenRead 0 Fn.factorialDefer 12 1)
          (List.replicate 23 0)).map
        (fun s => (s.deadlocked (Cfg.ideal 0), s.exited, recvsOn 0 s.trace, s.main.head?))
      = some (true, false, [],
          some { code := [Instr.send 0 479001600, Instr.close 0, Instr.ret], deferred := [] }) :=
  ⟨by decide, by decide, by decide⟩

/-- C4, amended: for every `x ≥ 1` (so for every `x` in 1..12), when `ch` is a fresh
channel with buffer capacity at least 1 and `FactorialDefer(x, 1, ch)` is called and
`ch` is then read twice, or when `ch` is a fresh unbuffered channel and the
invocation runs as a goroutine of its own while main reads `ch` twice, every schedule
terminates without deadlock, the first read yields `x!` and the second read yields
the channel-closed signal `0, false`. -/
theorem FactorialDefer_read_yields_factorial (x : Int) (k cap : Nat) (hx : 1 ≤ x)
    (hcap : 0 < cap) :
    EveryRun (Cfg.ideal k) (callThenRead cap Fn.factorialDefer x 1) (2 * x.toNat + 3)
        (fun s => recvsOn 0 s.trace = [(((x.toNat.factorial : Nat) : Int), true), (0, false)])
      ∧ EveryRun (Cfg.ideal k) (goThenRead Fn.factorialDefer x 1) (2 * x.toNat + 2)
        (fun s => recvsOn 0 s.trace = [(((x.toNat.factorial : Nat) : Int), true), (0, false)]) := by
  obtain ⟨n, rfl⟩ : ∃ n : Nat, x = (n : Int) + 1 := ⟨x.toNat - 1, int_eq_succ x hx⟩
  rw [toNat_succ]
  constructor
  · have h := (sync_factorialDefer k cap n hcap ((n : Int) + 1) 1 [Instr.recv 0, Instr.recv 0]
      [] [] [] rfl (by simp [unwind, Frame.returning, readerFrame])).sound
    refine EveryRun.imp h (fun s hs => ?_)
    rw [hs.1, List.nil_append, recvsOn_buffered, chainValue_eq n _ _ rfl, mul_one]
  · have h := (goThenRead_runs k Fn.factorialDefer n ((n : Int) + 1) 1 rfl).sound
    refine EveryRun.imp h (fun s hs => ?_)
    rw [hs.1, recvsOn_read, chainValue_eq n _ _ rfl, mul_one]

theorem FactorialDefer_read_yields_factorial_witness :
    (1 : Int) ≤ 3 ∧ 0 < 1 ∧
      (EveryRun (Cfg.ideal 0) (callThenRead 1 Fn.factorialDefer 3 1) (2 * (3 : Int).toNat + 3)
          (fun s => recvsOn 0 s.trace
            = [(((((3 : Int).toNat).factorial : Nat) : Int), true), (0, false)])
        ∧ EveryRun (Cfg.ideal 0) (goThenRead Fn.factorialDefer 3 1) (2 * (3 : Int).toNat + 2)
          (fun s => recvsOn 0 s.trace
            = [(((((3 : Int).toNat).factorial : Nat) : Int), true), (0, false)])) :=
  ⟨by decide, by decide, FactorialDefer_read_yields_factorial 3 0 1 (by decide) (by decide)⟩

theorem callThenRead_factorialChannel_reads (x : Int) (k : Nat) (hx : 2 ≤ x) :
    EveryRun (Cfg.ideal k) (callThenRead 0 Fn.factorialChannel x 1) (2 * x.toNat + 2)
      (fun s => recvsOn 0 s.trace = [(((x.toNat.factorial : Nat) : Int), true), (0, false)]) := by
  obtain ⟨n, rfl⟩ : ∃ n : Nat, x = (n : Int) + 2 := ⟨x.toNat - 2, by omega⟩
  have ht : ((n : Int) + 2).toNat = n + 2 := by omega
  rw [ht]
  have h := (callThenRead_factorialChannel k n ((n : Int) + 2) 1 rfl).sound
  refine EveryRun.imp h (fun s hs => ?_)
  rw [hs.1, recvsOn_read, chainValue_eq (n + 1) _ _ (by push_cast; ring), mul_one]

/-- C5 fails on the code at `x = 1`: called the way the driver calls it, on a fresh
unbuffered channel, `FactorialChannel(1, 1, ch)` has one possible first step, after
which the program is deadlocked at the send, which the caller itself executes: main
has not returned and nothing has been read.  For every `x ≥ 2` (so for every `x` in
2..12) the send is executed by a spawned goroutine and the claim holds: every
schedule terminates without deadlock, the first read of `ch` yields `x!` and the
second read yields the channel-closed signal `0, false`. -/
theorem FactorialChannel_one_call_then_read_deadlocks :
    (runSchedule (Cfg.ideal 0) (callThenRead 0 Fn.factorialChannel 1 1) [0]).map
        (fun s => (s.deadlocked (Cfg.ideal 0), s.exited, recvsOn 0 s.trace, s.main.head?))
      = some (true, false, [],
          some { code := [Instr.send 0 1, Instr.close 0, Instr.ret], deferred := [] })
    ∧ ((callThenRead 0 Fn.factorialChannel 1 1).succs (Cfg.ideal 0)).length = 1
    ∧ (∀ (x : Int) (k : Nat), 2 ≤ x →
        EveryRun (Cfg.ideal k) (callThenRead 0 Fn.factorialChannel x 1) (2 * x.toNat + 2)
          (fun s => recvsOn 0 s.trace
            = [(((x.toNat.factorial : Nat) : Int), true), (0, false)])) :=
  ⟨by decide, by decide, fun x k hx => callThenRead_factorialChannel_reads x k hx⟩

theorem chainDone_of_trace (f : Fn) (n : Nat) (x p : Int) (hx : x = (n : Int) + 1)
    (tail : List Event) (s : State) (ho : s.others = [])
    (ht : s.trace = chainCalls f n x p ++ Event.send 0 (chainValue n x p) :: tail)
    (hw : writesOn 0 tail = [Event.close 0]) (hc : callsIn tail = []) :
    ChainDone f (n + 1) ((((n + 1).factorial : Nat) : Int) * p) s := by
  have hv := chainValue_eq n x p hx
  rw [hv] at ht
  obtain ⟨pre, h1, _, h3, _⟩ := chainCalls_last f n x p hx
  rw [hv] at h1
  refine ⟨ho, ?_, ?_, pre, tail, h3, ?_⟩
  · rw [ht, writesOn_append, writesOn_chainCalls]
    simpa [writesOn] using hw
  · rw [ht, callsIn_append, List.length_append, callsIn_chainCalls]
    simpa [callsIn] using hc
  · rw [ht, h1]
    simp

/-! ## A larger stack changes nothing -/

theorem Factorial_more_stack (m : IntModel) (fuel d : Nat) :
    ∀ (x v : Int), Factorial m fuel x = some v → Factorial m (fuel + d) x = some v := by
  induction fuel with
  | zero => intro x v h; simp [Factorial] at h
  | succ fuel ih =>
    intro x v h
    rw [Nat.add_right_comm]
    simp only [Factorial] at h ⊢
    split
    · next hx => simpa [hx] using h
    · next hx =>
      simp only [hx, if_false, Option.map_eq_some'] at h
      obtain ⟨r, hr, hv⟩ := h
      rw [ih _ r hr]
      simp [hv]

theorem FactorialTail_more_stack (m : IntModel) (fuel d : Nat) :
    ∀ (x p v : Int), FactorialTail m fuel x p = some v →
      FactorialTail m (fuel + d) x p = some v := by
  induction fuel with
  | zero => intro x p v h; simp [FactorialTail] at h
  | succ fuel ih =>
    intro x p v h
    rw [Nat.add_right_comm]
    simp only [FactorialTail] at h ⊢
    split
    · next hx => simpa [hx] using h
    · next hx =>
      simp only [hx, if_false] at h
      exact ih _ _ v h

theorem step_more_stack (m : IntModel) (k d : Nat) (s : State) (i : Nat)
    (h : pureCallsReturn { ints := m, stack := k } s = true) :
    step { ints := m, stack := k + d } s i = step { ints := m, stack := k } s i := by
  by_cases hm : s.main = [] ∨ s.panicked = true
  · simp [step, hm]
  cases ht : s.tasks[i]? with
  | none => simp [step, hm, ht]
  | some t =>
    have hmem : t ∈ s.tasks := List.getElem?_mem ht
    simp only [pureCallsReturn, List.all_eq_true] at h
    have hfit := h t hmem
    cases t with
    | nil => simp [step, hm, ht]
    | cons fr stk =>
      cases hc : fr.code with
      | nil => simp [step, hm, ht, hc]
      | cons ins rest =>
        cases ins with
        | printlnFactorial label x =>
          simp only [Task.next, hc, List.head?_cons] at hfit
          obtain ⟨v, hv⟩ := Option.isSome_iff_exists.mp hfit
          have hv2 := Factorial_more_stack m k d x v hv
          simp [step, hm, ht, hc, hv, hv2]
        | printlnFactorialTail label x p =>
          simp only [Task.next, hc, List.head?_cons] at hfit
          obtain ⟨v, hv⟩ := Option.isSome_iff_exists.mp hfit
          have hv2 := FactorialTail_more_stack m k d x p v hv
          simp [step, hm, ht, hc, hv, hv2]
        | _ => simp [step, hm, ht, hc]

theorem canMove_more_stack (m : IntModel) (k d : Nat) (s : State)
    (h : pureCallsReturn { ints := m, stack := k } s = true) :
    s.canMove { ints := m, stack := k + d } = s.canMove { ints := m, stack := k } := by
  unfold State.canMove
  congr 1
  funext i
  rw [step_more_stack m k d s i h]

theorem runSchedule_append (cfg : Cfg) (a b : List Nat) : ∀ (s : State),
    runSchedule cfg s (a ++ b) = (runSchedule cfg s a).bind (fun s1 => runSchedule cfg s1 b) := by
  induction a with
  | nil => intro s; simp [runSchedule]
  | cons i a ih =>
    intro s
    simp only [List.cons_append, runSchedule]
    cases step cfg s i with
    | none => simp
    | some s1 => simpa using ih s1

theorem runSchedule_more_stack (m : IntModel) (k d : Nat) (inv post : State → Bool) (n : Nat)
    (init : State) (hchk : checkRuns { ints := m, stack := k } inv post n [init] = true)
    (hinv : ∀ s, inv s = true → pureCallsReturn { ints := m, stack := k } s = true) :
    ∀ (sched : List Nat) (s1 : State),
      runSchedule { ints := m, stack := k + d } init sched = some s1 →
        runSchedule { ints := m, stack := k } init sched = some s1 := by
  intro sched
  induction sched using List.reverseRecOn with
  | nil => intro s1 h; simpa [runSchedule] using h
  | append_singleton sched i ih =>
    intro s1 h
    rw [runSchedule_append] at h ⊢
    cases hs : runSchedule { ints := m, stack := k + d } init sched with
    | none => simp [hs] at h
    | some s2 =>
      have h2 := ih s2 hs
      rw [hs] at h
      rw [h2]
      simp only [Option.some_bind, runSchedule] at h ⊢
      have hfit := hinv s2
        (checkRuns_sound _ inv post n [init] hchk init (List.mem_singleton.mpr rfl) sched s2 h2).2.1
      rw [step_more_stack m k d s2 i hfit] at h
      exact h


/-! ## The base case, the driver and the doc comments -/

theorem main_checked :
    checkRuns (Cfg.ideal 11) (mainChecks (Cfg.ideal 11)) mainPost 51 [program] = true := by
  decide

theorem main_checked_int64 :
    checkRuns (Cfg.int64 11) (mainChecks (Cfg.int64 11)) mainPost 51 [program] = true := by
  decide

theorem mainChecks_fit (cfg : Cfg) (s : State) (h : mainChecks cfg s = true) :
    pureCallsReturn cfg s = true := by
  simp only [mainChecks, Bool.and_eq_true] at h
  exact h.2

theorem program_runs (m : IntModel) (d : Nat)
    (h : checkRuns { ints := m, stack := 11 } (mainChecks { ints := m, stack := 11 }) mainPost 51
      [program] = true)
    (sched : List Nat) (s1 : State)
    (hr : runSchedule { ints := m, stack := 11 + d } program sched = some s1) :
    sched.length ≤ 50 ∧ mainInvariant s1 = true ∧ (s1.exited = true → mainPost s1 = true) ∧
      (s1.exited = false → s1.canMove { ints := m, stack := 11 + d } = true) := by
  have hr0 :=
    runSchedule_more_stack m 11 d _ mainPost 51 program h (mainChecks_fit _) sched s1 hr
  obtain ⟨h1, h2, h3, h4⟩ :=
    checkRuns_sound _ _ mainPost 51 [program] h program (List.mem_singleton.mpr rfl) sched s1 hr0
  have hfit := mainChecks_fit _ s1 h2
  simp only [mainChecks, Bool.and_eq_true] at h2
  refine ⟨by omega, h2.1, h3, fun he => ?_⟩
  rw [canMove_more_stack m 11 d s1 hfit]
  exact h4 he

theorem mainPost_printed (s : State) (h : mainPost s = true) : printed s.trace = mainLines := by
  simp only [mainPost, Bool.and_eq_true, beq_iff_eq] at h
  exact h.1.1

theorem chainValue_eleven : chainValue 10 11 1 = 39916800 := by decide

/-- C8: with a stack of at least 11 nested invocations, under every schedule, with
unbounded and with 64-bit integers, `main` prints exactly the four lines
`Normal:  39916800`, `Tail:  39916800`, `Channel:  39916800` and `Defer:  39916800`,
in this order, and then returns, without deadlock (the schedule that always moves
the first goroutine that can move is one such run, of 49 steps); and for the input
11 each variant produces 39916800: `Factorial(11)` and `FactorialTail(11, 1)` return
it, and a reader of the channel of `FactorialDefer(11, 1, ch)` or of
`FactorialChannel(11, 1, ch)` receives it and then the channel-closed signal. -/
theorem main_prints_four_lines (k : Nat) (hk : 11 ≤ k) :
    EveryRun (Cfg.ideal k) program 50 (fun s => printed s.trace = mainLines)
      ∧ EveryRun (Cfg.int64 k) program 50 (fun s => printed s.trace = mainLines)
      ∧ (runSchedule (Cfg.ideal 11) program
            (List.replicate 5 0 ++ List.replicate 20 1 ++ List.replicate 3 0
              ++ List.replicate 21 1)).map (fun s => (s.exited, printed s.trace))
          = some (true, mainLines)
      ∧ Factorial IntModel.unbounded k 11 = some 39916800
      ∧ FactorialTail IntModel.unbounded k 11 1 = some 39916800
      ∧ (∀ f, EveryRun (Cfg.ideal k) (goThenRead f 11 1) 24
          (fun s => recvsOn 0 s.trace = [(39916800, true), (0, false)])) := by
  obtain ⟨d, rfl⟩ := Nat.exists_eq_add_of_le hk
  refine ⟨fun sched s1 hr => ?_, fun sched s1 hr => ?_, by decide,
    Factorial_more_stack _ 11 d 11 39916800 (by decide),
    FactorialTail_more_stack _ 11 d 11 1 39916800 (by decide), fun f => ?_⟩
  · obtain ⟨h1, _, h3, h4⟩ := program_runs IntModel.unbounded d main_checked sched s1 hr
    exact ⟨h1, fun he => mainPost_printed s1 (h3 he), h4⟩
  · obtain ⟨h1, _, h3, h4⟩ :=
      program_runs (IntModel.wrapping 64) d main_checked_int64 sched s1 hr
    exact ⟨h1, fun he => mainPost_printed s1 (h3 he), h4⟩
  · have h := (goThenRead_runs (11 + d) f 10 11 1 (by norm_num)).sound
    refine EveryRun.imp h (fun s hs => ?_)
    rw [hs.1, recvsOn_read, chainValue_eleven]

theorem main_prints_four_lines_witness :
    11 ≤ 11 ∧
      (EveryRun (Cfg.ideal 11) program 50 (fun s => printed s.trace = mainLines)
        ∧ EveryRun (Cfg.int64 11) program 50 (fun s => printed s.trace = mainLines)
        ∧ (runSchedule (Cfg.ideal 11) program
              (List.replicate 5 0 ++ List.replicate 20 1 ++ List.replicate 3 0
                ++ List.replicate 21 1)).map (fun s => (s.exited, printed s.trace))
            = some (true, mainLines)
        ∧ Factorial IntModel.unbounded 11 11 = some 39916800
        ∧ FactorialTail IntModel.unbounded 11 11 1 = some 39916800
        ∧ (∀ f, EveryRun (Cfg.ideal 11) (goThenRead f 11 1) 24
            (fun s => recvsOn 0 s.trace = [(39916800, true), (0, false)]))) :=
  ⟨by decide, main_prints_four_lines 11 (by decide)⟩

/-- C9 fails on the code: the two calls in the body of `main` are both calls of
`FactorialChannel`; in every state of every run of `main` only `FactorialChannel`
has been invoked; and when `main` has returned, the value under `Defer:` is the
one sent on `fact2` by the base case of `FactorialChannel`. -/
theorem main_invokes_only_FactorialChannel :
    main.filterMap (fun i =>
        match i with
        | Instr.call f x p c => some (f, x, p, c)
        | _ => none)
      = [(Fn.factorialChannel, 11, 1, 0), (Fn.factorialChannel, 11, 1, 1)]
    ∧ (∀ (sched : List Nat) (s1 : State),
        runSchedule (Cfg.ideal 11) program sched = some s1 →
          ∀ c ∈ callsIn s1.trace, c.1 = Fn.factorialChannel)
    ∧ EveryRun (Cfg.ideal 11) program 50
        (fun s => Event.call Fn.factorialChannel 1 39916800 1 ∈ s.trace
          ∧ s.trace.drop (s.trace.length - 3)
            = [Event.send 1 39916800, Event.recv 1 39916800 true,
               Event.print "Defer:  39916800"]) := by
  refine ⟨by decide, fun sched s1 hr c hc => ?_, fun sched s1 hr => ?_⟩
  · obtain ⟨_, h2, _, _⟩ := program_runs IntModel.unbounded 0 main_checked sched s1 hr
    simp only [mainInvariant, Bool.and_eq_true, List.all_eq_true, beq_iff_eq] at h2
    exact h2.1.1 c hc
  · obtain ⟨h1, _, h3, h4⟩ := program_runs IntModel.unbounded 0 main_checked sched s1 hr
    refine ⟨h1, fun he => ?_, h4⟩
    have hp := h3 he
    simp only [mainPost, Bool.and_eq_true, beq_iff_eq, List.contains_eq_any_beq,
      List.any_eq_true] at hp
    obtain ⟨⟨_, e, he1, he2⟩, hd⟩ := hp
    exact ⟨he2 ▸ he1, hd⟩

/-- C10 fails on the code: called as `main` calls it, `FactorialChannel(11, 1, ch)`
has returned after two steps while `ch` is still open and empty; under every
schedule the result is received before the close and the read that follows the
close yields the channel-closed signal `0, false`, for `FactorialChannel` called
this way and for `FactorialDefer` run as a goroutine; and in every state of every
run of `main` a closed channel holds no value, and when `fact1` is closed main has
already received the result from it. -/
theorem result_is_read_before_close :
    (runSchedule (Cfg.ideal 0) (callThenRead 0 Fn.factorialChannel 11 1) [0, 0]).map
        (fun s => (s.main, s.chans)) = some ([readerFrame], [Chan.fresh 0])
    ∧ EveryRun (Cfg.ideal 0) (callThenRead 0 Fn.factorialChannel 11 1) 24
        (fun s => ∃ pre, writesOn 0 pre = [] ∧ recvsOn 0 pre = [] ∧ s.trace = pre ++
          [Event.send 0 39916800, Event.recv 0 39916800 true, Event.close 0,
           Event.recv 0 0 false])
    ∧ EveryRun (Cfg.ideal 0) (goThenRead Fn.factorialDefer 11 1) 24
        (fun s => ∃ pre, writesOn 0 pre = [] ∧ recvsOn 0 pre = [] ∧ s.trace = pre ++
          [Event.send 0 39916800, Event.recv 0 39916800 true, Event.close 0,
           Event.recv 0 0 false])
    ∧ (∀ (sched : List Nat) (s1 : State),
        runSchedule (Cfg.ideal 11) program sched = some s1 →
          (∀ ch ∈ s1.chans, ch.closed = true → ch.buf = [])
            ∧ ∀ ch, s1.chans.get? 0 = some ch → ch.closed = true →
                Event.recv 0 39916800 true ∈ s1.trace) := by
  refine ⟨by decide, ?_, ?_, fun sched s1 hr => ⟨fun ch hch hc => ?_, fun ch hch hc => ?_⟩⟩
  · have h := (callThenRead_factorialChannel 0 9 11 1 (by norm_num)).sound
    refine EveryRun.imp h (fun s hs => ?_)
    exact ⟨chainCalls Fn.factorialChannel 10 11 1, writesOn_chainCalls _ _ _ _,
      recvsOn_chainCalls _ _ _ _, by rw [hs.1, chainValue_eleven]; rfl⟩
  · have h := (goThenRead_runs 0 Fn.factorialDefer 10 11 1 (by norm_num)).sound
    refine EveryRun.imp h (fun s hs => ?_)
    exact ⟨chainCalls Fn.factorialDefer 10 11 1, writesOn_chainCalls _ _ _ _,
      recvsOn_chainCalls _ _ _ _, by rw [hs.1, chainValue_eleven]; rfl⟩
  · obtain ⟨_, h2, _, _⟩ := program_runs IntModel.unbounded 0 main_checked sched s1 hr
    simp only [mainInvariant, Bool.and_eq_true, List.all_eq_true, Bool.or_eq_true,
      Bool.not_eq_true', List.isEmpty_iff] at h2
    rcases h2.1.2 ch hch with h | h
    · rw [hc] at h
      cases h
    · exact h
  · obtain ⟨_, h2, _, _⟩ := program_runs IntModel.unbounded 0 main_checked sched s1 hr
    simp only [mainInvariant, Bool.and_eq_true, hch, Option.all_some, Bool.or_eq_true,
      Bool.not_eq_true', List.contains_eq_any_beq, List.any_eq_true, beq_iff_eq] at h2
    rcases h2.2 with h | ⟨e, he1, he2⟩
    · rw [hc] at h
      cases h
    · exact he2 ▸ he1

/-! ## Wrapping integers -/

theorem norm_modEq (w : Nat) (z : Int) :
    (IntModel.wrapping w).norm z ≡ z [ZMOD 2 ^ w] := by
  have h : (z + 2 ^ (w - 1)) % 2 ^ w ≡ z + 2 ^ (w - 1) [ZMOD 2 ^ w] := Int.mod_modEq _ _
  have h2 := h.sub_right (2 ^ (w - 1))
  simpa [IntModel.norm] using h2

theorem norm_congr (w : Nat) (a b : Int) (h : a ≡ b [ZMOD 2 ^ w]) :
    (IntModel.wrapping w).norm a = (IntModel.wrapping w).norm b := by
  have h2 : (a + 2 ^ (w - 1)) % 2 ^ w = (b + 2 ^ (w - 1)) % 2 ^ w := h.add_right _
  simp only [IntModel.norm, h2]

theorem norm_of_fits (w : Nat) (z : Int) (hw : 1 ≤ w) (h0 : -(2 ^ (w - 1)) ≤ z)
    (h1 : z < 2 ^ (w - 1)) : (IntModel.wrapping w).norm z = z := by
  have hM : (2 : Int) ^ w = 2 * 2 ^ (w - 1) := by
    obtain ⟨v, rfl⟩ : ∃ v, w = v + 1 := ⟨w - 1, by omega⟩
    simp [pow_succ, mul_comm]
  simp only [IntModel.norm]
  rw [Int.emod_eq_of_lt (by omega) (by omega)]
  ring

theorem Factorial_wrapping (w n : Nat) : ∀ (fuel : Nat), n + 1 ≤ fuel →
    (n : Int) + 1 < 2 ^ (w - 1) →
    Factorial (IntModel.wrapping w) fuel ((n : Int) + 1)
      = some ((IntModel.wrapping w).norm (((n + 1).factorial : Nat) : Int)) := by
  induction n with
  | zero =>
    intro fuel hf hx
    cases fuel with
    | zero => omega
    | succ k =>
      have hw : 1 ≤ w := by
        by_contra hw
        have : w = 0 := by omega
        subst this
        simp at hx
      have h1 := norm_of_fits w 1 hw (by
        have : (0 : Int) < 2 ^ (w - 1) := by positivity
        omega) (by simpa using hx)
      simp [Factorial, h1]
  | succ n ih =>
    intro fuel hf hx
    cases fuel with
    | zero => omega
    | succ k =>
      have hne : ((n : Int) + 1 + 1) ≠ 1 := by omega
      have hw : 1 ≤ w := by
        by_contra hw
        have : w = 0 := by omega
        subst this
        simp at hx
        omega
      have hx' : ((n + 1 : Nat) : Int) + 1 = (n : Int) + 1 + 1 := by push_cast; ring
      rw [hx'] at hx ⊢
      have hpos : (0 : Int) < 2 ^ (w - 1) := by positivity
      have hsub : (IntModel.wrapping w).norm ((n : Int) + 1 + 1 - 1) = (n : Int) + 1 := by
        rw [show ((n : Int) + 1 + 1 - 1) = (n : Int) + 1 by ring]
        exact norm_of_fits w _ hw (by omega) (by omega)
      simp only [Factorial, hne, if_false, hsub]
      rw [ih k (by omega) (by omega)]
      simp only [Option.map_some', Option.some.injEq]
      apply norm_congr
      have h1 := (norm_modEq w (((n + 1).factorial : Nat) : Int)).mul_right ((n : Int) + 1 + 1)
      refine h1.trans ?_
      rw [Nat.factorial_succ (n + 1)]
      push_cast
      rw [mul_comm]

theorem wrapping_width (w : Nat) (x : Int) (h1 : 1 ≤ x) (hx : x < 2 ^ (w - 1)) : 2 ≤ w := by
  by_contra hw
  have h : w - 1 = 0 := by omega
  rw [h] at hx
  simp at hx
  omega

theorem FactorialTail_wrapping (w n : Nat) : ∀ (fuel : Nat) (p : Int), n + 1 ≤ fuel →
    (n : Int) + 1 < 2 ^ (w - 1) →
    FactorialTail (IntModel.wrapping w) fuel ((n : Int) + 1) p
      = some ((IntModel.wrapping w).norm ((((n + 1).factorial : Nat) : Int) * p)) := by
  induction n with
  | zero =>
    intro fuel p hf hx
    cases fuel with
    | zero => omega
    | succ k => simp [FactorialTail]
  | succ n ih =>
    intro fuel p hf hx
    cases fuel with
    | zero => omega
    | succ k =>
      have hne : ((n : Int) + 1 + 1) ≠ 1 := by omega
      have hx' : ((n + 1 : Nat) : Int) + 1 = (n : Int) + 1 + 1 := by push_cast; ring
      rw [hx'] at hx ⊢
      have hw := wrapping_width w _ (by omega) hx
      have hpos : (0 : Int) < 2 ^ (w - 1) := by positivity
      have hsub : (IntModel.wrapping w).norm ((n : Int) + 1 + 1 - 1) = (n : Int) + 1 := by
        rw [show ((n : Int) + 1 + 1 - 1) = (n : Int) + 1 by ring]
        exact norm_of_fits w _ (by omega) (by omega) (by omega)
      simp only [FactorialTail, hne, if_false, hsub]
      rw [ih k _ (by omega) (by omega)]
      simp only [Option.some.injEq]
      apply norm_congr
      have h1 := (norm_modEq w (p * ((n : Int) + 1 + 1))).mul_left
        (((n + 1).factorial : Nat) : Int)
      refine h1.trans ?_
      rw [Nat.factorial_succ (n + 1)]
      push_cast
      rw [show ((n + 1).factorial : Int) * (p * ((n : Int) + 1 + 1))
        = ((n : Int) + 1 + 1) * ((n + 1).factorial : Int) * p by ring]

/-- C13: for every `x ≥ 1` that a `w`-bit `int` can hold, with multiplication that
wraps modulo `2 ^ w` (in particular `w = 64` and `w = 32`), `Factorial(x)` and
`FactorialTail(x, 1)` return the same value, the wrapped `x!`, as soon as the stack
allows `x` nested invocations. -/
theorem variants_agree_when_wrapping (w : Nat) (x : Int) (fuel : Nat) (h1 : 1 ≤ x)
    (hx : x < 2 ^ (w - 1)) (hfuel : x.toNat ≤ fuel) :
    Factorial (IntModel.wrapping w) fuel x = FactorialTail (IntModel.wrapping w) fuel x 1
      ∧ Factorial (IntModel.wrapping w) fuel x
        = some ((IntModel.wrapping w).norm ((x.toNat.factorial : Nat) : Int)) := by
  obtain ⟨n, rfl⟩ : ∃ n : Nat, x = (n : Int) + 1 := ⟨x.toNat - 1, int_eq_succ x h1⟩
  rw [toNat_succ] at hfuel ⊢
  rw [Factorial_wrapping w n fuel hfuel hx, FactorialTail_wrapping w n fuel 1 hfuel hx, mul_one]
  exact ⟨rfl, rfl⟩

theorem variants_agree_when_wrapping_witness :
    (1 : Int) ≤ 21 ∧ (21 : Int) < 2 ^ (64 - 1) ∧ (21 : Int).toNat ≤ 21 ∧
      (Factorial (IntModel.wrapping 64) 21 21 = FactorialTail (IntModel.wrapping 64) 21 21 1
        ∧ Factorial (IntModel.wrapping 64) 21 21
          = some ((IntModel.wrapping 64).norm ((((21 : Int).toNat).factorial : Nat) : Int))) :=
  ⟨by decide, by decide, by decide,
    variants_agree_when_wrapping 64 21 21 (by decide) (by decide) (by decide)⟩

/-! ## The recorded arithmetic and calls -/

theorem FactorialTraced_value (m : IntModel) (fuel : Nat) : ∀ (x : Int),
    (FactorialTraced m fuel x).map Traced.value = Factorial m fuel x := by
  induction fuel with
  | zero => intro x; rfl
  | succ fuel ih =>
    intro x
    simp only [FactorialTraced, Factorial]
    split
    · rfl
    · rw [← ih]
      cases FactorialTraced m fuel (m.norm (x - 1)) <;> rfl

theorem FactorialTailTraced_value (m : IntModel) (fuel : Nat) : ∀ (x p : Int),
    (FactorialTailTraced m fuel x p).map Traced.value = FactorialTail m fuel x p := by
  induction fuel with
  | zero => intro x p; rfl
  | succ fuel ih =>
    intro x p
    simp only [FactorialTailTraced, FactorialTail]
    split
    · rfl
    · rw [← ih]
      cases FactorialTailTraced m fuel (m.norm (x - 1)) (m.norm (p * x)) <;> rfl

theorem FactorialTraced_more_stack (m : IntModel) (fuel d : Nat) :
    ∀ (x : Int) (t : Traced), FactorialTraced m fuel x = some t →
      FactorialTraced m (fuel + d) x = some t := by
  induction fuel with
  | zero => intro x t h; simp [FactorialTraced] at h
  | succ fuel ih =>
    intro x t h
    rw [Nat.add_right_comm]
    simp only [FactorialTraced] at h ⊢
    split
    · next hx => simpa [hx] using h
    · next hx =>
      simp only [hx, if_false, Option.map_eq_some'] at h
      obtain ⟨r, hr, hv⟩ := h
      rw [ih _ r hr, Option.map_some']
      exact congrArg some hv

theorem FactorialTailTraced_more_stack (m : IntModel) (fuel d : Nat) :
    ∀ (x p : Int) (t : Traced), FactorialTailTraced m fuel x p = some t →
      FactorialTailTraced m (fuel + d) x p = some t := by
  induction fuel with
  | zero => intro x p t h; simp [FactorialTailTraced] at h
  | succ fuel ih =>
    intro x p t h
    rw [Nat.add_right_comm]
    simp only [FactorialTailTraced] at h ⊢
    split
    · next hx => simpa [hx] using h
    · next hx =>
      simp only [hx, if_false, Option.map_eq_some'] at h
      obtain ⟨r, hr, hv⟩ := h
      rw [ih _ _ r hr, Option.map_some']
      exact congrArg some hv

theorem exactly_some (m : IntModel) (v : Int) (r : Option Traced) (h : exactly m v r = true) :
    ∃ t, r = some t ∧ t.value = v := by
  cases r with
  | none => simp [exactly] at h
  | some t =>
    simp only [exactly, Bool.and_eq_true, beq_iff_eq] at h
    exact ⟨t, rfl, h.1⟩

/-- What is established for a width, an argument and a stack: both variants return
`v` and none of their arithmetic overflows. -/
theorem exact_more_stack (m : IntModel) (x : Int) (v : Int) (fuel d : Nat)
    (hF : exactly m v (FactorialTraced m fuel x) = true)
    (hT : exactly m v (FactorialTailTraced m fuel x 1) = true) :
    exactly m v (FactorialTraced m (fuel + d) x) = true
      ∧ exactly m v (FactorialTailTraced m (fuel + d) x 1) = true
      ∧ Factorial m (fuel + d) x = some v
      ∧ FactorialTail m (fuel + d) x 1 = some v := by
  obtain ⟨t, ht, hv⟩ := exactly_some m v _ hF
  obtain ⟨u, hu, hw⟩ := exactly_some m v _ hT
  have ht2 := FactorialTraced_more_stack m fuel d x t ht
  have hu2 := FactorialTailTraced_more_stack m fuel d x 1 u hu
  refine ⟨by rw [ht2, ← ht]; exact hF, by rw [hu2, ← hu]; exact hT, ?_, ?_⟩
  · rw [← FactorialTraced_value, ht2, Option.map_some', hv]
  · rw [← FactorialTailTraced_value, hu2, Option.map_some', hw]

set_option maxRecDepth 100000 in
/-- C14: with `int` a signed `w`-bit integer that wraps around, for every `x` in
1..12 when `w = 32` and for every `x` in 1..20 when `w = 64`, `Factorial(x)` and
`FactorialTail(x, 1)` return the true `x!` and none of their subtractions and
multiplications overflows; the bounds are tight: at `x = 13` for `w = 32` and at
`x = 21` for `w = 64` both variants overflow and return a value other than `x!`. -/
theorem exact_up_to_the_bound (w x fuel : Nat) (h1 : 1 ≤ x)
    (hw : (w = 32 ∧ x ≤ 12) ∨ (w = 64 ∧ x ≤ 20)) (hfuel : x ≤ fuel) :
    (exactly (IntModel.wrapping w) (x.factorial : Int)
          (FactorialTraced (IntModel.wrapping w) fuel (x : Int)) = true
        ∧ exactly (IntModel.wrapping w) (x.factorial : Int)
          (FactorialTailTraced (IntModel.wrapping w) fuel (x : Int) 1) = true
        ∧ Factorial (IntModel.wrapping w) fuel (x : Int) = some (x.factorial : Int)
        ∧ FactorialTail (IntModel.wrapping w) fuel (x : Int) 1 = some (x.factorial : Int))
      ∧ (Factorial (IntModel.wrapping 32) 13 13 = some 1932053504
        ∧ FactorialTail (IntModel.wrapping 32) 13 13 1 = some 1932053504
        ∧ (1932053504 : Int) ≠ (Nat.factorial 13 : Int)
        ∧ (FactorialTraced (IntModel.wrapping 32) 13 13).map
            (fun t => t.arith.all (IntModel.wrapping 32).fits) = some false
        ∧ (FactorialTailTraced (IntModel.wrapping 32) 13 13 1).map
            (fun t => t.arith.all (IntModel.wrapping 32).fits) = some false)
      ∧ (Factorial (IntModel.wrapping 64) 21 21 = some (-4249290049419214848)
        ∧ FactorialTail (IntModel.wrapping 64) 21 21 1 = some (-4249290049419214848)
        ∧ (-4249290049419214848 : Int) ≠ (Nat.factorial 21 : Int)
        ∧ (FactorialTraced (IntModel.wrapping 64) 21 21).map
            (fun t => t.arith.all (IntModel.wrapping 64).fits) = some false
        ∧ (FactorialTailTraced (IntModel.wrapping 64) 21 21 1).map
            (fun t => t.arith.all (IntModel.wrapping 64).fits) = some false) := by
  refine ⟨?_, ⟨by decide, by decide, by decide, by decide, by decide⟩,
    ⟨by decide, by decide, by decide, by decide, by decide⟩⟩
  obtain ⟨d, rfl⟩ := Nat.exists_eq_add_of_le hfuel
  rcases hw with ⟨rfl, hx⟩ | ⟨rfl, hx⟩
  · interval_cases x <;> exact exact_more_stack _ _ _ _ d (by decide) (by decide)
  · interval_cases x <;> exact exact_more_stack _ _ _ _ d (by decide) (by decide)

theorem exact_up_to_the_bound_witness :
    1 ≤ 12 ∧ ((32 = 32 ∧ 12 ≤ 12) ∨ (32 = 64 ∧ 12 ≤ 20)) ∧ 12 ≤ 12 ∧
      (exactly (IntModel.wrapping 32) (Nat.factorial 12 : Int)
          (FactorialTraced (IntModel.wrapping 32) 12 ((12 : Nat) : Int)) = true
        ∧ exactly (IntModel.wrapping 32) (Nat.factorial 12 : Int)
          (FactorialTailTraced (IntModel.wrapping 32) 12 ((12 : Nat) : Int) 1) = true
        ∧ Factorial (IntModel.wrapping 32) 12 ((12 : Nat) : Int)
          = some (Nat.factorial 12 : Int)
        ∧ FactorialTail (IntModel.wrapping 32) 12 ((12 : Nat) : Int) 1
          = some (Nat.factorial 12 : Int))
      ∧ (exactly (IntModel.wrapping 64) (Nat.factorial 20 : Int)
          (FactorialTraced (IntModel.wrapping 64) 25 ((20 : Nat) : Int)) = true
        ∧ exactly (IntModel.wrapping 64) (Nat.factorial 20 : Int)
          (FactorialTailTraced (IntModel.wrapping 64) 25 ((20 : Nat) : Int) 1) = true
        ∧ Factorial (IntModel.wrapping 64) 25 ((20 : Nat) : Int)
          = some (Nat.factorial 20 : Int)
        ∧ FactorialTail (IntModel.wrapping 64) 25 ((20 : Nat) : Int) 1
          = some (Nat.factorial 20 : Int)) :=
  ⟨by decide, by decide, by decide,
    (exact_up_to_the_bound 32 12 12 (by decide) (by decide) (by decide)).1,
    (exact_up_to_the_bound 64 20 25 (by decide) (by decide) (by decide)).1⟩

/-! ## Termination of the pure variants -/

theorem FactorialTraced_calls (fuel n : Nat) (h : n + 1 ≤ fuel) :
    (FactorialTraced IntModel.unbounded fuel ((n : Int) + 1)).map Traced.calls = some n := by
  induction n generalizing fuel with
  | zero =>
    cases fuel with
    | zero => omega
    | succ k => simp [FactorialTraced]
  | succ n ih =>
    cases fuel with
    | zero => omega
    | succ k =>
      have hne : ((n : Int) + 1 + 1) ≠ 1 := by omega
      have hk := ih k (by omega)
      simp only [FactorialTraced, IntModel.norm, Nat.cast_add, Nat.cast_one, hne, if_false]
      rw [show ((n : Int) + 1 + 1 - 1) = (n : Int) + 1 by ring]
      cases hr : FactorialTraced IntModel.unbounded k ((n : Int) + 1) with
      | none => simp [hr] at hk
      | some t =>
        simp only [hr, Option.map_some', Option.some.injEq] at hk ⊢
        omega

theorem FactorialTailTraced_calls (fuel n : Nat) (p : Int) (h : n + 1 ≤ fuel) :
    (FactorialTailTraced IntModel.unbounded fuel ((n : Int) + 1) p).map Traced.calls
      = some n := by
  induction n generalizing fuel p with
  | zero =>
    cases fuel with
    | zero => omega
    | succ k => simp [FactorialTailTraced]
  | succ n ih =>
    cases fuel with
    | zero => omega
    | succ k =>
      have hne : ((n : Int) + 1 + 1) ≠ 1 := by omega
      have hk := ih k (p * ((n : Int) + 1 + 1)) (by omega)
      simp only [FactorialTailTraced, IntModel.norm, Nat.cast_add, Nat.cast_one, hne, if_false]
      rw [show ((n : Int) + 1 + 1 - 1) = (n : Int) + 1 by ring]
      cases hr : FactorialTailTraced IntModel.unbounded k ((n : Int) + 1)
          (p * ((n : Int) + 1 + 1)) with
      | none => simp [hr] at hk
      | some t =>
        simp only [hr, Option.map_some', Option.some.injEq] at hk ⊢
        omega

theorem Factorial_needs_stack (fuel : Nat) : ∀ (x : Int), (fuel : Int) < x →
    Factorial IntModel.unbounded fuel x = none := by
  induction fuel with
  | zero => intro x _; rfl
  | succ fuel ih =>
    intro x hx
    have hne : x ≠ 1 := by omega
    simp only [Factorial, IntModel.norm, hne, if_false]
    rw [ih (x - 1) (by omega)]
    rfl

theorem FactorialTail_needs_stack (fuel : Nat) : ∀ (x p : Int), (fuel : Int) < x →
    FactorialTail IntModel.unbounded fuel x p = none := by
  induction fuel with
  | zero => intro x p _; rfl
  | succ fuel ih =>
    intro x p hx
    have hne : x ≠ 1 := by omega
    simp only [FactorialTail, IntModel.norm, hne, if_false]
    exact ih (x - 1) _ (by omega)

theorem Factorial_diverges (fuel : Nat) : ∀ (x : Int), x ≤ 0 →
    Factorial IntModel.unbounded fuel x = none := by
  induction fuel with
  | zero => intro x _; rfl
  | succ fuel ih =>
    intro x hx
    have hne : x ≠ 1 := by omega
    simp only [Factorial, IntModel.norm, hne, if_false]
    rw [ih (x - 1) (by omega)]
    rfl

theorem FactorialTail_diverges (fuel : Nat) : ∀ (x p : Int), x ≤ 0 →
    FactorialTail IntModel.unbounded fuel x p = none := by
  induction fuel with
  | zero => intro x p _; rfl
  | succ fuel ih =>
    intro x p hx
    have hne : x ≠ 1 := by omega
    simp only [FactorialTail, IntModel.norm, hne, if_false]
    exact ih (x - 1) _ (by omega)

/-- C15: over unbounded integers, for every `x ≥ 1` and every `progress`,
`Factorial(x)` and `FactorialTail(x, progress)` return, after exactly `x - 1`
recursive calls, as soon as the stack allows `x` nested invocations, and they do not
return within a smaller stack; each recursive call is on `x - 1`, so `x` decreases
to the base case `x == 1`; and for every `x ≤ 0` neither function returns, whatever
the stack: the recursion never reaches the base case. -/
theorem pure_variants_terminate_from_one (x progress : Int) (fuel : Nat) :
    (1 ≤ x → x.toNat ≤ fuel →
        (FactorialTraced IntModel.unbounded fuel x).map Traced.calls = some (x.toNat - 1)
        ∧ (FactorialTailTraced IntModel.unbounded fuel x progress).map Traced.calls
            = some (x.toNat - 1)
        ∧ Factorial IntModel.unbounded fuel x = some ((x.toNat.factorial : Nat) : Int)
        ∧ FactorialTail IntModel.unbounded fuel x progress
            = some (((x.toNat.factorial : Nat) : Int) * progress))
      ∧ (1 ≤ x → fuel < x.toNat →
        Factorial IntModel.unbounded fuel x = none
        ∧ FactorialTail IntModel.unbounded fuel x progress = none)
      ∧ (x ≠ 1 →
        Factorial IntModel.unbounded (fuel + 1) x
            = (Factorial IntModel.unbounded fuel (x - 1)).map (fun r => r * x)
        ∧ FactorialTail IntModel.unbounded (fuel + 1) x progress
            = FactorialTail IntModel.unbounded fuel (x - 1) (progress * x))
      ∧ (x ≤ 0 →
        Factorial IntModel.unbounded fuel x = none
        ∧ FactorialTail IntModel.unbounded fuel x progress = none) := by
  refine ⟨fun h1 hf => ?_, fun h1 hf => ?_, fun hne => ?_, fun h0 => ?_⟩
  · obtain ⟨n, rfl⟩ : ∃ n : Nat, x = (n : Int) + 1 := ⟨x.toNat - 1, int_eq_succ x h1⟩
    rw [toNat_succ] at hf ⊢
    exact ⟨FactorialTraced_calls fuel n hf, FactorialTailTraced_calls fuel n progress hf,
      Factorial_succ fuel n hf, FactorialTail_succ fuel n progress hf⟩
  · exact ⟨Factorial_needs_stack fuel x (by omega),
      FactorialTail_needs_stack fuel x progress (by omega)⟩
  · simp [Factorial, FactorialTail, IntModel.norm, hne]
  · exact ⟨Factorial_diverges fuel x h0, FactorialTail_diverges fuel x progress h0⟩

theorem pure_variants_terminate_from_one_witness :
    ((FactorialTraced IntModel.unbounded 7 5).map Traced.calls = some ((5 : Int).toNat - 1)
        ∧ (FactorialTailTraced IntModel.unbounded 7 5 3).map Traced.calls
            = some ((5 : Int).toNat - 1)
        ∧ Factorial IntModel.unbounded 7 5 = some ((((5 : Int).toNat).factorial : Nat) : Int)
        ∧ FactorialTail IntModel.unbounded 7 5 3
            = some (((((5 : Int).toNat).factorial : Nat) : Int) * 3))
      ∧ (Factorial IntModel.unbounded 4 5 = none
        ∧ FactorialTail IntModel.unbounded 4 5 3 = none)
      ∧ (Factorial IntModel.unbounded 9 (-2) = none
        ∧ FactorialTail IntModel.unbounded 9 (-2) 3 = none) :=
  ⟨(pure_variants_terminate_from_one 5 3 7).1 (by decide) (by decide),
    (pure_variants_terminate_from_one 5 3 4).2.1 (by decide) (by decide),
    (pure_variants_terminate_from_one (-2) 3 9).2.2.2 (by decide)⟩

/-! ## The invocations of a chain -/

theorem callsIn_cons_call (f : Fn) (x p : Int) (c : Nat) (es : List Event) :
    callsIn (Event.call f x p c :: es) = (f, x, p) :: callsIn es := by
  simp [callsIn]

theorem chainCalls_firsts (f : Fn) (n : Nat) : ∀ (x p : Int), x = (n : Int) + 1 →
    (callsIn (chainCalls f n x p)).map (fun c => c.2.1)
      = (List.iota (n + 1)).map (fun (k : Nat) => (k : Int)) := by
  induction n with
  | zero =>
    intro x p hx
    simp [chainCalls, callsIn, hx]
  | succ n ih =>
    intro x p hx
    rw [chainCalls, callsIn_cons_call, List.map_cons, ih (x - 1) (x * p) (by omega),
      List.iota_succ, List.map_cons, hx]
    push_cast
    rfl

theorem chainCalls_accumulators (f : Fn) (n : Nat) : ∀ (x p : Int), x = (n : Int) + 1 →
    ∀ c ∈ callsIn (chainCalls f n x p), c.1 = f ∧ 1 ≤ c.2.1 ∧ c.2.1 ≤ x
      ∧ ((c.2.1.toNat.factorial : Nat) : Int) * c.2.2
          = (((n + 1).factorial : Nat) : Int) * p := by
  induction n with
  | zero =>
    intro x p hx c hc
    have hx1 : x = 1 := by simpa using hx
    subst hx1
    rw [chainCalls, callsIn_cons_call] at hc
    simp only [callsIn, List.filterMap_nil, List.mem_singleton] at hc
    subst hc
    simp
  | succ n ih =>
    intro x p hx c hc
    rw [chainCalls, callsIn_cons_call, List.mem_cons] at hc
    rcases hc with rfl | hc
    · have ht : x.toNat = n + 1 + 1 := by omega
      refine ⟨rfl, ?_, le_refl _, ?_⟩
      · show 1 ≤ x
        omega
      · show ((x.toNat.factorial : Nat) : Int) * p = _
        rw [ht]
    · obtain ⟨h1, h2, h3, h4⟩ := ih (x - 1) (x * p) (by omega) c hc
      refine ⟨h1, h2, by omega, ?_⟩
      rw [h4, Nat.factorial_succ (n + 1), hx]
      push_cast
      ring

theorem accumulator_quotient (k n : Nat) (a p : Int) (hk : k ≤ n)
    (h : ((k.factorial : Nat) : Int) * a = ((n.factorial : Nat) : Int) * p) :
    a = p * ((n.factorial / k.factorial : Nat) : Int) := by
  have hdvd : k.factorial ∣ n.factorial := Nat.factorial_dvd_factorial hk
  obtain ⟨q, hq⟩ := hdvd
  have hpos : 0 < k.factorial := Nat.factorial_pos k
  have hdiv : n.factorial / k.factorial = q := by
    rw [hq, Nat.mul_div_cancel_left q hpos]
  rw [hdiv]
  rw [hq] at h
  push_cast at h
  have hk0 : ((k.factorial : Nat) : Int) ≠ 0 := by exact_mod_cast hpos.ne'
  have h2 : ((k.factorial : Nat) : Int) * a = ((k.factorial : Nat) : Int) * (p * q) := by
    rw [h]; ring
  exact mul_left_cancel₀ hk0 h2

theorem chainShape_of_trace (f : Fn) (n : Nat) (x p : Int) (hx : x = (n : Int) + 1)
    (tail : List Event) (s : State)
    (ht : s.trace = chainCalls f n x p ++ Event.send 0 (chainValue n x p) :: tail)
    (hc : callsIn tail = []) :
    ChainShape f x p s := by
  have hv := chainValue_eq n x p hx
  have hn : x.toNat = n + 1 := by omega
  have hcalls : callsIn s.trace = callsIn (chainCalls f n x p) := by
    rw [ht, callsIn_append]
    simp [callsIn] at hc ⊢
    exact hc
  refine ⟨?_, ?_, ?_⟩
  · rw [hcalls, hn]
    exact chainCalls_firsts f n x p hx
  · intro c hc'
    rw [hcalls] at hc'
    obtain ⟨h1, h2, h3, h4⟩ := chainCalls_accumulators f n x p hx c hc'
    rw [hn]
    refine ⟨h1, h4, accumulator_quotient c.2.1.toNat (n + 1) c.2.2 p (by omega) h4⟩
  · obtain ⟨pre, h1, _, h3, _⟩ := chainCalls_last f n x p hx
    refine ⟨pre, tail, h3, hc, ?_⟩
    rw [ht, h1, hv, hn]
    simp

/-! ## Runs that block -/

theorem AllBlock.blocks {cfg : Cfg} {P Q : State → Prop} {n : Nat} {s : State}
    (h : AllBlock cfg P Q n s) : EveryRunBlocks cfg s n P Q := by
  induction h with
  | stuck hm hp hP hQ hnone =>
    rename_i n s
    constructor
    · intro sched s1 hr
      cases sched with
      | nil =>
        simp only [runSchedule, Option.some.injEq] at hr
        subst hr
        exact ⟨Nat.zero_le _, hP, by simp [State.exited, hm], hp, fun _ => hQ⟩
      | cons i is => simp [runSchedule, hnone i] at hr
    · refine ⟨[], s, rfl, ?_, hQ⟩
      have hcm : s.canMove cfg = false := by
        simp [State.canMove, hnone]
      simp [State.deadlocked, State.exited, hm, hp, hcm]
  | next hm hp hP hex _ ih =>
    rename_i n s
    constructor
    · intro sched s1 hr
      cases sched with
      | nil =>
        simp only [runSchedule, Option.some.injEq] at hr
        subst hr
        refine ⟨Nat.zero_le _, hP, by simp [State.exited, hm], hp, fun hc => ?_⟩
        obtain ⟨i, s2, hs⟩ := hex
        rw [canMove_of_step cfg _ s2 i hs] at hc
        cases hc
      | cons i is =>
        simp only [runSchedule] at hr
        split at hr
        · cases hr
        · next s2 hs =>
          obtain ⟨h1, h2⟩ := (ih i s2 hs).1 is s1 hr
          exact ⟨by simpa using h1, h2⟩
    · obtain ⟨i, s2, hs⟩ := hex
      obtain ⟨sched, s1, hr, hd, hq⟩ := (ih i s2 hs).2
      exact ⟨i :: sched, s1, by simp [runSchedule, hs, hr], hd, hq⟩

theorem AllBlock.single {cfg : Cfg} {P Q : State → Prop} {n : Nat} {s : State} (i0 : Nat)
    (hm : s.main ≠ []) (hp : s.panicked = false) (hP : P s) (s1 : State)
    (h0 : step cfg s i0 = some s1) (hrest : ∀ i, i ≠ i0 → step cfg s i = none)
    (h : AllBlock cfg P Q n s1) : AllBlock cfg P Q (n + 1) s := by
  refine AllBlock.next hm hp hP ⟨i0, s1, h0⟩ (fun i s2 hs => ?_)
  by_cases hi : i = i0
  · subst hi
    rw [h0] at hs
    cases hs
    exact h
  · rw [hrest i hi] at hs
    cases hs

theorem AllBlock.longer {cfg : Cfg} {P Q : State → Prop} {n m : Nat} {s : State}
    (h : AllBlock cfg P Q n s) (hnm : n ≤ m) : AllBlock cfg P Q m s := by
  induction h generalizing m with
  | stuck hm hp hP hQ hnone => exact AllBlock.stuck hm hp hP hQ hnone
  | next hm hp hP hex _ ih =>
    cases m with
    | zero => omega
    | succ m => exact AllBlock.next hm hp hP hex (fun i s1 hs => ih i s1 hs (by omega))

theorem writesOn_call (c : Nat) (t : List Event) (f : Fn) (x p : Int) (b : Nat) :
    writesOn c (t ++ [Event.call f x p b]) = writesOn c t := by
  rw [writesOn_append]
  simp [writesOn]

theorem recvsOn_call (c : Nat) (t : List Event) (f : Fn) (x p : Int) (b : Nat) :
    recvsOn c (t ++ [Event.call f x p b]) = recvsOn c t := by
  rw [recvsOn_append]
  simp [recvsOn]

/-- A synchronous call at the base case, alone on an unbuffered channel: after the
call step main is at the send and nothing can move. -/
theorem call_base_blocks (k : Nat) (f : Fn) (p : Int) (rest dfr : List Instr) (stk : Task)
    (t : List Event) (hw : writesOn 0 t = []) (hr : recvsOn 0 t = []) :
    AllBlock (Cfg.ideal k) StillInCall (AtSend p) 1 (callState f 1 p rest dfr stk t) := by
  refine AllBlock.single 0 (by simp [callState]) rfl
    ⟨rfl, rfl, hw, hr, by simp [callState, Task.receivesOn, Task.next]⟩
    { main := { code := [Instr.send 0 p, Instr.close 0, Instr.ret], deferred := [] } ::
        { code := rest, deferred := dfr } :: stk,
      others := [], chans := [Chan.fresh 0],
      trace := t ++ [Event.call f 1 p 0], panicked := false } ?_ ?_ ?_
  · cases f <;>
      simp [step, callState, State.tasks, State.withTasks, State.log, Fn.body,
        FactorialChannel, FactorialDefer, unwind_running, Cfg.ideal, IntModel.norm]
  · intro i hi
    match i with
    | 0 => exact absurd rfl hi
    | j + 1 => simp [step, callState, State.tasks]
  refine AllBlock.stuck (by simp) rfl ?_ (by simp [AtSend, Task.next]) ?_
  · exact ⟨rfl, rfl, by rw [writesOn_call, hw], by rw [recvsOn_call, hr],
      by simp [Task.receivesOn, Task.next]⟩
  · intro i
    match i with
    | 0 => simp [step, State.tasks, Chan.fresh, findReceiver, Task.receivesOn, Task.next]
    | j + 1 => simp [step, State.tasks]

/-- A synchronous `FactorialDefer`, alone on an unbuffered channel. -/
theorem call_factorialDefer_blocks (k n : Nat) : ∀ (x p : Int) (rest dfr : List Instr)
    (stk : Task) (t : List Event), x = (n : Int) + 1 → writesOn 0 t = [] → recvsOn 0 t = [] →
    AllBlock (Cfg.ideal k) StillInCall (AtSend (chainValue n x p)) (2 * n + 1)
      (callState Fn.factorialDefer x p rest dfr stk t) := by
  induction n with
  | zero =>
    intro x p rest dfr stk t hx hw hr
    have hx1 : x = 1 := by simpa using hx
    subst hx1
    simpa [chainValue] using call_base_blocks k Fn.factorialDefer p rest dfr stk t hw hr
  | succ n ih =>
    intro x p rest dfr stk t hx hw hr
    have hx1 : x ≠ 1 := by omega
    refine AllBlock.single 0 (by simp [callState]) rfl
      ⟨rfl, rfl, hw, hr, by simp [callState, Task.receivesOn, Task.next]⟩
      { main := { code := [Instr.deferCall Fn.factorialDefer (x - 1) (x * p) 0],
                  deferred := [] } :: { code := rest, deferred := dfr } :: stk,
        others := [], chans := [Chan.fresh 0],
        trace := t ++ [Event.call Fn.factorialDefer x p 0], panicked := false } ?_ ?_ ?_
    · simp [step, callState, State.tasks, State.withTasks, State.log, Fn.body,
        FactorialDefer, unwind_running, Cfg.ideal, IntModel.norm, hx1]
    · intro i hi
      match i with
      | 0 => exact absurd rfl hi
      | j + 1 => simp [step, callState, State.tasks]
    have hw2 : writesOn 0 (t ++ [Event.call Fn.factorialDefer x p 0]) = [] := by
      rw [writesOn_call, hw]
    have hr2 : recvsOn 0 (t ++ [Event.call Fn.factorialDefer x p 0]) = [] := by
      rw [recvsOn_call, hr]
    refine AllBlock.single 0 (by simp) rfl
      ⟨rfl, rfl, hw2, hr2, by simp [Task.receivesOn, Task.next]⟩
      (callState Fn.factorialDefer (x - 1) (x * p) [] [] ({ code := rest, deferred := dfr } :: stk)
        (t ++ [Event.call Fn.factorialDefer x p 0])) ?_ ?_ ?_
    · simp [step, callState, State.tasks, State.withTasks, unwind_deferred]
    · intro i hi
      match i with
      | 0 => exact absurd rfl hi
      | j + 1 => simp [step, State.tasks]
    have h := ih (x - 1) (x * p) [] [] ({ code := rest, deferred := dfr } :: stk)
      (t ++ [Event.call Fn.factorialDefer x p 0]) (by omega) hw2 hr2
    simpa [chainValue] using AllBlock.longer h (show 2 * n + 1 ≤ 2 * n + 1 by omega)

/-! ## A caller that only reads -/

theorem onlyReceives_unwind : ∀ (t : Task), t.onlyReceives → (unwind t).onlyReceives := by
  intro t
  induction t with
  | nil => intro h; simpa [unwind] using h
  | cons fr stk ih =>
    intro h
    have hfr := h fr (List.mem_cons_self _ _)
    have hstk : Task.onlyReceives stk := fun g hg => h g (List.mem_cons_of_mem _ hg)
    rw [unwind]
    split
    · rw [hfr.1]
      exact ih hstk
    · exact h

theorem onlyReceives_advance (t : Task) (h : t.onlyReceives) : (Task.advance t).onlyReceives := by
  cases t with
  | nil => simpa [Task.advance] using h
  | cons fr stk =>
    rw [Task.advance]
    apply onlyReceives_unwind
    intro g hg
    rcases List.mem_cons.mp hg with rfl | hg
    · have hfr := h fr (List.mem_cons_self _ _)
      exact ⟨hfr.1, fun ins hins => hfr.2 ins (List.mem_of_mem_tail hins)⟩
    · exact h g (List.mem_cons_of_mem _ hg)

theorem onlyReceives_next (t : Task) (h : t.onlyReceives) (c : Nat) (v : Int) :
    t.next ≠ some (Instr.send c v) := by
  cases t with
  | nil => simp [Task.next]
  | cons fr stk =>
    intro hn
    simp only [Task.next] at hn
    have hmem : Instr.send c v ∈ fr.code := List.mem_of_mem_head? hn
    obtain ⟨b, hb⟩ := (h fr (List.mem_cons_self _ _)).2 _ hmem
    cases hb

theorem headD_modify_succ (f : Task → Task) (m : Task) (os : List Task) (j : Nat) :
    ((m :: os).modify f (j + 1)).headD [] = m := by
  simp [List.modify_succ_cons]

theorem headD_modify_modify (f : Task → Task) (m : Task) (os : List Task) (j r : Nat) :
    (((m :: os).modify f (j + 1)).modify f r).headD [] = m ∨
    (((m :: os).modify f (j + 1)).modify f r).headD [] = f m := by
  cases r with
  | zero => right; simp [List.modify_succ_cons]
  | succ r => left; simp [List.modify_succ_cons]

theorem step_main (cfg : Cfg) (s s1 : State) (i : Nat) (hI : s.main.onlyReceives)
    (h : step cfg s i = some s1) :
    s1.main = s.main ∨ s1.main = Task.advance s.main := by
  cases i with
  | zero =>
    right
    cases hmain : s.main with
    | nil => simp [step, hmain] at h
    | cons fr stk =>
      have hfr := hI fr (by rw [hmain]; exact List.mem_cons_self _ _)
      cases hcode : fr.code with
      | nil => simp [step, State.tasks, hmain, hcode] at h
      | cons ins rest =>
        obtain ⟨c, rfl⟩ := hfr.2 ins (by rw [hcode]; exact List.mem_cons_self _ _)
        simp [step, State.tasks, hmain, hcode] at h
        obtain ⟨-, h⟩ := h
        repeat' (split at h)
        all_goals cases h
        all_goals first | rfl | (rw [← hmain]; rfl)
  | succ j =>
    unfold step at h
    simp only [State.tasks] at h
    repeat' (split at h)
    all_goals cases h
    all_goals first
      | (left; rfl)
      | (simp only [State.log, State.withTasks]; exact headD_modify_modify _ _ _ _ _)

theorem run_main_onlyReceives (cfg : Cfg) : ∀ (sched : List Nat) (s s1 : State),
    s.main.onlyReceives → runSchedule cfg s sched = some s1 → s1.main.onlyReceives := by
  intro sched
  induction sched with
  | nil =>
    intro s s1 hI hr
    simp only [runSchedule, Option.some.injEq] at hr
    subst hr
    exact hI
  | cons i rest ih =>
    intro s s1 hI hr
    rw [runSchedule] at hr
    cases hs : step cfg s i with
    | none => simp [hs] at hr
    | some s2 =>
      simp only [hs] at hr
      refine ih s2 s1 ?_ hr
      rcases step_main cfg s s2 i hI hs with e | e
      · rw [e]; exact hI
      · rw [e]; exact onlyReceives_advance _ hI

/-- The way the driver calls `FactorialChannel`, for `x ≥ 2`: main is never at a
send. -/
theorem callThenRead_factorialChannel_main (k : Nat) (x p : Int) (hx : 2 ≤ x)
    (sched : List Nat) (s1 : State)
    (hr : runSchedule (Cfg.ideal k) (callThenRead 0 Fn.factorialChannel x p) sched = some s1)
    (c : Nat) (v : Int) : s1.main.next ≠ some (Instr.send c v) := by
  have hx1 : x ≠ 1 := by omega
  have hA : step (Cfg.ideal k) (callThenRead 0 Fn.factorialChannel x p) 0 = some
      { main := [{ code := [Instr.goCall Fn.factorialChannel (x - 1) (x * p) 0], deferred := [] },
                 readerFrame],
        others := [], chans := [Chan.fresh 0],
        trace := [Event.call Fn.factorialChannel x p 0], panicked := false } := by
    simp [step, callThenRead, State.start, readerFrame, State.tasks, State.withTasks, State.log,
      Fn.body, FactorialChannel, unwind_running, Cfg.ideal, IntModel.norm, hx1]
  cases sched with
  | nil =>
    simp only [runSchedule, Option.some.injEq] at hr
    subst hr
    simp [callThenRead, State.start, Task.next]
  | cons i rest =>
    rw [runSchedule] at hr
    match i with
    | j + 1 => simp [step, callThenRead, State.start, State.tasks] at hr
    | 0 =>
      simp only [hA] at hr
      cases rest with
      | nil =>
        simp only [runSchedule, Option.some.injEq] at hr
        subst hr
        simp [Task.next]
      | cons i rest =>
        rw [runSchedule] at hr
        match i with
        | j + 1 => simp [step, State.tasks] at hr
        | 0 =>
          have hB : step (Cfg.ideal k)
              { main := [{ code := [Instr.goCall Fn.factorialChannel (x - 1) (x * p) 0],
                           deferred := [] }, readerFrame],
                others := [], chans := [Chan.fresh 0],
                trace := [Event.call Fn.factorialChannel x p 0], panicked := false } 0 = some
              (readerState Fn.factorialChannel (x - 1) (x * p) [] [] []
                [Event.call Fn.factorialChannel x p 0]) := by
            simp [step, readerState, readerFrame, State.tasks, State.withTasks, unwind_done,
              unwind_running]
          simp only [hB] at hr
          refine onlyReceives_next _ (run_main_onlyReceives _ rest _ s1 ?_ hr) c v
          intro fr hfr
          simp only [readerState, List.mem_singleton] at hfr
          subst hfr
          simp [readerFrame]

/-- C16: on an unbuffered channel, with the caller the only goroutine and its reads
placed after the call, the call `FactorialDefer(x, progress, ch)` for any `x ≥ 1`
and the call `FactorialChannel(1, progress, ch)` never complete: under every
schedule main stays inside the call, nothing is ever written to or read from the
channel, and the run ends stuck with main at the base-case send of `x! * progress`.
For `x ≥ 2`, `FactorialChannel(x, progress, ch)` has returned after two steps of
main, with one spawned goroutine and main at its reads; main is never at a send,
and every run ends with exactly one send, of `x! * progress`, and one close. -/
theorem synchronous_call_blocks (x progress : Int) (k : Nat) (hx : 1 ≤ x) :
    EveryRunBlocks (Cfg.ideal k) (callThenRead 0 Fn.factorialDefer x progress)
        (2 * x.toNat - 1) StillInCall (AtSend ((x.toNat.factorial : Int) * progress))
    ∧ EveryRunBlocks (Cfg.ideal k) (callThenRead 0 Fn.factorialChannel 1 progress) 1
        StillInCall (AtSend progress)
    ∧ (2 ≤ x →
        runSchedule (Cfg.ideal k) (callThenRead 0 Fn.factorialChannel x progress) [0, 0]
            = some (readerState Fn.factorialChannel (x - 1) (x * progress) [] [] []
                [Event.call Fn.factorialChannel x progress 0])
        ∧ (∀ (sched : List Nat) (s1 : State),
            runSchedule (Cfg.ideal k) (callThenRead 0 Fn.factorialChannel x progress) sched
              = some s1 → ∀ (c : Nat) (v : Int), s1.main.next ≠ some (Instr.send c v))
        ∧ EveryRun (Cfg.ideal k) (callThenRead 0 Fn.factorialChannel x progress)
            (2 * x.toNat + 2)
            (fun s => writesOn 0 s.trace
              = [Event.send 0 ((x.toNat.factorial : Int) * progress), Event.close 0])) := by
  refine ⟨?_, ?_, ?_⟩
  · obtain ⟨n, hn⟩ : ∃ n : Nat, x = (n : Int) + 1 := ⟨(x - 1).toNat, by omega⟩
    have h := call_factorialDefer_blocks k n x progress [Instr.recv 0, Instr.recv 0] [] [] []
      hn rfl rfl
    have ht : x.toNat = n + 1 := by omega
    rw [chainValue_eq n x progress hn] at h
    rw [ht]
    exact AllBlock.blocks h
  · exact AllBlock.blocks
      (call_base_blocks k Fn.factorialChannel progress [Instr.recv 0, Instr.recv 0] [] [] []
        rfl rfl)
  · intro h2
    have hx1 : x ≠ 1 := by omega
    refine ⟨?_, fun sched s1 hr c v =>
      callThenRead_factorialChannel_main k x progress h2 sched s1 hr c v, ?_⟩
    · simp [runSchedule, step, callThenRead, State.start, readerState, readerFrame, State.tasks,
        State.withTasks, State.log, Fn.body, FactorialChannel, unwind_running, unwind_done,
        Cfg.ideal, IntModel.norm, hx1]
    · obtain ⟨n, hn⟩ : ∃ n : Nat, x = (n : Int) + 2 := ⟨(x - 2).toNat, by omega⟩
      have h := AllRuns.sound (callThenRead_factorialChannel k n x progress hn)
      have ht : 2 * x.toNat + 2 = 2 * n + 6 := by omega
      rw [ht]
      refine EveryRun.imp h ?_
      intro s hs
      rw [hs.1, writesOn_append, writesOn_chainCalls, chainValue_eq (n + 1) x progress (by omega)]
      have hf : x.toNat = n + 1 + 1 := by omega
      rw [hf]
      simp [writesOn, readEvents]

theorem synchronous_call_blocks_witness :
    (1 : Int) ≤ 3 ∧
    EveryRunBlocks (Cfg.ideal 0) (callThenRead 0 Fn.factorialDefer 3 1) 5 StillInCall
      (AtSend 6) ∧
    runSchedule (Cfg.ideal 0) (callThenRead 0 Fn.factorialChannel 3 1) [0, 0]
      = some (readerState Fn.factorialChannel 2 3 [] [] []
          [Event.call Fn.factorialChannel 3 1 0]) :=
  ⟨by decide, (synchronous_call_blocks 3 1 0 (by decide)).1,
    ((synchronous_call_blocks 3 1 0 (by decide)).2.2 (by decide)).1⟩
/-! ## Determinism -/

theorem AllRuns.two {cfg : Cfg} {Q : State → Prop} {n : Nat} {s : State} (i0 i1 : Nat)
    (hm : s.main ≠ []) (s0 s1 : State) (h0 : step cfg s i0 = some s0)
    (h1 : step cfg s i1 = some s1)
    (hrest : ∀ i, i ≠ i0 → i ≠ i1 → step cfg s i = none)
    (ha : AllRuns cfg Q n s0) (hb : AllRuns cfg Q n s1) : AllRuns cfg Q (n + 1) s := by
  refine AllRuns.next hm ⟨i0, s0, h0⟩ (fun i s2 hs => ?_)
  by_cases hi : i = i0
  · subst hi
    rw [h0] at hs
    cases hs
    exact ha
  · by_cases hj : i = i1
    · subst hj
      rw [h1] at hs
      cases hs
      exact hb
    · rw [hrest i hi hj] at hs
      cases hs

/-- The base case of `FactorialChannel` in a goroutine of its own on a buffered
channel, with a reader in main: after the send, the reader and the close race. -/
theorem buffered_base (k cap : Nat) (p : Int) (t : List Event) (hcap : 0 < cap)
    (hw : writesOn 0 t = []) (hr : recvsOn 0 t = []) :
    AllRuns (Cfg.ideal k) (ReadTwice p) 5 (bufferedReaderState cap 1 p t) := by
  have hcap0 : cap ≠ 0 := by omega
  refine AllRuns.only 1 (by simp [bufferedReaderState, readerFrame])
    { main := [readerFrame],
      others := [[{ code := [Instr.send 0 p, Instr.close 0, Instr.ret], deferred := [] },
        { code := [], deferred := [] }]],
      chans := [Chan.fresh cap], trace := t ++ [Event.call Fn.factorialChannel 1 p 0],
      panicked := false } ?_ ?_ ?_
  · simp [step, bufferedReaderState, goroutine, readerFrame, State.tasks, State.withTasks,
      State.log, Fn.body, FactorialChannel, unwind_running, Cfg.ideal, IntModel.norm]
  · intro i hi
    match i with
    | 0 => simp [step, bufferedReaderState, readerFrame, State.tasks, Chan.fresh]
    | 1 => exact absurd rfl hi
    | j + 2 => simp [step, bufferedReaderState, goroutine, readerFrame, State.tasks]
  refine AllRuns.only 1 (by simp [readerFrame])
    { main := [readerFrame],
      others := [[{ code := [Instr.close 0, Instr.ret], deferred := [] },
        { code := [], deferred := [] }]],
      chans := [{ cap := cap, buf := [p], closed := false }],
      trace := t ++ [Event.call Fn.factorialChannel 1 p 0] ++ [Event.send 0 p],
      panicked := false } ?_ ?_ ?_
  · simp [step, readerFrame, State.tasks, State.withTasks, State.log, State.advance,
      Task.advance, unwind_running, Chan.fresh, hcap]
  · intro i hi
    match i with
    | 0 => simp [step, readerFrame, State.tasks, Chan.fresh]
    | 1 => exact absurd rfl hi
    | j + 2 => simp [step, State.tasks]
  refine AllRuns.two 0 1 (by simp [readerFrame])
    { main := [{ code := [Instr.recv 0], deferred := [] }],
      others := [[{ code := [Instr.close 0, Instr.ret], deferred := [] },
        { code := [], deferred := [] }]],
      chans := [{ cap := cap, buf := [], closed := false }],
      trace := t ++ [Event.call Fn.factorialChannel 1 p 0] ++ [Event.send 0 p]
        ++ [Event.recv 0 p true],
      panicked := false }
    { main := [readerFrame],
      others := [],
      chans := [{ cap := cap, buf := [p], closed := true }],
      trace := t ++ [Event.call Fn.factorialChannel 1 p 0] ++ [Event.send 0 p]
        ++ [Event.close 0],
      panicked := false } ?_ ?_ ?_ ?_ ?_
  · simp [step, readerFrame, State.tasks, State.withTasks, State.log, State.advance,
      Task.advance, unwind_running, recvEvents]
  · simp [step, readerFrame, State.tasks, State.withTasks, State.log, State.advance,
      Task.advance, unwind_running, unwind_ret, unwind_done, unwind, Frame.returning]
  · intro i hi hj
    match i with
    | 0 => exact absurd rfl hi
    | 1 => exact absurd rfl hj
    | j + 2 => simp [step, State.tasks]
  · refine AllRuns.only 1 (by simp)
      { main := [{ code := [Instr.recv 0], deferred := [] }],
        others := [],
        chans := [{ cap := cap, buf := [], closed := true }],
        trace := t ++ [Event.call Fn.factorialChannel 1 p 0] ++ [Event.send 0 p]
          ++ [Event.recv 0 p true] ++ [Event.close 0],
        panicked := false } ?_ ?_ ?_
    · simp [step, State.tasks, State.withTasks, State.log, State.advance, Task.advance,
        unwind_running, unwind_ret, unwind_done, unwind, Frame.returning]
    · intro i hi
      match i with
      | 0 => simp [step, State.tasks]
      | 1 => exact absurd rfl hi
      | j + 2 => simp [step, State.tasks]
    refine AllRuns.only 0 (by simp)
      { main := [],
        others := [],
        chans := [{ cap := cap, buf := [], closed := true }],
        trace := t ++ [Event.call Fn.factorialChannel 1 p 0] ++ [Event.send 0 p]
          ++ [Event.recv 0 p true] ++ [Event.close 0] ++ [Event.recv 0 0 false],
        panicked := false } ?_ ?_ ?_
    · simp [step, State.tasks, State.withTasks, State.log, State.advance, Task.advance,
        unwind, Frame.returning, recvEvents]
    · intro i hi
      match i with
      | 0 => exact absurd rfl hi
      | j + 1 => simp [step, State.tasks]
    refine AllRuns.done rfl ⟨?_, ?_⟩
    · simp only [recvsOn_append, hr]
      simp [recvsOn]
    · simp only [writesOn_append, hw]
      simp [writesOn]
  · refine AllRuns.only 0 (by simp [readerFrame])
      { main := [{ code := [Instr.recv 0], deferred := [] }],
        others := [],
        chans := [{ cap := cap, buf := [], closed := true }],
        trace := t ++ [Event.call Fn.factorialChannel 1 p 0] ++ [Event.send 0 p]
          ++ [Event.close 0] ++ [Event.recv 0 p true],
        panicked := false } ?_ ?_ ?_
    · simp [step, readerFrame, State.tasks, State.withTasks, State.log, State.advance,
        Task.advance, unwind_running, recvEvents]
    · intro i hi
      match i with
      | 0 => exact absurd rfl hi
      | j + 1 => simp [step, State.tasks]
    refine AllRuns.only 0 (by simp)
      { main := [],
        others := [],
        chans := [{ cap := cap, buf := [], closed := true }],
        trace := t ++ [Event.call Fn.factorialChannel 1 p 0] ++ [Event.send 0 p]
          ++ [Event.close 0] ++ [Event.recv 0 p true] ++ [Event.recv 0 0 false],
        panicked := false } ?_ ?_ ?_
    · simp [step, State.tasks, State.withTasks, State.log, State.advance, Task.advance,
        unwind, Frame.returning, recvEvents]
    · intro i hi
      match i with
      | 0 => exact absurd rfl hi
      | j + 1 => simp [step, State.tasks]
    refine AllRuns.done rfl ⟨?_, ?_⟩
    · simp only [recvsOn_append, hr]
      simp [recvsOn]
    · simp only [writesOn_append, hw]
      simp [writesOn]

/-- The chain of `FactorialChannel` goroutines on a buffered channel, with a reader
in main. -/
theorem buffered_factorialChannel (k cap n : Nat) (hcap : 0 < cap) :
    ∀ (x p : Int) (t : List Event), x = (n : Int) + 1 → writesOn 0 t = [] → recvsOn 0 t = [] →
    AllRuns (Cfg.ideal k) (ReadTwice (chainValue n x p)) (2 * n + 5)
      (bufferedReaderState cap x p t) := by
  induction n with
  | zero =>
    intro x p t hx hw hr
    have hx1 : x = 1 := by simpa using hx
    subst hx1
    simpa [chainValue] using buffered_base k cap p t hcap hw hr
  | succ n ih =>
    intro x p t hx hw hr
    have hx1 : x ≠ 1 := by omega
    refine AllRuns.only 1 (by simp [bufferedReaderState, readerFrame])
      { main := [readerFrame],
          others := [[{ code := [Instr.goCall Fn.factorialChannel (x - 1) (x * p) 0],
                        deferred := [] },
                      { code := [], deferred := [] }]],
          chans := [Chan.fresh cap], trace := t ++ [Event.call Fn.factorialChannel x p 0],
          panicked := false } ?_ ?_ ?_
    · simp [step, bufferedReaderState, goroutine, readerFrame, State.tasks, State.withTasks,
        State.log, Fn.body, FactorialChannel, unwind_running, Cfg.ideal, IntModel.norm, hx1]
    · intro i hi
      match i with
      | 0 => simp [step, bufferedReaderState, readerFrame, State.tasks, Chan.fresh]
      | 1 => exact absurd rfl hi
      | j + 2 => simp [step, bufferedReaderState, goroutine, readerFrame, State.tasks]
    refine AllRuns.only 1 (by simp [readerFrame])
      (bufferedReaderState cap (x - 1) (x * p) (t ++ [Event.call Fn.factorialChannel x p 0]))
      ?_ ?_ ?_
    · simp [step, bufferedReaderState, goroutine, readerFrame, State.tasks, State.withTasks,
        unwind, Frame.returning]
    · intro i hi
      match i with
      | 0 => simp [step, readerFrame, State.tasks, Chan.fresh]
      | 1 => exact absurd rfl hi
      | j + 2 => simp [step, State.tasks]
    have h := ih (x - 1) (x * p) (t ++ [Event.call Fn.factorialChannel x p 0]) (by omega)
      (by rw [writesOn_call]; exact hw) (by rw [recvsOn_call]; exact hr)
    simpa [chainValue] using AllRuns.mono h (show 2 * n + 5 ≤ 2 * (n + 1) + 3 by omega)

/-- The way the driver calls `FactorialChannel`, on a buffered channel. -/
theorem callThenRead_buffered (k cap n : Nat) (hcap : 0 < cap) (x p : Int)
    (hx : x = (n : Int) + 1) :
    AllRuns (Cfg.ideal k) (ReadTwice (chainValue n x p)) (2 * n + 5)
      (callThenRead cap Fn.factorialChannel x p) := by
  cases n with
  | zero =>
    have hx1 : x = 1 := by simpa using hx
    subst hx1
    refine AllRuns.only 0 (by simp [callThenRead, State.start])
      { main := [{ code := [Instr.send 0 p, Instr.close 0, Instr.ret], deferred := [] },
                 readerFrame],
        others := [], chans := [Chan.fresh cap],
        trace := [Event.call Fn.factorialChannel 1 p 0], panicked := false } ?_ ?_ ?_
    · simp [step, callThenRead, State.start, readerFrame, State.tasks, State.withTasks,
        State.log, Fn.body, FactorialChannel, unwind_running, Cfg.ideal, IntModel.norm]
    · intro i hi
      match i with
      | 0 => exact absurd rfl hi
      | j + 1 => simp [step, callThenRead, State.start, State.tasks]
    refine AllRuns.only 0 (by simp)
      { main := [{ code := [Instr.close 0, Instr.ret], deferred := [] }, readerFrame],
        others := [], chans := [{ cap := cap, buf := [p], closed := false }],
        trace := [Event.call Fn.factorialChannel 1 p 0] ++ [Event.send 0 p],
        panicked := false } ?_ ?_ ?_
    · simp [step, readerFrame, State.tasks, State.withTasks, State.log, State.advance,
        Task.advance, unwind_running, Chan.fresh, hcap]
    · intro i hi
      match i with
      | 0 => exact absurd rfl hi
      | j + 1 => simp [step, State.tasks]
    refine AllRuns.only 0 (by simp)
      { main := [readerFrame],
        others := [], chans := [{ cap := cap, buf := [p], closed := true }],
        trace := [Event.call Fn.factorialChannel 1 p 0] ++ [Event.send 0 p] ++ [Event.close 0],
        panicked := false } ?_ ?_ ?_
    · simp [step, readerFrame, State.tasks, State.withTasks, State.log, State.advance,
        Task.advance, unwind_running, unwind_ret]
    · intro i hi
      match i with
      | 0 => exact absurd rfl hi
      | j + 1 => simp [step, State.tasks]
    refine AllRuns.only 0 (by simp [readerFrame])
      { main := [{ code := [Instr.recv 0], deferred := [] }],
        others := [], chans := [{ cap := cap, buf := [], closed := true }],
        trace := [Event.call Fn.factorialChannel 1 p 0] ++ [Event.send 0 p] ++ [Event.close 0]
          ++ [Event.recv 0 p true],
        panicked := false } ?_ ?_ ?_
    · simp [step, readerFrame, State.tasks, State.withTasks, State.log, State.advance,
        Task.advance, unwind_running, recvEvents]
    · intro i hi
      match i with
      | 0 => exact absurd rfl hi
      | j + 1 => simp [step, State.tasks]
    refine AllRuns.only 0 (by simp)
      { main := [],
        others := [], chans := [{ cap := cap, buf := [], closed := true }],
        trace := [Event.call Fn.factorialChannel 1 p 0] ++ [Event.send 0 p] ++ [Event.close 0]
          ++ [Event.recv 0 p true] ++ [Event.recv 0 0 false],
        panicked := false } ?_ ?_ ?_
    · simp [step, State.tasks, State.withTasks, State.log, State.advance, Task.advance,
        unwind, Frame.returning, recvEvents]
    · intro i hi
      match i with
      | 0 => exact absurd rfl hi
      | j + 1 => simp [step, State.tasks]
    exact AllRuns.done rfl ⟨by simp [recvsOn, chainValue], by simp [writesOn, chainValue]⟩
  | succ n =>
    have hx1 : x ≠ 1 := by omega
    refine AllRuns.only 0 (by simp [callThenRead, State.start])
      { main := [{ code := [Instr.goCall Fn.factorialChannel (x - 1) (x * p) 0],
                   deferred := [] }, readerFrame],
        others := [], chans := [Chan.fresh cap],
        trace := [Event.call Fn.factorialChannel x p 0], panicked := false } ?_ ?_ ?_
    · simp [step, callThenRead, State.start, readerFrame, State.tasks, State.withTasks,
        State.log, Fn.body, FactorialChannel, unwind_running, Cfg.ideal, IntModel.norm, hx1]
    · intro i hi
      match i with
      | 0 => exact absurd rfl hi
      | j + 1 => simp [step, callThenRead, State.start, State.tasks]
    refine AllRuns.only 0 (by simp)
      (bufferedReaderState cap (x - 1) (x * p) [Event.call Fn.factorialChannel x p 0]) ?_ ?_ ?_
    · simp [step, bufferedReaderState, goroutine, readerFrame, State.tasks, State.withTasks,
        unwind_done, unwind_running]
    · intro i hi
      match i with
      | 0 => exact absurd rfl hi
      | j + 1 => simp [step, State.tasks]
    have h := buffered_factorialChannel k cap n hcap (x - 1) (x * p)
      [Event.call Fn.factorialChannel x p 0] (by omega) (by simp [writesOn])
      (by simp [recvsOn])
    simpa [chainValue] using AllRuns.mono h (show 2 * n + 5 ≤ 2 * n + 5 by omega)

theorem main_reads_checked :
    checkRuns (Cfg.ideal 11) (mainChecks (Cfg.ideal 11)) mainReads 51 [program] = true := by
  decide

theorem main_reads_checked_int64 :
    checkRuns (Cfg.int64 11) (mainChecks (Cfg.int64 11)) mainReads 51 [program] = true := by
  decide

theorem Factorial_stack_independent (m : IntModel) (fuel1 fuel2 : Nat) (x v1 v2 : Int)
    (h1 : Factorial m fuel1 x = some v1) (h2 : Factorial m fuel2 x = some v2) : v1 = v2 := by
  have a := Factorial_more_stack m fuel1 fuel2 x v1 h1
  have b := Factorial_more_stack m fuel2 fuel1 x v2 h2
  rw [Nat.add_comm, a] at b
  exact Option.some.inj b

theorem FactorialTail_stack_independent (m : IntModel) (fuel1 fuel2 : Nat) (x p v1 v2 : Int)
    (h1 : FactorialTail m fuel1 x p = some v1) (h2 : FactorialTail m fuel2 x p = some v2) :
    v1 = v2 := by
  have a := FactorialTail_more_stack m fuel1 fuel2 x p v1 h1
  have b := FactorialTail_more_stack m fuel2 fuel1 x p v2 h2
  rw [Nat.add_comm, a] at b
  exact Option.some.inj b

theorem sameReads_of_runs {cfg1 cfg2 : Cfg} {s : State} {n : Nat} {r : List (Int × Bool)}
    (h1 : EveryRun cfg1 s n (fun s1 => recvsOn 0 s1.trace = r))
    (h2 : EveryRun cfg2 s n (fun s2 => recvsOn 0 s2.trace = r)) :
    SameReads cfg1 cfg2 s n r :=
  ⟨h1, h2, fun sched1 sched2 s1 s2 hr1 he1 hr2 he2 => by
    rw [(h1 sched1 s1 hr1).2.1 he1, (h2 sched2 s2 hr2).2.1 he2]⟩

theorem goThenRead_reads (k : Nat) (f : Fn) (n : Nat) (p : Int) :
    EveryRun (Cfg.ideal k) (goThenRead f ((n : Int) + 1) p) (2 * (n + 1) + 2)
      (fun s => recvsOn 0 s.trace = [((((n + 1).factorial : Nat) : Int) * p, true), (0, false)]) := by
  refine EveryRun.imp (goThenRead_runs k f n ((n : Int) + 1) p rfl).sound (fun s hs => ?_)
  rw [hs.1, recvsOn_read, chainValue_eq n _ _ rfl]

theorem callThenRead_factorialDefer_reads (k cap : Nat) (hcap : 0 < cap) (n : Nat) (p : Int) :
    EveryRun (Cfg.ideal k) (callThenRead cap Fn.factorialDefer ((n : Int) + 1) p)
      (2 * (n + 1) + 3)
      (fun s => recvsOn 0 s.trace = [((((n + 1).factorial : Nat) : Int) * p, true), (0, false)]) := by
  have h := (sync_factorialDefer k cap n hcap ((n : Int) + 1) p [Instr.recv 0, Instr.recv 0]
    [] [] [] rfl (by simp [unwind, Frame.returning, readerFrame])).sound
  refine EveryRun.imp h (fun s hs => ?_)
  rw [hs.1, List.nil_append, recvsOn_buffered, chainValue_eq n _ _ rfl]

theorem callThenRead_buffered_reads (k cap : Nat) (hcap : 0 < cap) (n : Nat) (p : Int) :
    EveryRun (Cfg.ideal k) (callThenRead cap Fn.factorialChannel ((n : Int) + 1) p)
      (2 * (n + 1) + 3)
      (fun s => recvsOn 0 s.trace = [((((n + 1).factorial : Nat) : Int) * p, true), (0, false)]) := by
  have h := (callThenRead_buffered k cap n hcap ((n : Int) + 1) p rfl).sound
  refine EveryRun.imp h (fun s hs => ?_)
  rw [hs.1, chainValue_eq n _ _ rfl]

theorem callThenRead_unbuffered_reads (k : Nat) (n : Nat) (p : Int) :
    EveryRun (Cfg.ideal k) (callThenRead 0 Fn.factorialChannel ((n : Int) + 2) p)
      (2 * (n + 2) + 2)
      (fun s => recvsOn 0 s.trace
        = [((((n + 1 + 1).factorial : Nat) : Int) * p, true), (0, false)]) := by
  have h := (callThenRead_factorialChannel k n ((n : Int) + 2) p rfl).sound
  refine EveryRun.imp h (fun s hs => ?_)
  rw [hs.1, recvsOn_read, chainValue_eq (n + 1) _ _ (by push_cast; ring)]

theorem program_reads (m : IntModel) (d : Nat)
    (h : checkRuns { ints := m, stack := 11 } (mainChecks { ints := m, stack := 11 }) mainReads 51
      [program] = true)
    (sched : List Nat) (s1 : State)
    (hr : runSchedule { ints := m, stack := 11 + d } program sched = some s1)
    (he : s1.exited = true) :
    recvsOn 0 s1.trace = recvsOn 1 s1.trace ∧ recvsOn 0 s1.trace = [(39916800, true)] := by
  have hr0 :=
    runSchedule_more_stack m 11 d _ mainReads 51 program h (mainChecks_fit _) sched s1 hr
  obtain ⟨_, _, h3, _⟩ :=
    checkRuns_sound _ _ mainReads 51 [program] h program (List.mem_singleton.mpr rfl) sched s1 hr0
  have h5 := h3 he
  simp only [mainReads, Bool.and_eq_true, beq_iff_eq] at h5
  exact h5

/-- C11: every variant is deterministic.  For the pure variants, with any integer
width, two invocations with the same arguments that return have returned the same
value whatever the stack each had, and over unbounded integers they do return once
the stack allows `x` nested invocations.  For the channel variants and `x ≥ 1`, two
invocations with the same `(x, progress)`, each on its own fresh channel, deliver the
same results to the reader under every schedule and with any two stacks, namely
`x! * progress` and then the channel-closed signal, and no schedule gets stuck: when
the invocation (`FactorialDefer` or `FactorialChannel`) runs as a goroutine of its
own on an unbuffered channel, when it is called ahead of the reads on a channel
with buffer capacity at least 1 (where the reader races with the close of a
spawned goroutine), and, for `FactorialChannel` with `x ≥ 2`, when it is called
ahead of the reads on an unbuffered channel.  In `main`, with unbounded and with
64-bit integers, the two invocations `FactorialChannel(11, 1, fact1)` and
`FactorialChannel(11, 1, fact2)` deliver the same result under every schedule. -/
theorem variants_are_deterministic (m : IntModel) (f : Fn) (x progress : Int)
    (fuel1 fuel2 k1 k2 cap : Nat) (hx : 1 ≤ x) (hcap : 0 < cap) :
    (∀ v1 v2 : Int, Factorial m fuel1 x = some v1 → Factorial m fuel2 x = some v2 → v1 = v2)
    ∧ (∀ v1 v2 : Int, FactorialTail m fuel1 x progress = some v1 →
        FactorialTail m fuel2 x progress = some v2 → v1 = v2)
    ∧ (x.toNat ≤ fuel1 → x.toNat ≤ fuel2 →
        Factorial IntModel.unbounded fuel1 x = Factorial IntModel.unbounded fuel2 x
        ∧ (Factorial IntModel.unbounded fuel1 x).isSome = true
        ∧ FactorialTail IntModel.unbounded fuel1 x progress
            = FactorialTail IntModel.unbounded fuel2 x progress
        ∧ (FactorialTail IntModel.unbounded fuel1 x progress).isSome = true)
    ∧ SameReads (Cfg.ideal k1) (Cfg.ideal k2) (goThenRead f x progress) (2 * x.toNat + 2)
        [(((x.toNat.factorial : Nat) : Int) * progress, true), (0, false)]
    ∧ SameReads (Cfg.ideal k1) (Cfg.ideal k2) (callThenRead cap Fn.factorialDefer x progress)
        (2 * x.toNat + 3) [(((x.toNat.factorial : Nat) : Int) * progress, true), (0, false)]
    ∧ SameReads (Cfg.ideal k1) (Cfg.ideal k2) (callThenRead cap Fn.factorialChannel x progress)
        (2 * x.toNat + 3) [(((x.toNat.factorial : Nat) : Int) * progress, true), (0, false)]
    ∧ (2 ≤ x →
        SameReads (Cfg.ideal k1) (Cfg.ideal k2) (callThenRead 0 Fn.factorialChannel x progress)
          (2 * x.toNat + 2) [(((x.toNat.factorial : Nat) : Int) * progress, true), (0, false)])
    ∧ (∀ (sched : List Nat) (s1 : State),
        runSchedule (Cfg.ideal (11 + k1)) program sched = some s1 → s1.exited = true →
        recvsOn 0 s1.trace = recvsOn 1 s1.trace ∧ recvsOn 0 s1.trace = [(39916800, true)])
    ∧ (∀ (sched : List Nat) (s1 : State),
        runSchedule (Cfg.int64 (11 + k1)) program sched = some s1 → s1.exited = true →
        recvsOn 0 s1.trace = recvsOn 1 s1.trace ∧ recvsOn 0 s1.trace = [(39916800, true)]) := by
  refine ⟨fun v1 v2 h1 h2 => Factorial_stack_independent m fuel1 fuel2 x v1 v2 h1 h2,
    fun v1 v2 h1 h2 => FactorialTail_stack_independent m fuel1 fuel2 x progress v1 v2 h1 h2,
    ?_, ?_, ?_, ?_, ?_,
    fun sched s1 hr he => program_reads IntModel.unbounded k1 main_reads_checked sched s1 hr he,
    fun sched s1 hr he =>
      program_reads (IntModel.wrapping 64) k1 main_reads_checked_int64 sched s1 hr he⟩
  · intro hf1 hf2
    obtain ⟨n, rfl⟩ : ∃ n : Nat, x = (n : Int) + 1 := ⟨x.toNat - 1, int_eq_succ x hx⟩
    rw [toNat_succ] at hf1 hf2
    rw [Factorial_succ fuel1 n hf1, Factorial_succ fuel2 n hf2,
      FactorialTail_succ fuel1 n progress hf1, FactorialTail_succ fuel2 n progress hf2]
    exact ⟨rfl, rfl, rfl, rfl⟩
  · obtain ⟨n, rfl⟩ : ∃ n : Nat, x = (n : Int) + 1 := ⟨x.toNat - 1, int_eq_succ x hx⟩
    rw [toNat_succ]
    exact sameReads_of_runs (goThenRead_reads k1 f n progress) (goThenRead_reads k2 f n progress)
  · obtain ⟨n, rfl⟩ : ∃ n : Nat, x = (n : Int) + 1 := ⟨x.toNat - 1, int_eq_succ x hx⟩
    rw [toNat_succ]
    exact sameReads_of_runs (callThenRead_factorialDefer_reads k1 cap hcap n progress)
      (callThenRead_factorialDefer_reads k2 cap hcap n progress)
  · obtain ⟨n, rfl⟩ : ∃ n : Nat, x = (n : Int) + 1 := ⟨x.toNat - 1, int_eq_succ x hx⟩
    rw [toNat_succ]
    exact sameReads_of_runs (callThenRead_buffered_reads k1 cap hcap n progress)
      (callThenRead_buffered_reads k2 cap hcap n progress)
  · intro h2
    obtain ⟨n, rfl⟩ : ∃ n : Nat, x = (n : Int) + 2 := ⟨x.toNat - 2, by omega⟩
    have ht : ((n : Int) + 2).toNat = n + 1 + 1 := by omega
    rw [ht]
    exact sameReads_of_runs (callThenRead_unbuffered_reads k1 n progress)
      (callThenRead_unbuffered_reads k2 n progress)

theorem variants_are_deterministic_witness :
    (1 : Int) ≤ 3 ∧ 0 < 1 ∧
    SameReads (Cfg.ideal 0) (Cfg.ideal 1) (callThenRead 1 Fn.factorialChannel 3 1)
      (2 * (3 : Int).toNat + 3) [(((((3 : Int).toNat).factorial : Nat) : Int) * 1, true), (0, false)]
    ∧ (runSchedule (Cfg.ideal 0) (callThenRead 1 Fn.factorialChannel 3 1)
          [0, 0, 1, 1, 1, 1, 1, 0, 0]).map
        (fun s => (s.exited, recvsOn 0 s.trace, s.trace.drop 3))
      = some (true, [(6, true), (0, false)],
          [Event.send 0 6, Event.close 0,
            Event.recv 0 6 true, Event.recv 0 0 false])
    ∧ (runSchedule (Cfg.ideal 1) (callThenRead 1 Fn.factorialChannel 3 1)
          [0, 0, 1, 1, 1, 1, 0, 1, 0]).map
        (fun s => (s.exited, recvsOn 0 s.trace, s.trace.drop 3))
      = some (true, [(6, true), (0, false)],
          [Event.send 0 6, Event.recv 0 6 true, Event.close 0, Event.recv 0 0 false]) :=
  ⟨by decide, by decide,
    (variants_are_deterministic (IntModel.wrapping 64) Fn.factorialChannel 3 1 3 5 0 1 1
      (by decide) (by decide)).2.2.2.2.2.1,
    by decide, by decide⟩

theorem norm_range (w : Nat) (hw : 1 ≤ w) (z : Int) :
    -(2 ^ (w - 1)) ≤ (IntModel.wrapping w).norm z ∧ (IntModel.wrapping w).norm z < 2 ^ (w - 1) := by
  have hM : (2 : Int) ^ w = 2 * 2 ^ (w - 1) := by
    obtain ⟨v, rfl⟩ : ∃ v, w = v + 1 := ⟨w - 1, by omega⟩
    simp [pow_succ, mul_comm]
  have hpos : (0 : Int) < 2 ^ w := by positivity
  have h1 := Int.emod_nonneg (z + 2 ^ (w - 1)) (ne_of_gt hpos)
  have h2 := Int.emod_lt_of_pos (z + 2 ^ (w - 1)) hpos
  simp only [IntModel.norm]
  constructor <;> omega

theorem fits_below (m : IntModel) (x j : Int) (hx : m.fits x = true) (h0 : 0 ≤ j)
    (hj : j ≤ x) : m.norm j = j := by
  cases m with
  | unbounded => rfl
  | wrapping w =>
    simp only [IntModel.fits, beq_iff_eq] at hx
    by_cases hw : 1 ≤ w
    · have hr := norm_range w hw x
      rw [hx] at hr
      have hp : (0 : Int) < 2 ^ (w - 1) := by positivity
      exact norm_of_fits w j hw (by omega) (by omega)
    · have hw0 : w = 0 := by omega
      subst hw0
      simp [IntModel.norm] at hx
      omega

theorem norm_mul_norm (m : IntModel) (a b : Int) : m.norm (a * m.norm b) = m.norm (a * b) := by
  cases m with
  | unbounded => rfl
  | wrapping w => exact norm_congr w _ _ ((norm_modEq w b).mul_left a)

theorem chainValueIn_unbounded (n : Nat) (x p : Int) :
    chainValueIn IntModel.unbounded n x p = chainValue n x p := by
  induction n generalizing x p with
  | zero => rfl
  | succ n ih => simp [chainValueIn, chainValue, IntModel.norm, ih]

theorem chainCallsIn_unbounded (f : Fn) (n : Nat) (x p : Int) :
    chainCallsIn IntModel.unbounded f n x p = chainCalls f n x p := by
  induction n generalizing x p with
  | zero => rfl
  | succ n ih => simp [chainCallsIn, chainCalls, IntModel.norm, ih]

/-- The handed-down accumulator is `x! * p` as far as the integer type can tell. -/
theorem chainValueIn_norm (m : IntModel) (n : Nat) : ∀ (x p : Int), x = (n : Int) + 1 →
    m.norm (chainValueIn m n x p) = m.norm ((((n + 1).factorial : Nat) : Int) * p) := by
  induction n with
  | zero => intro x p _; simp [chainValueIn]
  | succ n ih =>
    intro x p hx
    rw [chainValueIn, ih (x - 1) (m.norm (x * p)) (by omega), norm_mul_norm,
      Nat.factorial_succ (n + 1), hx]
    congr 1
    push_cast
    ring

theorem chainCallsIn_last (m : IntModel) (f : Fn) (n : Nat) : ∀ (x p : Int),
    x = (n : Int) + 1 →
    ∃ pre, chainCallsIn m f n x p = pre ++ [Event.call f 1 (chainValueIn m n x p) 0]
      ∧ pre.length = n ∧ writesOn 0 pre = [] ∧ recvsOn 0 pre = [] := by
  induction n with
  | zero =>
    intro x p hx
    have hx1 : x = 1 := by simpa using hx
    exact ⟨[], by simp [chainCallsIn, chainValueIn, hx1], rfl, rfl, rfl⟩
  | succ n ih =>
    intro x p hx
    obtain ⟨pre, h1, h2, h3, h4⟩ := ih (x - 1) (m.norm (x * p)) (by omega)
    refine ⟨Event.call f x p 0 :: pre, by simp [chainCallsIn, chainValueIn, h1], by simp [h2],
      ?_, ?_⟩
    · simpa [writesOn] using h3
    · simpa [recvsOn] using h4

theorem callsIn_chainCallsIn (m : IntModel) (f : Fn) (n : Nat) (x p : Int) :
    (callsIn (chainCallsIn m f n x p)).length = n + 1 := by
  induction n generalizing x p with
  | zero => simp [chainCallsIn, callsIn]
  | succ n ih =>
    have h := ih (x - 1) (m.norm (x * p))
    simp only [callsIn] at h
    simp [chainCallsIn, callsIn, h]

theorem recvsOn_chainCallsIn (m : IntModel) (f : Fn) (n : Nat) (x p : Int) :
    recvsOn 0 (chainCallsIn m f n x p) = [] := by
  induction n generalizing x p with
  | zero => simp [chainCallsIn, recvsOn]
  | succ n ih =>
    have h := ih (x - 1) (m.norm (x * p))
    simp only [recvsOn] at h
    simp [chainCallsIn, recvsOn, h]

theorem writesOn_chainCallsIn (m : IntModel) (f : Fn) (n : Nat) (x p : Int) :
    writesOn 0 (chainCallsIn m f n x p) = [] := by
  induction n generalizing x p with
  | zero => simp [chainCallsIn, writesOn]
  | succ n ih =>
    have h := ih (x - 1) (m.norm (x * p))
    simp only [writesOn] at h
    simp [chainCallsIn, writesOn, h]
/-- The tail of a chain when its goroutine, with the frames `stk` below that are all
returning, is at the base case and a reader waits. -/
theorem reader_base_any (cfg : Cfg) (f : Fn) (p : Int) (rest dfr : List Instr) (stk : Task)
    (t : List Event) (hK : unwind ({ code := rest, deferred := dfr } :: stk) = []) :
    AllRuns cfg
      (State.finished 0 (t ++ [Event.call f 1 p 0] ++ readEvents p)) 4
      (readerState f 1 p rest dfr stk t) := by
  refine AllRuns.only 1 (by simp [readerState])
    { main := [readerFrame],
      others := [{ code := [Instr.send 0 p, Instr.close 0, Instr.ret], deferred := [] } ::
        { code := rest, deferred := dfr } :: stk],
      chans := [Chan.fresh 0], trace := t ++ [Event.call f 1 p 0],
      panicked := false } ?_ ?_ ?_
  · cases f <;>
      simp [step, readerState, readerFrame, State.tasks, State.withTasks, State.log, Fn.body,
        FactorialChannel, FactorialDefer, unwind_running]
  · intro i hi
    match i with
    | 0 => simp [step, readerState, readerFrame, State.tasks, Chan.fresh]
    | 1 => exact absurd rfl hi
    | j + 2 => simp [step, readerState, readerFrame, State.tasks]
  refine AllRuns.only 1 (by simp [readerFrame])
    { main := [{ code := [Instr.recv 0], deferred := [] }],
      others := [{ code := [Instr.close 0, Instr.ret], deferred := [] } ::
        { code := rest, deferred := dfr } :: stk],
      chans := [Chan.fresh 0],
      trace := t ++ [Event.call f 1 p 0] ++ [Event.send 0 p, Event.recv 0 p true],
      panicked := false } ?_ ?_ ?_
  · simp [step, readerFrame, State.tasks, State.withTasks, State.log, State.advance,
      Task.advance, unwind_running, Chan.fresh, findReceiver, Task.receivesOn, Task.next,
      recvEvents]
  · intro i hi
    match i with
    | 0 => simp [step, readerFrame, State.tasks, Chan.fresh]
    | 1 => exact absurd rfl hi
    | j + 2 => simp [step, State.tasks]
  refine AllRuns.only 1 (by simp)
    { main := [{ code := [Instr.recv 0], deferred := [] }],
      others := [],
      chans := [{ cap := 0, buf := [], closed := true }],
      trace := t ++ [Event.call f 1 p 0] ++ [Event.send 0 p, Event.recv 0 p true]
        ++ [Event.close 0],
      panicked := false } ?_ ?_ ?_
  · simp [step, State.tasks, State.withTasks, State.log, State.advance, Task.advance,
      unwind_running, unwind_ret, hK, Chan.fresh]
  · intro i hi
    match i with
    | 0 => simp [step, State.tasks, Chan.fresh]
    | 1 => exact absurd rfl hi
    | j + 2 => simp [step, State.tasks]
  refine AllRuns.only 0 (by simp)
    { main := [],
      others := [],
      chans := [{ cap := 0, buf := [], closed := true }],
      trace := t ++ [Event.call f 1 p 0] ++ [Event.send 0 p, Event.recv 0 p true]
        ++ [Event.close 0] ++ [Event.recv 0 0 false],
      panicked := false } ?_ ?_ ?_
  · simp [step, State.tasks, State.withTasks, State.log, State.advance, Task.advance,
      unwind, Frame.returning, recvEvents]
  · intro i hi
    match i with
    | 0 => exact absurd rfl hi
    | j + 1 => simp [step, State.tasks]
  exact AllRuns.done rfl (by simp [State.finished, readEvents])

/-- The chain of `FactorialChannel` goroutines with a reader in main. -/
theorem reader_factorialChannel_any (cfg : Cfg) (n : Nat) : ∀ (x p : Int) (t : List Event),
    x = (n : Int) + 1 → cfg.ints.fits x = true →
    AllRuns cfg
      (State.finished 0
        (t ++ chainCallsIn cfg.ints Fn.factorialChannel n x p ++ readEvents (chainValueIn cfg.ints
            n x p)))
      (2 * n + 4) (readerState Fn.factorialChannel x p [] [] [] t) := by
  induction n with
  | zero =>
    intro x p t hx hfit
    have hx1 : x = 1 := by simpa using hx
    subst hx1
    simpa [chainCallsIn, chainValueIn] using
      reader_base_any cfg Fn.factorialChannel p [] [] [] t (by simp [unwind, Frame.returning])
  | succ n ih =>
    intro x p t hx hfit
    have hx1 : x ≠ 1 := by omega
    have hn1 : cfg.ints.norm (x - 1) = x - 1 :=
      fits_below cfg.ints x (x - 1) hfit (by omega) (by omega)
    have hfit1 : cfg.ints.fits (x - 1) = true := by simp [IntModel.fits, hn1]
    refine AllRuns.only 1 (by simp [readerState])
      { main := [readerFrame],
          others := [[{ code := [Instr.goCall Fn.factorialChannel (x - 1)
                                 (cfg.ints.norm (x * p)) 0],
                        deferred := [] },
                      { code := [], deferred := [] }]],
          chans := [Chan.fresh 0], trace := t ++ [Event.call Fn.factorialChannel x p 0],
          panicked := false } ?_ ?_ ?_
    · simp [step, readerState, readerFrame, State.tasks, State.withTasks, State.log, Fn.body,
        FactorialChannel, unwind_running, hx1, hn1]
    · intro i hi
      match i with
      | 0 => simp [step, readerState, readerFrame, State.tasks, Chan.fresh]
      | 1 => exact absurd rfl hi
      | j + 2 => simp [step, readerState, readerFrame, State.tasks]
    refine AllRuns.only 1 (by simp [readerFrame])
      (readerState Fn.factorialChannel (x - 1) (cfg.ints.norm (x * p)) [] [] []
        (t ++ [Event.call Fn.factorialChannel x p 0])) ?_ ?_ ?_
    · simp [step, readerState, readerFrame, State.tasks, State.withTasks, unwind,
        Frame.returning]
    · intro i hi
      match i with
      | 0 => simp [step, readerFrame, State.tasks, Chan.fresh]
      | 1 => exact absurd rfl hi
      | j + 2 => simp [step, State.tasks]
    have h := ih (x - 1) (cfg.ints.norm (x * p)) (t ++ [Event.call Fn.factorialChannel x p 0]) (by
        omega) hfit1
    simpa [chainCallsIn, chainValueIn] using
      AllRuns.mono h (show 2 * n + 4 ≤ 2 * (n + 1) + 2 by omega)

/-- The chain of deferred `FactorialDefer` calls in a goroutine of its own, with a
reader in main. -/
theorem reader_factorialDefer_any (cfg : Cfg) (n : Nat) : ∀ (x p : Int) (rest dfr : List Instr)
    (stk : Task) (t : List Event), x = (n : Int) + 1 → cfg.ints.fits x = true →
    unwind ({ code := rest, deferred := dfr } :: stk) = [] →
    AllRuns cfg
      (State.finished 0
        (t ++ chainCallsIn cfg.ints Fn.factorialDefer n x p ++ readEvents (chainValueIn cfg.ints n
            x p)))
      (2 * n + 4) (readerState Fn.factorialDefer x p rest dfr stk t) := by
  induction n with
  | zero =>
    intro x p rest dfr stk t hx hfit hK
    have hx1 : x = 1 := by simpa using hx
    subst hx1
    simpa [chainCallsIn, chainValueIn] using reader_base_any cfg Fn.factorialDefer p rest dfr stk t
        hK
  | succ n ih =>
    intro x p rest dfr stk t hx hfit hK
    have hx1 : x ≠ 1 := by omega
    have hn1 : cfg.ints.norm (x - 1) = x - 1 :=
      fits_below cfg.ints x (x - 1) hfit (by omega) (by omega)
    have hfit1 : cfg.ints.fits (x - 1) = true := by simp [IntModel.fits, hn1]
    refine AllRuns.only 1 (by simp [readerState])
      { main := [readerFrame],
          others := [{ code := [Instr.deferCall Fn.factorialDefer (x - 1)
                                (cfg.ints.norm (x * p)) 0],
                       deferred := [] } :: { code := rest, deferred := dfr } :: stk],
          chans := [Chan.fresh 0], trace := t ++ [Event.call Fn.factorialDefer x p 0],
          panicked := false } ?_ ?_ ?_
    · simp [step, readerState, readerFrame, State.tasks, State.withTasks, State.log, Fn.body,
        FactorialDefer, unwind_running, hx1, hn1]
    · intro i hi
      match i with
      | 0 => simp [step, readerState, readerFrame, State.tasks, Chan.fresh]
      | 1 => exact absurd rfl hi
      | j + 2 => simp [step, readerState, readerFrame, State.tasks]
    refine AllRuns.only 1 (by simp [readerFrame])
      (readerState Fn.factorialDefer (x - 1) (cfg.ints.norm (x * p)) [] []
        ({ code := rest, deferred := dfr } :: stk)
        (t ++ [Event.call Fn.factorialDefer x p 0])) ?_ ?_ ?_
    · simp [step, readerState, readerFrame, State.tasks, State.withTasks, unwind_deferred]
    · intro i hi
      match i with
      | 0 => simp [step, readerFrame, State.tasks, Chan.fresh]
      | 1 => exact absurd rfl hi
      | j + 2 => simp [step, State.tasks]
    have h := ih (x - 1) (cfg.ints.norm (x * p)) [] [] ({ code := rest, deferred := dfr } :: stk)
      (t ++ [Event.call Fn.factorialDefer x p 0]) (by omega) hfit1 (by rw [unwind_done]; exact hK)
    simpa [chainCallsIn, chainValueIn] using
      AllRuns.mono h (show 2 * n + 4 ≤ 2 * (n + 1) + 2 by omega)

/-- Both chains, started as a goroutine, with a reader in main. -/
theorem goThenRead_runs_any (cfg : Cfg) (f : Fn) (n : Nat) (x p : Int) (hx : x = (n : Int) + 1)
    (hfit : cfg.ints.fits x = true) :
    AllRuns cfg
      (State.finished 0 (chainCallsIn cfg.ints f n x p ++ readEvents (chainValueIn cfg.ints n x p)))
      (2 * n + 4) (goThenRead f x p) := by
  cases f with
  | factorialDefer =>
    simpa using reader_factorialDefer_any cfg n x p [] [] [] [] hx hfit (by simp [unwind,
        Frame.returning])
  | factorialChannel =>
    simpa using reader_factorialChannel_any cfg n x p [] hx hfit

/-- A synchronous `FactorialDefer` on a channel with buffer space, followed by two
reads in the same goroutine. -/
theorem sync_factorialDefer_any (cfg : Cfg) (cap n : Nat) (hcap : 0 < cap) :
    ∀ (x p : Int) (rest dfr : List Instr) (stk : Task) (t : List Event), x = (n : Int) + 1 →
        cfg.ints.fits x = true →
    unwind ({ code := rest, deferred := dfr } :: stk) = [readerFrame] →
    AllRuns cfg
      (State.finished cap
        (t ++ chainCallsIn cfg.ints Fn.factorialDefer n x p ++ bufferedEvents (chainValueIn
            cfg.ints n x p)))
      (2 * n + 5) (deferSyncState cap x p rest dfr stk t) := by
  induction n with
  | zero =>
    intro x p rest dfr stk t hx hfit hK
    have hx1 : x = 1 := by simpa using hx
    subst hx1
    refine AllRuns.only 0 (by simp [deferSyncState])
      { main := { code := [Instr.send 0 p, Instr.close 0, Instr.ret], deferred := [] } ::
            { code := rest, deferred := dfr } :: stk,
          others := [], chans := [Chan.fresh cap],
          trace := t ++ [Event.call Fn.factorialDefer 1 p 0], panicked := false } ?_ ?_ ?_
    · simp [step, deferSyncState, State.tasks, State.withTasks, State.log, Fn.body,
        FactorialDefer, unwind_running]
    · intro i hi
      match i with
      | 0 => exact absurd rfl hi
      | j + 1 => simp [step, deferSyncState, State.tasks]
    refine AllRuns.only 0 (by simp)
      { main := { code := [Instr.close 0, Instr.ret], deferred := [] } ::
            { code := rest, deferred := dfr } :: stk,
          others := [], chans := [{ cap := cap, buf := [p], closed := false }],
          trace := t ++ [Event.call Fn.factorialDefer 1 p 0] ++ [Event.send 0 p],
          panicked := false } ?_ ?_ ?_
    · simp [step, State.tasks, State.withTasks, State.log, State.advance, Task.advance,
        unwind_running, Chan.fresh, hcap]
    · intro i hi
      match i with
      | 0 => exact absurd rfl hi
      | j + 1 => simp [step, State.tasks]
    refine AllRuns.only 0 (by simp)
      { main := [readerFrame],
          others := [], chans := [{ cap := cap, buf := [p], closed := true }],
          trace := t ++ [Event.call Fn.factorialDefer 1 p 0] ++ [Event.send 0 p]
            ++ [Event.close 0],
          panicked := false } ?_ ?_ ?_
    · simp [step, State.tasks, State.withTasks, State.log, State.advance, Task.advance,
        unwind_ret, hK]
    · intro i hi
      match i with
      | 0 => exact absurd rfl hi
      | j + 1 => simp [step, State.tasks]
    refine AllRuns.only 0 (by simp)
      { main := [{ code := [Instr.recv 0], deferred := [] }],
          others := [], chans := [{ cap := cap, buf := [], closed := true }],
          trace := t ++ [Event.call Fn.factorialDefer 1 p 0] ++ [Event.send 0 p]
            ++ [Event.close 0] ++ [Event.recv 0 p true],
          panicked := false } ?_ ?_ ?_
    · simp [step, readerFrame, State.tasks, State.withTasks, State.log, State.advance,
        Task.advance, unwind_running, recvEvents]
    · intro i hi
      match i with
      | 0 => exact absurd rfl hi
      | j + 1 => simp [step, State.tasks]
    refine AllRuns.only 0 (by simp)
      { main := [],
          others := [], chans := [{ cap := cap, buf := [], closed := true }],
          trace := t ++ [Event.call Fn.factorialDefer 1 p 0] ++ [Event.send 0 p]
            ++ [Event.close 0] ++ [Event.recv 0 p true] ++ [Event.recv 0 0 false],
          panicked := false } ?_ ?_ ?_
    · simp [step, State.tasks, State.withTasks, State.log, State.advance, Task.advance,
        unwind, Frame.returning, recvEvents]
    · intro i hi
      match i with
      | 0 => exact absurd rfl hi
      | j + 1 => simp [step, State.tasks]
    exact AllRuns.done rfl (by simp [State.finished, chainCallsIn, chainValueIn, bufferedEvents])
  | succ n ih =>
    intro x p rest dfr stk t hx hfit hK
    have hx1 : x ≠ 1 := by omega
    have hn1 : cfg.ints.norm (x - 1) = x - 1 :=
      fits_below cfg.ints x (x - 1) hfit (by omega) (by omega)
    have hfit1 : cfg.ints.fits (x - 1) = true := by simp [IntModel.fits, hn1]
    refine AllRuns.only 0 (by simp [deferSyncState])
      { main := { code := [Instr.deferCall Fn.factorialDefer (x - 1) (cfg.ints.norm (x * p)) 0],
                    deferred := [] } :: { code := rest, deferred := dfr } :: stk,
          others := [], chans := [Chan.fresh cap],
          trace := t ++ [Event.call Fn.factorialDefer x p 0], panicked := false } ?_ ?_ ?_
    · simp [step, deferSyncState, State.tasks, State.withTasks, State.log, Fn.body,
        FactorialDefer, unwind_running, hx1, hn1]
    · intro i hi
      match i with
      | 0 => exact absurd rfl hi
      | j + 1 => simp [step, deferSyncState, State.tasks]
    refine AllRuns.only 0 (by simp)
      (deferSyncState cap (x - 1)
            (cfg.ints.norm (x * p)) [] [] ({ code := rest, deferred := dfr } :: stk)
        (t ++ [Event.call Fn.factorialDefer x p 0])) ?_ ?_ ?_
    · simp [step, deferSyncState, State.tasks, State.withTasks, unwind_deferred]
    · intro i hi
      match i with
      | 0 => exact absurd rfl hi
      | j + 1 => simp [step, State.tasks]
    have h := ih (x - 1) (cfg.ints.norm (x * p)) [] [] ({ code := rest, deferred := dfr } :: stk)
      (t ++ [Event.call Fn.factorialDefer x p 0]) (by omega) hfit1 (by rw [unwind_done]; exact hK)
    simpa [chainCallsIn, chainValueIn] using
      AllRuns.mono h (show 2 * n + 5 ≤ 2 * (n + 1) + 3 by omega)

/-- The way the driver calls `FactorialChannel`, for `x ≥ 2`, with two reads. -/
theorem callThenRead_factorialChannel_any (cfg : Cfg) (n : Nat) (x p : Int) (hx : x = (n : Int) +
    2) (hfit : cfg.ints.fits x = true) :
    AllRuns cfg
      (State.finished 0
        (chainCallsIn cfg.ints Fn.factorialChannel (n + 1) x p ++ readEvents (chainValueIn cfg.ints
            (n + 1) x p)))
      (2 * n + 6) (callThenRead 0 Fn.factorialChannel x p) := by
  have hx1 : x ≠ 1 := by omega
  have hn1 : cfg.ints.norm (x - 1) = x - 1 :=
    fits_below cfg.ints x (x - 1) hfit (by omega) (by omega)
  have hfit1 : cfg.ints.fits (x - 1) = true := by simp [IntModel.fits, hn1]
  refine AllRuns.only 0 (by simp [callThenRead, State.start])
    { main := [{ code := [Instr.goCall Fn.factorialChannel (x - 1)
                          (cfg.ints.norm (x * p)) 0], deferred := [] },
               readerFrame],
      others := [], chans := [Chan.fresh 0],
      trace := [Event.call Fn.factorialChannel x p 0], panicked := false } ?_ ?_ ?_
  · simp [step, callThenRead, State.start, readerFrame, State.tasks, State.withTasks, State.log,
      Fn.body, FactorialChannel, unwind_running, hx1, hn1]
  · intro i hi
    match i with
    | 0 => exact absurd rfl hi
    | j + 1 => simp [step, callThenRead, State.start, State.tasks]
  refine AllRuns.only 0 (by simp)
    (readerState Fn.factorialChannel (x - 1) (cfg.ints.norm (x * p)) [] [] []
      [Event.call Fn.factorialChannel x p 0]) ?_ ?_ ?_
  · simp [step, readerState, readerFrame, State.tasks, State.withTasks, unwind_done,
      unwind_running]
  · intro i hi
    match i with
    | 0 => exact absurd rfl hi
    | j + 1 => simp [step, State.tasks]
  have h := reader_factorialChannel_any cfg n (x - 1) (cfg.ints.norm (x * p)) [Event.call
      Fn.factorialChannel x p 0]
    (by omega) hfit1
  simpa [chainCallsIn, chainValueIn] using
    AllRuns.mono h (show 2 * n + 4 ≤ 2 * n + 4 by omega)


/-- The base case of `FactorialChannel` in a goroutine of its own on a buffered
channel, with a reader in main: after the send, the reader and the close race. -/
theorem buffered_base_any (cfg : Cfg) (cap : Nat) (p : Int) (t : List Event) (hcap : 0 < cap) :
    AllRuns cfg (State.handedOver (t ++ [Event.call Fn.factorialChannel 1 p 0]) p) 5
      (bufferedReaderState cap 1 p t) := by
  have hcap0 : cap ≠ 0 := by omega
  refine AllRuns.only 1 (by simp [bufferedReaderState, readerFrame])
    { main := [readerFrame],
      others := [[{ code := [Instr.send 0 p, Instr.close 0, Instr.ret], deferred := [] },
        { code := [], deferred := [] }]],
      chans := [Chan.fresh cap], trace := t ++ [Event.call Fn.factorialChannel 1 p 0],
      panicked := false } ?_ ?_ ?_
  · simp [step, bufferedReaderState, goroutine, readerFrame, State.tasks, State.withTasks,
      State.log, Fn.body, FactorialChannel, unwind_running]
  · intro i hi
    match i with
    | 0 => simp [step, bufferedReaderState, readerFrame, State.tasks, Chan.fresh]
    | 1 => exact absurd rfl hi
    | j + 2 => simp [step, bufferedReaderState, goroutine, readerFrame, State.tasks]
  refine AllRuns.only 1 (by simp [readerFrame])
    { main := [readerFrame],
      others := [[{ code := [Instr.close 0, Instr.ret], deferred := [] },
        { code := [], deferred := [] }]],
      chans := [{ cap := cap, buf := [p], closed := false }],
      trace := t ++ [Event.call Fn.factorialChannel 1 p 0] ++ [Event.send 0 p],
      panicked := false } ?_ ?_ ?_
  · simp [step, readerFrame, State.tasks, State.withTasks, State.log, State.advance,
      Task.advance, unwind_running, Chan.fresh, hcap]
  · intro i hi
    match i with
    | 0 => simp [step, readerFrame, State.tasks, Chan.fresh]
    | 1 => exact absurd rfl hi
    | j + 2 => simp [step, State.tasks]
  refine AllRuns.two 0 1 (by simp [readerFrame])
    { main := [{ code := [Instr.recv 0], deferred := [] }],
      others := [[{ code := [Instr.close 0, Instr.ret], deferred := [] },
        { code := [], deferred := [] }]],
      chans := [{ cap := cap, buf := [], closed := false }],
      trace := t ++ [Event.call Fn.factorialChannel 1 p 0] ++ [Event.send 0 p]
        ++ [Event.recv 0 p true],
      panicked := false }
    { main := [readerFrame],
      others := [],
      chans := [{ cap := cap, buf := [p], closed := true }],
      trace := t ++ [Event.call Fn.factorialChannel 1 p 0] ++ [Event.send 0 p]
        ++ [Event.close 0],
      panicked := false } ?_ ?_ ?_ ?_ ?_
  · simp [step, readerFrame, State.tasks, State.withTasks, State.log, State.advance,
      Task.advance, unwind_running, recvEvents]
  · simp [step, readerFrame, State.tasks, State.withTasks, State.log, State.advance,
      Task.advance, unwind_running, unwind_ret, unwind_done, unwind, Frame.returning]
  · intro i hi hj
    match i with
    | 0 => exact absurd rfl hi
    | 1 => exact absurd rfl hj
    | j + 2 => simp [step, State.tasks]
  · refine AllRuns.only 1 (by simp)
      { main := [{ code := [Instr.recv 0], deferred := [] }],
        others := [],
        chans := [{ cap := cap, buf := [], closed := true }],
        trace := t ++ [Event.call Fn.factorialChannel 1 p 0] ++ [Event.send 0 p]
          ++ [Event.recv 0 p true] ++ [Event.close 0],
        panicked := false } ?_ ?_ ?_
    · simp [step, State.tasks, State.withTasks, State.log, State.advance, Task.advance,
        unwind_running, unwind_ret, unwind_done, unwind, Frame.returning]
    · intro i hi
      match i with
      | 0 => simp [step, State.tasks]
      | 1 => exact absurd rfl hi
      | j + 2 => simp [step, State.tasks]
    refine AllRuns.only 0 (by simp)
      { main := [],
        others := [],
        chans := [{ cap := cap, buf := [], closed := true }],
        trace := t ++ [Event.call Fn.factorialChannel 1 p 0] ++ [Event.send 0 p]
          ++ [Event.recv 0 p true] ++ [Event.close 0] ++ [Event.recv 0 0 false],
        panicked := false } ?_ ?_ ?_
    · simp [step, State.tasks, State.withTasks, State.log, State.advance, Task.advance,
        unwind, Frame.returning, recvEvents]
    · intro i hi
      match i with
      | 0 => exact absurd rfl hi
      | j + 1 => simp [step, State.tasks]
    exact AllRuns.done rfl ⟨rfl, Or.inl (by simp [readEvents])⟩
  · refine AllRuns.only 0 (by simp [readerFrame])
      { main := [{ code := [Instr.recv 0], deferred := [] }],
        others := [],
        chans := [{ cap := cap, buf := [], closed := true }],
        trace := t ++ [Event.call Fn.factorialChannel 1 p 0] ++ [Event.send 0 p]
          ++ [Event.close 0] ++ [Event.recv 0 p true],
        panicked := false } ?_ ?_ ?_
    · simp [step, readerFrame, State.tasks, State.withTasks, State.log, State.advance,
        Task.advance, unwind_running, recvEvents]
    · intro i hi
      match i with
      | 0 => exact absurd rfl hi
      | j + 1 => simp [step, State.tasks]
    refine AllRuns.only 0 (by simp)
      { main := [],
        others := [],
        chans := [{ cap := cap, buf := [], closed := true }],
        trace := t ++ [Event.call Fn.factorialChannel 1 p 0] ++ [Event.send 0 p]
          ++ [Event.close 0] ++ [Event.recv 0 p true] ++ [Event.recv 0 0 false],
        panicked := false } ?_ ?_ ?_
    · simp [step, State.tasks, State.withTasks, State.log, State.advance, Task.advance,
        unwind, Frame.returning, recvEvents]
    · intro i hi
      match i with
      | 0 => exact absurd rfl hi
      | j + 1 => simp [step, State.tasks]
    exact AllRuns.done rfl ⟨rfl, Or.inr (by simp [bufferedEvents])⟩

/-- The chain of `FactorialChannel` goroutines on a buffered channel, with a reader
in main. -/
theorem buffered_factorialChannel_any (cfg : Cfg) (cap n : Nat) (hcap : 0 < cap) :
    ∀ (x p : Int) (t : List Event), x = (n : Int) + 1 → cfg.ints.fits x = true →
    AllRuns cfg
      (State.handedOver (t ++ chainCallsIn cfg.ints Fn.factorialChannel n x p)
        (chainValueIn cfg.ints n x p)) (2 * n + 5)
      (bufferedReaderState cap x p t) := by
  induction n with
  | zero =>
    intro x p t hx hfit
    have hx1 : x = 1 := by simpa using hx
    subst hx1
    simpa [chainCallsIn, chainValueIn] using buffered_base_any cfg cap p t hcap
  | succ n ih =>
    intro x p t hx hfit
    have hx1 : x ≠ 1 := by omega
    have hn1 : cfg.ints.norm (x - 1) = x - 1 :=
      fits_below cfg.ints x (x - 1) hfit (by omega) (by omega)
    have hfit1 : cfg.ints.fits (x - 1) = true := by simp [IntModel.fits, hn1]
    refine AllRuns.only 1 (by simp [bufferedReaderState, readerFrame])
      { main := [readerFrame],
          others := [[{ code := [Instr.goCall Fn.factorialChannel (x - 1)
                                 (cfg.ints.norm (x * p)) 0],
                        deferred := [] },
                      { code := [], deferred := [] }]],
          chans := [Chan.fresh cap], trace := t ++ [Event.call Fn.factorialChannel x p 0],
          panicked := false } ?_ ?_ ?_
    · simp [step, bufferedReaderState, goroutine, readerFrame, State.tasks, State.withTasks,
        State.log, Fn.body, FactorialChannel, unwind_running, hx1, hn1]
    · intro i hi
      match i with
      | 0 => simp [step, bufferedReaderState, readerFrame, State.tasks, Chan.fresh]
      | 1 => exact absurd rfl hi
      | j + 2 => simp [step, bufferedReaderState, goroutine, readerFrame, State.tasks]
    refine AllRuns.only 1 (by simp [readerFrame])
      (bufferedReaderState cap (x - 1) (cfg.ints.norm (x * p)) (t ++ [Event.call
          Fn.factorialChannel x p 0]))
      ?_ ?_ ?_
    · simp [step, bufferedReaderState, goroutine, readerFrame, State.tasks, State.withTasks,
        unwind, Frame.returning]
    · intro i hi
      match i with
      | 0 => simp [step, readerFrame, State.tasks, Chan.fresh]
      | 1 => exact absurd rfl hi
      | j + 2 => simp [step, State.tasks]
    have h := ih (x - 1) (cfg.ints.norm (x * p)) (t ++ [Event.call Fn.factorialChannel x p 0]) (by
        omega) hfit1
    simpa [chainCallsIn, chainValueIn] using AllRuns.mono h (show 2 * n + 5 ≤ 2 * (n + 1) + 3 by
        omega)

/-- The way the driver calls `FactorialChannel`, on a buffered channel. -/
theorem callThenRead_buffered_any (cfg : Cfg) (cap n : Nat) (hcap : 0 < cap) (x p : Int)
    (hx : x = (n : Int) + 1) (hfit : cfg.ints.fits x = true) :
    AllRuns cfg
      (State.handedOver (chainCallsIn cfg.ints Fn.factorialChannel n x p)
        (chainValueIn cfg.ints n x p)) (2 * n + 5)
      (callThenRead cap Fn.factorialChannel x p) := by
  cases n with
  | zero =>
    have hx1 : x = 1 := by simpa using hx
    subst hx1
    refine AllRuns.only 0 (by simp [callThenRead, State.start])
      { main := [{ code := [Instr.send 0 p, Instr.close 0, Instr.ret], deferred := [] },
                 readerFrame],
        others := [], chans := [Chan.fresh cap],
        trace := [Event.call Fn.factorialChannel 1 p 0], panicked := false } ?_ ?_ ?_
    · simp [step, callThenRead, State.start, readerFrame, State.tasks, State.withTasks,
        State.log, Fn.body, FactorialChannel, unwind_running]
    · intro i hi
      match i with
      | 0 => exact absurd rfl hi
      | j + 1 => simp [step, callThenRead, State.start, State.tasks]
    refine AllRuns.only 0 (by simp)
      { main := [{ code := [Instr.close 0, Instr.ret], deferred := [] }, readerFrame],
        others := [], chans := [{ cap := cap, buf := [p], closed := false }],
        trace := [Event.call Fn.factorialChannel 1 p 0] ++ [Event.send 0 p],
        panicked := false } ?_ ?_ ?_
    · simp [step, readerFrame, State.tasks, State.withTasks, State.log, State.advance,
        Task.advance, unwind_running, Chan.fresh, hcap]
    · intro i hi
      match i with
      | 0 => exact absurd rfl hi
      | j + 1 => simp [step, State.tasks]
    refine AllRuns.only 0 (by simp)
      { main := [readerFrame],
        others := [], chans := [{ cap := cap, buf := [p], closed := true }],
        trace := [Event.call Fn.factorialChannel 1 p 0] ++ [Event.send 0 p] ++ [Event.close 0],
        panicked := false } ?_ ?_ ?_
    · simp [step, readerFrame, State.tasks, State.withTasks, State.log, State.advance,
        Task.advance, unwind_running, unwind_ret]
    · intro i hi
      match i with
      | 0 => exact absurd rfl hi
      | j + 1 => simp [step, State.tasks]
    refine AllRuns.only 0 (by simp [readerFrame])
      { main := [{ code := [Instr.recv 0], deferred := [] }],
        others := [], chans := [{ cap := cap, buf := [], closed := true }],
        trace := [Event.call Fn.factorialChannel 1 p 0] ++ [Event.send 0 p] ++ [Event.close 0]
          ++ [Event.recv 0 p true],
        panicked := false } ?_ ?_ ?_
    · simp [step, readerFrame, State.tasks, State.withTasks, State.log, State.advance,
        Task.advance, unwind_running, recvEvents]
    · intro i hi
      match i with
      | 0 => exact absurd rfl hi
      | j + 1 => simp [step, State.tasks]
    refine AllRuns.only 0 (by simp)
      { main := [],
        others := [], chans := [{ cap := cap, buf := [], closed := true }],
        trace := [Event.call Fn.factorialChannel 1 p 0] ++ [Event.send 0 p] ++ [Event.close 0]
          ++ [Event.recv 0 p true] ++ [Event.recv 0 0 false],
        panicked := false } ?_ ?_ ?_
    · simp [step, State.tasks, State.withTasks, State.log, State.advance, Task.advance,
        unwind, Frame.returning, recvEvents]
    · intro i hi
      match i with
      | 0 => exact absurd rfl hi
      | j + 1 => simp [step, State.tasks]
    exact AllRuns.done rfl ⟨rfl, Or.inr (by simp [chainCallsIn, chainValueIn, bufferedEvents])⟩
  | succ n =>
    have hx1 : x ≠ 1 := by omega
    have hn1 : cfg.ints.norm (x - 1) = x - 1 :=
      fits_below cfg.ints x (x - 1) hfit (by omega) (by omega)
    have hfit1 : cfg.ints.fits (x - 1) = true := by simp [IntModel.fits, hn1]
    refine AllRuns.only 0 (by simp [callThenRead, State.start])
      { main := [{ code := [Instr.goCall Fn.factorialChannel (x - 1) (cfg.ints.norm (x * p)) 0],
                   deferred := [] }, readerFrame],
        others := [], chans := [Chan.fresh cap],
        trace := [Event.call Fn.factorialChannel x p 0], panicked := false } ?_ ?_ ?_
    · simp [step, callThenRead, State.start, readerFrame, State.tasks, State.withTasks,
        State.log, Fn.body, FactorialChannel, unwind_running, hx1, hn1]
    · intro i hi
      match i with
      | 0 => exact absurd rfl hi
      | j + 1 => simp [step, callThenRead, State.start, State.tasks]
    refine AllRuns.only 0 (by simp)
      (bufferedReaderState cap (x - 1) (cfg.ints.norm (x * p)) [Event.call Fn.factorialChannel x p
          0]) ?_ ?_ ?_
    · simp [step, bufferedReaderState, goroutine, readerFrame, State.tasks, State.withTasks,
        unwind_done, unwind_running]
    · intro i hi
      match i with
      | 0 => exact absurd rfl hi
      | j + 1 => simp [step, State.tasks]
    have h := buffered_factorialChannel_any cfg cap n hcap (x - 1) (cfg.ints.norm (x * p))
      [Event.call Fn.factorialChannel x p 0] (by omega) hfit1
    simpa [chainCallsIn, chainValueIn] using AllRuns.mono h (show 2 * n + 5 ≤ 2 * n + 5 by omega)

/-- A synchronous call at the base case, alone on an unbuffered channel: after the
call step main is at the send and nothing can move. -/
theorem call_base_blocks_any (cfg : Cfg) (f : Fn) (p : Int) (rest dfr : List Instr) (stk : Task)
    (t : List Event) (hw : writesOn 0 t = []) (hr : recvsOn 0 t = []) :
    AllBlock cfg StillInCall (BlockedAt (t ++ [Event.call f 1 p 0]) p) 1
      (callState f 1 p rest dfr stk t) := by
  refine AllBlock.single 0 (by simp [callState]) rfl
    ⟨rfl, rfl, hw, hr, by simp [callState, Task.receivesOn, Task.next]⟩
    { main := { code := [Instr.send 0 p, Instr.close 0, Instr.ret], deferred := [] } ::
        { code := rest, deferred := dfr } :: stk,
      others := [], chans := [Chan.fresh 0],
      trace := t ++ [Event.call f 1 p 0], panicked := false } ?_ ?_ ?_
  · cases f <;>
      simp [step, callState, State.tasks, State.withTasks, State.log, Fn.body,
        FactorialChannel, FactorialDefer, unwind_running]
  · intro i hi
    match i with
    | 0 => exact absurd rfl hi
    | j + 1 => simp [step, callState, State.tasks]
  refine AllBlock.stuck (by simp) rfl ?_ ⟨rfl, by simp [Task.next]⟩ ?_
  · exact ⟨rfl, rfl, by rw [writesOn_call, hw], by rw [recvsOn_call, hr],
      by simp [Task.receivesOn, Task.next]⟩
  · intro i
    match i with
    | 0 => simp [step, State.tasks, Chan.fresh, findReceiver, Task.receivesOn, Task.next]
    | j + 1 => simp [step, State.tasks]

/-- A synchronous `FactorialDefer`, alone on an unbuffered channel. -/
theorem call_factorialDefer_blocks_any (cfg : Cfg) (n : Nat) : ∀ (x p : Int) (rest dfr : List Instr)
    (stk : Task) (t : List Event), x = (n : Int) + 1 → cfg.ints.fits x = true → writesOn 0 t = [] →
        recvsOn 0 t = [] →
    AllBlock cfg StillInCall
      (BlockedAt (t ++ chainCallsIn cfg.ints Fn.factorialDefer n x p)
        (chainValueIn cfg.ints n x p)) (2 * n + 1)
      (callState Fn.factorialDefer x p rest dfr stk t) := by
  induction n with
  | zero =>
    intro x p rest dfr stk t hx hfit hw hr
    have hx1 : x = 1 := by simpa using hx
    subst hx1
    simpa [chainCallsIn, chainValueIn] using
      call_base_blocks_any cfg Fn.factorialDefer p rest dfr stk t hw hr
  | succ n ih =>
    intro x p rest dfr stk t hx hfit hw hr
    have hx1 : x ≠ 1 := by omega
    have hn1 : cfg.ints.norm (x - 1) = x - 1 :=
      fits_below cfg.ints x (x - 1) hfit (by omega) (by omega)
    have hfit1 : cfg.ints.fits (x - 1) = true := by simp [IntModel.fits, hn1]
    refine AllBlock.single 0 (by simp [callState]) rfl
      ⟨rfl, rfl, hw, hr, by simp [callState, Task.receivesOn, Task.next]⟩
      { main := { code := [Instr.deferCall Fn.factorialDefer (x - 1) (cfg.ints.norm (x * p)) 0],
                  deferred := [] } :: { code := rest, deferred := dfr } :: stk,
        others := [], chans := [Chan.fresh 0],
        trace := t ++ [Event.call Fn.factorialDefer x p 0], panicked := false } ?_ ?_ ?_
    · simp [step, callState, State.tasks, State.withTasks, State.log, Fn.body,
        FactorialDefer, unwind_running, hx1, hn1]
    · intro i hi
      match i with
      | 0 => exact absurd rfl hi
      | j + 1 => simp [step, callState, State.tasks]
    have hw2 : writesOn 0 (t ++ [Event.call Fn.factorialDefer x p 0]) = [] := by
      rw [writesOn_call, hw]
    have hr2 : recvsOn 0 (t ++ [Event.call Fn.factorialDefer x p 0]) = [] := by
      rw [recvsOn_call, hr]
    refine AllBlock.single 0 (by simp) rfl
      ⟨rfl, rfl, hw2, hr2, by simp [Task.receivesOn, Task.next]⟩
      (callState Fn.factorialDefer (x - 1)
            (cfg.ints.norm (x * p)) [] [] ({ code := rest, deferred := dfr } :: stk)
        (t ++ [Event.call Fn.factorialDefer x p 0])) ?_ ?_ ?_
    · simp [step, callState, State.tasks, State.withTasks, unwind_deferred]
    · intro i hi
      match i with
      | 0 => exact absurd rfl hi
      | j + 1 => simp [step, State.tasks]
    have h := ih (x - 1) (cfg.ints.norm (x * p)) [] [] ({ code := rest, deferred := dfr } :: stk)
      (t ++ [Event.call Fn.factorialDefer x p 0]) (by omega) hfit1 hw2 hr2
    simpa [chainCallsIn, chainValueIn] using AllBlock.longer h (show 2 * n + 1 ≤ 2 * n + 1 by omega)
theorem fits_of_mul (m : IntModel) (a : Int) (c : Nat) (hc : 1 ≤ c)
    (h : m.fits ((c : Int) * a) = true) : m.norm a = a := by
  cases m with
  | unbounded => rfl
  | wrapping w =>
    simp only [IntModel.fits, beq_iff_eq] at h
    have hc1 : (1 : Int) ≤ (c : Int) := by exact_mod_cast hc
    by_cases hw : 1 ≤ w
    · have hr := norm_range w hw ((c : Int) * a)
      rw [h] at hr
      have hp : (0 : Int) < 2 ^ (w - 1) := by positivity
      refine norm_of_fits w a hw ?_ ?_
      · by_cases ha : 0 ≤ a
        · omega
        · have : (c : Int) * a ≤ 1 * a := by nlinarith
          omega
      · by_cases ha : 0 ≤ a
        · have : 1 * a ≤ (c : Int) * a := by nlinarith
          omega
        · omega
    · have hw0 : w = 0 := by omega
      subst hw0
      simp [IntModel.norm] at h ⊢
      have h1 : (c : Int) * a = -1 := by omega
      have h2 : (c : Int) = 1 ∨ (c : Int) = -1 := by
        have := Int.isUnit_iff.mp (isUnit_of_mul_eq_one (c : Int) (-a) (by linarith))
        exact this
      rcases h2 with h2 | h2
      · rw [h2] at h1; omega
      · omega

theorem chain_exact (m : IntModel) (f : Fn) (n : Nat) : ∀ (x p : Int), x = (n : Int) + 1 →
    m.fits ((((n + 1).factorial : Nat) : Int) * p) = true →
    chainCallsIn m f n x p = chainCalls f n x p ∧ chainValueIn m n x p = chainValue n x p := by
  induction n with
  | zero => intro x p _ _; exact ⟨rfl, rfl⟩
  | succ n ih =>
    intro x p hx hfit
    have he : (((n + 1 + 1).factorial : Nat) : Int) * p
        = (((n + 1).factorial : Nat) : Int) * (x * p) := by
      rw [Nat.factorial_succ (n + 1), hx]
      push_cast
      ring
    rw [he] at hfit
    have hxp : m.norm (x * p) = x * p :=
      fits_of_mul m (x * p) (n + 1).factorial (Nat.factorial_pos _) hfit
    obtain ⟨h1, h2⟩ := ih (x - 1) (x * p) (by omega) hfit
    simp only [chainCallsIn, chainValueIn, chainCalls, chainValue, hxp, h1, h2, and_self]
theorem chainCallsIn_firsts (m : IntModel) (f : Fn) (n : Nat) : ∀ (x p : Int),
    x = (n : Int) + 1 →
    (callsIn (chainCallsIn m f n x p)).map (fun c => c.2.1)
      = (List.iota (n + 1)).map (fun (k : Nat) => (k : Int)) := by
  induction n with
  | zero =>
    intro x p hx
    simp [chainCallsIn, callsIn, hx]
  | succ n ih =>
    intro x p hx
    rw [chainCallsIn, callsIn_cons_call, List.map_cons, ih (x - 1) (m.norm (x * p)) (by omega),
      List.iota_succ, List.map_cons, hx]
    push_cast
    rfl

theorem chainCallsIn_accumulators (m : IntModel) (f : Fn) (n : Nat) : ∀ (x p : Int),
    x = (n : Int) + 1 →
    ∀ c ∈ callsIn (chainCallsIn m f n x p), c.1 = f
      ∧ m.norm (((c.2.1.toNat.factorial : Nat) : Int) * c.2.2)
          = m.norm ((((n + 1).factorial : Nat) : Int) * p) := by
  induction n with
  | zero =>
    intro x p hx c hc
    have hx1 : x = 1 := by simpa using hx
    subst hx1
    rw [chainCallsIn, callsIn_cons_call] at hc
    simp only [callsIn, List.filterMap_nil, List.mem_singleton] at hc
    subst hc
    simp
  | succ n ih =>
    intro x p hx c hc
    rw [chainCallsIn, callsIn_cons_call, List.mem_cons] at hc
    rcases hc with rfl | hc
    · have ht : x.toNat = n + 1 + 1 := by omega
      refine ⟨rfl, ?_⟩
      show m.norm (((x.toNat.factorial : Nat) : Int) * p) = _
      rw [ht]
    · obtain ⟨h1, h4⟩ := ih (x - 1) (m.norm (x * p)) (by omega) c hc
      refine ⟨h1, ?_⟩
      rw [h4, norm_mul_norm, Nat.factorial_succ (n + 1), hx]
      congr 1
      push_cast
      ring

theorem chainCallsIn_length (m : IntModel) (f : Fn) (n : Nat) (x p : Int) :
    (chainCallsIn m f n x p).length = n + 1 := by
  induction n generalizing x p with
  | zero => rfl
  | succ n ih => simp [chainCallsIn, ih]

theorem countsDown_chainCallsIn (m : IntModel) (f : Fn) (n : Nat) (x p : Int)
    (hx : x = (n : Int) + 1) (es : List Event)
    (hes : callsIn es = callsIn (chainCallsIn m f n x p)) : CountsDown m f x p es := by
  have hn : x.toNat = n + 1 := by omega
  refine ⟨?_, ?_⟩
  · rw [hes, hn]
    exact chainCallsIn_firsts m f n x p hx
  · intro c hc
    rw [hes] at hc
    rw [hn]
    exact chainCallsIn_accumulators m f n x p hx c hc

theorem callsIn_events (v : Int) :
    callsIn (readEvents v) = [] ∧ callsIn (bufferedEvents v) = [] := by
  constructor <;> simp [callsIn, readEvents, bufferedEvents]

theorem writesOn_events (v : Int) :
    writesOn 0 (readEvents v) = [Event.send 0 v, Event.close 0]
      ∧ writesOn 0 (bufferedEvents v) = [Event.send 0 v, Event.close 0] := by
  constructor <;> simp [writesOn, readEvents, bufferedEvents]

theorem handedOver_of_finished (cap : Nat) (es : List Event) (v : Int) (s : State) :
    (State.finished cap (es ++ readEvents v) s → State.handedOver es v s)
      ∧ (State.finished cap (es ++ bufferedEvents v) s → State.handedOver es v s) :=
  ⟨fun h => ⟨h.2.1, Or.inl h.1⟩, fun h => ⟨h.2.1, Or.inr h.1⟩⟩

theorem chainDone_of_handedOver (m : IntModel) (f : Fn) (n : Nat) (x p : Int)
    (hx : x = (n : Int) + 1) (s : State)
    (h : State.handedOver (chainCallsIn m f n x p) (chainValueIn m n x p) s) :
    ChainDone f (n + 1) (chainValueIn m n x p) s := by
  obtain ⟨pre, h1, _, h3, _⟩ := chainCallsIn_last m f n x p hx
  obtain ⟨ho, ht | ht⟩ := h
  · refine ⟨ho, ?_, ?_, pre,
      [Event.recv 0 (chainValueIn m n x p) true, Event.close 0, Event.recv 0 0 false], h3, ?_⟩
    · rw [ht, writesOn_append, writesOn_chainCallsIn, (writesOn_events _).1]
      rfl
    · rw [ht, callsIn_append, List.length_append, callsIn_chainCallsIn, (callsIn_events _).1]
      rfl
    · rw [ht, h1]
      simp [readEvents]
  · refine ⟨ho, ?_, ?_, pre,
      [Event.close 0, Event.recv 0 (chainValueIn m n x p) true, Event.recv 0 0 false], h3, ?_⟩
    · rw [ht, writesOn_append, writesOn_chainCallsIn, (writesOn_events _).2]
      rfl
    · rw [ht, callsIn_append, List.length_append, callsIn_chainCallsIn, (callsIn_events _).2]
      rfl
    · rw [ht, h1]
      simp [bufferedEvents]

theorem chainRan_of_handedOver (m : IntModel) (f : Fn) (n : Nat) (x p : Int)
    (hx : x = (n : Int) + 1) (s : State)
    (h : State.handedOver (chainCallsIn m f n x p) (chainValueIn m n x p) s) :
    ChainRan m f x p s := by
  have hn : x.toNat = n + 1 := by omega
  have hn1 : x.toNat - 1 = n := by omega
  obtain ⟨pre, h1, _, h3, _⟩ := chainCallsIn_last m f n x p hx
  obtain ⟨_, ht⟩ := h
  have htail : ∃ tail, callsIn tail = [] ∧
      s.trace = chainCallsIn m f n x p ++ Event.send 0 (chainValueIn m n x p) :: tail := by
    rcases ht with ht | ht
    · exact ⟨[Event.recv 0 (chainValueIn m n x p) true, Event.close 0, Event.recv 0 0 false],
        by simp [callsIn], by rw [ht]; rfl⟩
    · exact ⟨[Event.close 0, Event.recv 0 (chainValueIn m n x p) true, Event.recv 0 0 false],
        by simp [callsIn], by rw [ht]; rfl⟩
  obtain ⟨tail, hc, ht⟩ := htail
  have hcalls : callsIn s.trace = callsIn (chainCallsIn m f n x p) := by
    rw [ht, callsIn_append]
    simp [callsIn] at hc ⊢
    exact hc
  refine ⟨countsDown_chainCallsIn m f n x p hx _ hcalls, ?_, ⟨pre, tail, h3, hc, ?_⟩, ?_⟩
  · rw [hcalls, callsIn_chainCallsIn, hn]
  · rw [ht, h1, hn1]
    simp
  · intro hfit
    rw [hn] at hfit
    obtain ⟨e1, e2⟩ := chain_exact m f n x p hx hfit
    rw [e1, e2] at ht
    exact chainShape_of_trace f n x p hx tail s ht hc

theorem chainStuck_of_blocked (m : IntModel) (f : Fn) (n : Nat) (x p : Int)
    (hx : x = (n : Int) + 1) (s : State)
    (h : BlockedAt (chainCallsIn m f n x p) (chainValueIn m n x p) s) :
    ChainStuck m f x p s := by
  have hn : x.toNat = n + 1 := by omega
  have hn1 : x.toNat - 1 = n := by omega
  obtain ⟨pre, h1, _, _, _⟩ := chainCallsIn_last m f n x p hx
  obtain ⟨ht, hs⟩ := h
  refine ⟨countsDown_chainCallsIn m f n x p hx _ (by rw [ht]), ?_, ?_, ?_, ?_⟩
  · rw [ht, callsIn_chainCallsIn, hn]
  · rw [ht, chainCallsIn_length, hn]
  · rw [ht, h1, callsIn_append, hn1]
    simp [callsIn]
  · rw [hn1]
    exact hs
/-! ## The settings of a chain, with the integers of the machine -/

theorem EveryRunBlocks.weaken {cfg : Cfg} {s : State} {n : Nat} {P Q R : State → Prop}
    (h : EveryRunBlocks cfg s n P Q) (hqr : ∀ s1, Q s1 → R s1) : EveryRunBlocks cfg s n P R := by
  obtain ⟨h1, sched, s1, hr, hd, hq⟩ := h
  refine ⟨fun sc s2 hs => ?_, sched, s1, hr, hd, hqr s1 hq⟩
  obtain ⟨a, b, c, d, e⟩ := h1 sc s2 hs
  exact ⟨a, b, c, d, fun hm => hqr s2 (e hm)⟩

/-- Either chain as a goroutine of its own on an unbuffered channel that main
reads. -/
theorem goThenRead_handsOver (cfg : Cfg) (f : Fn) (n : Nat) (x p : Int)
    (hx : x = (n : Int) + 1) (hfit : cfg.ints.fits x = true) :
    EveryRun cfg (goThenRead f x p) (2 * n + 4)
      (State.handedOver (chainCallsIn cfg.ints f n x p) (chainValueIn cfg.ints n x p)) :=
  EveryRun.imp (goThenRead_runs_any cfg f n x p hx hfit).sound
    (fun s hs => (handedOver_of_finished 0 _ _ s).1 hs)

/-- Either chain called ahead of the reads on a channel with room for the value. -/
theorem callThenRead_handsOver (cfg : Cfg) (cap : Nat) (hcap : 0 < cap) (f : Fn) (n : Nat)
    (x p : Int) (hx : x = (n : Int) + 1) (hfit : cfg.ints.fits x = true) :
    EveryRun cfg (callThenRead cap f x p) (2 * n + 5)
      (State.handedOver (chainCallsIn cfg.ints f n x p) (chainValueIn cfg.ints n x p)) := by
  cases f with
  | factorialDefer =>
    have h := (sync_factorialDefer_any cfg cap n hcap x p [Instr.recv 0, Instr.recv 0]
      [] [] [] hx hfit (by simp [unwind, Frame.returning, readerFrame])).sound
    refine EveryRun.imp h (fun s hs => ?_)
    rw [List.nil_append] at hs
    exact (handedOver_of_finished cap _ _ s).2 hs
  | factorialChannel =>
    exact (callThenRead_buffered_any cfg cap n hcap x p hx hfit).sound

/-- The way the driver calls `FactorialChannel`, for `x ≥ 2`, with the reads that
follow. -/
theorem callThenRead_spawned_handsOver (cfg : Cfg) (n : Nat) (x p : Int)
    (hx : x = (n : Int) + 2) (hfit : cfg.ints.fits x = true) :
    EveryRun cfg (callThenRead 0 Fn.factorialChannel x p) (2 * n + 6)
      (State.handedOver (chainCallsIn cfg.ints Fn.factorialChannel (n + 1) x p)
        (chainValueIn cfg.ints (n + 1) x p)) :=
  EveryRun.imp (callThenRead_factorialChannel_any cfg n x p hx hfit).sound
    (fun s hs => (handedOver_of_finished 0 _ _ s).1 hs)

/-- A synchronous `FactorialDefer` on an unbuffered channel, the caller being the
only goroutine. -/
theorem callThenRead_factorialDefer_blocks (cfg : Cfg) (n : Nat) (x p : Int)
    (hx : x = (n : Int) + 1) (hfit : cfg.ints.fits x = true) :
    EveryRunBlocks cfg (callThenRead 0 Fn.factorialDefer x p) (2 * n + 1) StillInCall
      (BlockedAt (chainCallsIn cfg.ints Fn.factorialDefer n x p) (chainValueIn cfg.ints n x p)) :=
          by
  have h := call_factorialDefer_blocks_any cfg n x p [Instr.recv 0, Instr.recv 0] [] [] []
    hx hfit rfl rfl
  rw [List.nil_append] at h
  exact AllBlock.blocks h

/-- A synchronous call at the base case on an unbuffered channel, the caller being
the only goroutine. -/
theorem callThenRead_base_blocks (cfg : Cfg) (f : Fn) (p : Int) :
    EveryRunBlocks cfg (callThenRead 0 f 1 p) 1 StillInCall
      (BlockedAt (chainCallsIn cfg.ints f 0 1 p) (chainValueIn cfg.ints 0 1 p)) := by
  have h := call_base_blocks_any cfg f p [Instr.recv 0, Instr.recv 0] [] [] [] rfl rfl
  rw [List.nil_append] at h
  exact AllBlock.blocks h

theorem blockedAt_atSend (es : List Event) (v : Int) (s : State) (h : BlockedAt es v s) :
    AtSend v s := h.2
/-! ## The single write, the base case and the shape of the chain -/

/-- C6, as stated, fails: a chain does not always reach its write and its close.
Called on a fresh unbuffered channel by the goroutine that is to read it (64-bit
integers), `FactorialDefer(4, 5, ch)` makes its 4 invocations and is then deadlocked
at the send, and `FactorialChannel(1, 5, ch)` is deadlocked after its one
invocation, in both cases with no write and no close on `ch`; and in the run of
`main` that always moves the first goroutine that can move, main returns, which
ends the program, when the chain of `FactorialChannel(11, 1, fact2)` has written
but not closed: `fact2` is still open and one goroutine has not finished. -/
theorem chain_can_miss_its_write_or_close :
    (runSchedule (Cfg.int64 0) (callThenRead 0 Fn.factorialDefer 4 5) (List.replicate 7 0)).map
        (fun s => (s.deadlocked (Cfg.int64 0), s.exited, writesOn 0 s.trace,
          (callsIn s.trace).length))
      = some (true, false, [], 4)
    ∧ (runSchedule (Cfg.int64 0) (callThenRead 0 Fn.factorialChannel 1 5) [0]).map
        (fun s => (s.deadlocked (Cfg.int64 0), s.exited, writesOn 0 s.trace,
          (callsIn s.trace).length))
      = some (true, false, [], 1)
    ∧ (runSchedule (Cfg.int64 11) program
          (List.replicate 5 0 ++ List.replicate 20 1 ++ List.replicate 3 0
            ++ List.replicate 21 1)).map
        (fun s => (s.exited, writesOn 1 s.trace, s.chans.map (fun ch => ch.closed),
          s.others.length))
      = some (true, [Event.send 1 39916800], [true, false], 1) :=
  ⟨by decide, by decide, by decide⟩

/-- C6, amended: for every `x ≥ 1` that the integer type can hold (unbounded, or a
wrapping machine integer of any width) and every `progress`, whenever the write can
be taken and the reader reads the channel until the channel-closed signal, the chain
started by `FactorialDefer(x, progress, ch)`, and likewise by
`FactorialChannel(x, progress, ch)`, terminates under every schedule, with every
goroutine of the chain finished, after `x` invocations, exactly one write to `ch`
followed by exactly one close of `ch`; the write directly follows the invocation
with `x == 1` and no write or close precedes that invocation.  The write can be
taken when the chain runs as a goroutine of its own on a fresh unbuffered channel
that main reads, when either function is called ahead of the reads on a fresh
channel with buffer capacity at least 1, and, for `x ≥ 2`, when `FactorialChannel`
is called ahead of the reads on a fresh unbuffered channel.  In the remaining
settings, `FactorialDefer(x, progress, ch)` for any `x ≥ 1` and
`FactorialChannel(1, progress, ch)` called on a fresh unbuffered channel by the only
goroutine, under every schedule there is no write and no close at all and the run
ends deadlocked with main at the send.  The value at the send is `x! * progress` as
the integer type stores it, and exactly `x! * progress` when that is a value of the
integer type. -/
theorem chain_writes_once_then_closes (cfg : Cfg) (f : Fn) (x progress : Int) (cap : Nat)
    (hx : 1 ≤ x) (hfit : cfg.ints.fits x = true) (hcap : 0 < cap) :
    EveryRun cfg (goThenRead f x progress) (2 * x.toNat + 2)
        (ChainDone f x.toNat (chainValueIn cfg.ints (x.toNat - 1) x progress))
      ∧ EveryRun cfg (callThenRead cap f x progress) (2 * x.toNat + 3)
        (ChainDone f x.toNat (chainValueIn cfg.ints (x.toNat - 1) x progress))
      ∧ (2 ≤ x →
        EveryRun cfg (callThenRead 0 Fn.factorialChannel x progress) (2 * x.toNat + 2)
          (ChainDone Fn.factorialChannel x.toNat
            (chainValueIn cfg.ints (x.toNat - 1) x progress)))
      ∧ EveryRunBlocks cfg (callThenRead 0 Fn.factorialDefer x progress) (2 * x.toNat - 1)
        StillInCall (AtSend (chainValueIn cfg.ints (x.toNat - 1) x progress))
      ∧ EveryRunBlocks cfg (callThenRead 0 Fn.factorialChannel 1 progress) 1
        StillInCall (AtSend progress)
      ∧ cfg.ints.norm (chainValueIn cfg.ints (x.toNat - 1) x progress)
        = cfg.ints.norm (((x.toNat.factorial : Nat) : Int) * progress)
      ∧ (cfg.ints.fits (((x.toNat.factorial : Nat) : Int) * progress) = true →
        chainValueIn cfg.ints (x.toNat - 1) x progress
          = ((x.toNat.factorial : Nat) : Int) * progress) := by
  obtain ⟨n, hn⟩ : ∃ n : Nat, x = (n : Int) + 1 := ⟨x.toNat - 1, int_eq_succ x hx⟩
  have ht : x.toNat = n + 1 := by omega
  have ht1 : x.toNat - 1 = n := by omega
  rw [ht1, ht]
  refine ⟨?_, ?_, fun h2 => ?_, ?_, ?_, chainValueIn_norm cfg.ints n x progress hn,
    fun hv => ?_⟩
  · exact EveryRun.imp (goThenRead_handsOver cfg f n x progress hn hfit)
      (fun s hs => chainDone_of_handedOver cfg.ints f n x progress hn s hs)
  · exact EveryRun.imp (callThenRead_handsOver cfg cap hcap f n x progress hn hfit)
      (fun s hs => chainDone_of_handedOver cfg.ints f n x progress hn s hs)
  · obtain ⟨m, rfl⟩ : ∃ m : Nat, n = m + 1 := ⟨n - 1, by omega⟩
    have h := callThenRead_spawned_handsOver cfg m x progress (by rw [hn]; push_cast; ring) hfit
    exact EveryRun.imp h
      (fun s hs => chainDone_of_handedOver cfg.ints Fn.factorialChannel (m + 1) x progress hn s hs)
  · have h := callThenRead_factorialDefer_blocks cfg n x progress hn hfit
    have e : 2 * (n + 1) - 1 = 2 * n + 1 := by omega
    rw [e]
    exact EveryRunBlocks.weaken h (fun s hs => blockedAt_atSend _ _ s hs)
  · exact EveryRunBlocks.weaken (callThenRead_base_blocks cfg Fn.factorialChannel progress)
      (fun s hs => blockedAt_atSend _ _ s hs)
  · rw [(chain_exact cfg.ints f n x progress hn hv).2]
    exact chainValue_eq n x progress hn

theorem chain_writes_once_then_closes_witness :
    (1 : Int) ≤ 21 ∧ (Cfg.int64 0).ints.fits 21 = true ∧ 0 < 2 ∧ (2 : Int) ≤ 21 ∧
      EveryRun (Cfg.int64 0) (goThenRead Fn.factorialDefer 21 1) (2 * (21 : Int).toNat + 2)
        (ChainDone Fn.factorialDefer (21 : Int).toNat
          (chainValueIn (Cfg.int64 0).ints ((21 : Int).toNat - 1) 21 1))
      ∧ EveryRun (Cfg.int64 0) (callThenRead 2 Fn.factorialDefer 21 1)
        (2 * (21 : Int).toNat + 3)
        (ChainDone Fn.factorialDefer (21 : Int).toNat
          (chainValueIn (Cfg.int64 0).ints ((21 : Int).toNat - 1) 21 1))
      ∧ EveryRun (Cfg.int64 0) (callThenRead 0 Fn.factorialChannel 21 1)
        (2 * (21 : Int).toNat + 2)
        (ChainDone Fn.factorialChannel (21 : Int).toNat
          (chainValueIn (Cfg.int64 0).ints ((21 : Int).toNat - 1) 21 1))
      ∧ chainValueIn (Cfg.int64 0).ints ((21 : Int).toNat - 1) 21 1 = -4249290049419214848 :=
  ⟨by decide, by decide, by decide, by decide,
    (chain_writes_once_then_closes (Cfg.int64 0) Fn.factorialDefer 21 1 2 (by decide) (by decide)
      (by decide)).1,
    (chain_writes_once_then_closes (Cfg.int64 0) Fn.factorialDefer 21 1 2 (by decide) (by decide)
      (by decide)).2.1,
    (chain_writes_once_then_closes (Cfg.int64 0) Fn.factorialChannel 21 1 2 (by decide)
      (by decide) (by decide)).2.2.1 (by decide),
    by decide⟩
/-- C12, as stated, fails on machine integers: with 64-bit integers the chain of
`FactorialChannel(21, 1, ch)`, run as a goroutine with main reading `ch`, makes its
21 invocations with first arguments 21, ..., 1, but the invocations with first
arguments 2 and 1 carry the accumulators 7098727012145168384 and
-4249290049419214848, and the value written and read is -4249290049419214848,
whereas `21! / 2! = 25545471085854720000` and `21! = 51090942171709440000`: the
products have wrapped around, and `k! * accumulator = x! * progress` is false for
`k = 2` and `k = 1`. -/
theorem chain_accumulator_wraps_at_21 :
    (runSchedule (Cfg.int64 0) (goThenRead Fn.factorialChannel 21 1)
          (List.replicate 43 1 ++ [0])).map
        (fun s => (s.exited, (callsIn s.trace).length, (callsIn s.trace).drop 19))
      = some (true, 21,
          [(Fn.factorialChannel, 2, 7098727012145168384),
           (Fn.factorialChannel, 1, -4249290049419214848)])
    ∧ (runSchedule (Cfg.int64 0) (goThenRead Fn.factorialChannel 21 1)
          (List.replicate 43 1 ++ [0])).map
        (fun s => (writesOn 0 s.trace, recvsOn 0 s.trace))
      = some ([Event.send 0 (-4249290049419214848), Event.close 0],
          [(-4249290049419214848, true), (0, false)])
    ∧ ((Nat.factorial 2 : Nat) : Int) * 7098727012145168384
        ≠ ((Nat.factorial 21 : Nat) : Int) * 1
    ∧ ((Nat.factorial 1 : Nat) : Int) * (-4249290049419214848)
        ≠ ((Nat.factorial 21 : Nat) : Int) * 1
    ∧ ((Nat.factorial 21 : Nat) : Int) = 51090942171709440000
    ∧ (Cfg.int64 0).ints.fits 21 = true :=
  ⟨by decide, by decide, by decide, by decide, by decide, by decide⟩

/-- C12, amended: for every `x ≥ 1` that the integer type can hold (unbounded, or a
wrapping machine integer of any width) and every `progress`, under every schedule
the chain started by `FactorialDefer(x, progress, ch)` or by
`FactorialChannel(x, progress, ch)` consists of exactly `x` invocations whose first
arguments are `x, x - 1, ..., 1` in this order; the invocation with first argument
`k` carries an accumulator `a` such that `k! * a` and `x! * progress` are stored as
the same value of the integer type; only the last invocation, the one with first
argument 1, reaches the base case, and it writes the accumulator it was handed,
which is `x! * progress` as the integer type stores it.  When `x! * progress` is a
value of the integer type (always, over unbounded integers), nothing overflows: the
accumulators are exactly `progress * (x! / k!)`, so that
`k! * accumulator = x! * progress`, and the value written is `x! * progress`.  This
holds when the chain runs as a goroutine of its own on a fresh unbuffered channel
that main reads, when either function is called ahead of the reads on a fresh
channel with buffer capacity at least 1, and, for `x ≥ 2`, when `FactorialChannel`
is called ahead of the reads on a fresh unbuffered channel.  In the remaining
settings, `FactorialDefer(x, progress, ch)` and `FactorialChannel(1, progress, ch)`
called on a fresh unbuffered channel by the only goroutine, the invocations are the
same and the run ends deadlocked with main at the send of that value. -/
theorem chain_invocations_count_down (cfg : Cfg) (f : Fn) (x progress : Int) (cap : Nat)
    (hx : 1 ≤ x) (hfit : cfg.ints.fits x = true) (hcap : 0 < cap) :
    EveryRun cfg (goThenRead f x progress) (2 * x.toNat + 2) (ChainRan cfg.ints f x progress)
      ∧ EveryRun cfg (callThenRead cap f x progress) (2 * x.toNat + 3)
        (ChainRan cfg.ints f x progress)
      ∧ (2 ≤ x →
        EveryRun cfg (callThenRead 0 Fn.factorialChannel x progress) (2 * x.toNat + 2)
          (ChainRan cfg.ints Fn.factorialChannel x progress))
      ∧ EveryRunBlocks cfg (callThenRead 0 Fn.factorialDefer x progress) (2 * x.toNat - 1)
        StillInCall (ChainStuck cfg.ints Fn.factorialDefer x progress)
      ∧ EveryRunBlocks cfg (callThenRead 0 Fn.factorialChannel 1 progress) 1
        StillInCall (ChainStuck cfg.ints Fn.factorialChannel 1 progress)
      ∧ cfg.ints.norm (chainValueIn cfg.ints (x.toNat - 1) x progress)
        = cfg.ints.norm (((x.toNat.factorial : Nat) : Int) * progress)
      ∧ (cfg.ints.fits (((x.toNat.factorial : Nat) : Int) * progress) = true →
        chainValueIn cfg.ints (x.toNat - 1) x progress
          = ((x.toNat.factorial : Nat) : Int) * progress) := by
  obtain ⟨n, hn⟩ : ∃ n : Nat, x = (n : Int) + 1 := ⟨x.toNat - 1, int_eq_succ x hx⟩
  have ht : x.toNat = n + 1 := by omega
  have ht1 : x.toNat - 1 = n := by omega
  refine ⟨?_, ?_, fun h2 => ?_, ?_, ?_, ?_, fun hv => ?_⟩
  · rw [ht]
    exact EveryRun.imp (goThenRead_handsOver cfg f n x progress hn hfit)
      (fun s hs => chainRan_of_handedOver cfg.ints f n x progress hn s hs)
  · rw [ht]
    exact EveryRun.imp (callThenRead_handsOver cfg cap hcap f n x progress hn hfit)
      (fun s hs => chainRan_of_handedOver cfg.ints f n x progress hn s hs)
  · obtain ⟨m, rfl⟩ : ∃ m : Nat, n = m + 1 := ⟨n - 1, by omega⟩
    have h := callThenRead_spawned_handsOver cfg m x progress (by rw [hn]; push_cast; ring) hfit
    rw [ht]
    exact EveryRun.imp h
      (fun s hs => chainRan_of_handedOver cfg.ints Fn.factorialChannel (m + 1) x progress hn s hs)
  · have h := callThenRead_factorialDefer_blocks cfg n x progress hn hfit
    have e : 2 * x.toNat - 1 = 2 * n + 1 := by omega
    rw [e]
    exact EveryRunBlocks.weaken h
      (fun s hs => chainStuck_of_blocked cfg.ints Fn.factorialDefer n x progress hn s hs)
  · exact EveryRunBlocks.weaken (callThenRead_base_blocks cfg Fn.factorialChannel progress)
      (fun s hs => chainStuck_of_blocked cfg.ints Fn.factorialChannel 0 1 progress rfl s hs)
  · rw [ht1, ht]
    exact chainValueIn_norm cfg.ints n x progress hn
  · rw [ht1]
    rw [ht] at hv
    rw [(chain_exact cfg.ints f n x progress hn hv).2, ht]
    exact chainValue_eq n x progress hn

theorem chain_invocations_count_down_witness :
    (1 : Int) ≤ 20 ∧ (Cfg.int64 0).ints.fits 20 = true ∧ 0 < 2 ∧ (2 : Int) ≤ 20
      ∧ (Cfg.int64 0).ints.fits ((((20 : Int).toNat.factorial : Nat) : Int) * 1) = true
      ∧ EveryRun (Cfg.int64 0) (goThenRead Fn.factorialDefer 20 1) (2 * (20 : Int).toNat + 2)
        (ChainRan (Cfg.int64 0).ints Fn.factorialDefer 20 1)
      ∧ EveryRun (Cfg.int64 0) (callThenRead 2 Fn.factorialChannel 20 1)
        (2 * (20 : Int).toNat + 3) (ChainRan (Cfg.int64 0).ints Fn.factorialChannel 20 1)
      ∧ EveryRun (Cfg.int64 0) (callThenRead 0 Fn.factorialChannel 20 1)
        (2 * (20 : Int).toNat + 2) (ChainRan (Cfg.int64 0).ints Fn.factorialChannel 20 1)
      ∧ chainValueIn (Cfg.int64 0).ints ((20 : Int).toNat - 1) 20 1
        = (((20 : Int).toNat.factorial : Nat) : Int) * 1 :=
  ⟨by decide, by decide, by decide, by decide, by decide,
    (chain_invocations_count_down (Cfg.int64 0) Fn.factorialDefer 20 1 2 (by decide) (by decide)
      (by decide)).1,
    (chain_invocations_count_down (Cfg.int64 0) Fn.factorialChannel 20 1 2 (by decide)
      (by decide) (by decide)).2.1,
    (chain_invocations_count_down (Cfg.int64 0) Fn.factorialChannel 20 1 2 (by decide)
      (by decide) (by decide)).2.2.1 (by decide),
    (chain_invocations_count_down (Cfg.int64 0) Fn.factorialChannel 20 1 2 (by decide)
      (by decide) (by decide)).2.2.2.2.2.2 (by decide)⟩
/-- The base case called ahead of the reads on a channel with room for the value:
the call has returned after three steps, and every run ends after the two reads. -/
theorem callThenRead_base (cfg : Cfg) (cap : Nat) (hcap : 0 < cap) (f : Fn) (p : Int) :
    runSchedule cfg (callThenRead cap f 1 p) [0, 0, 0]
        = some { main := [readerFrame], others := [],
                 chans := [{ cap := cap, buf := [p], closed := true }],
                 trace := [Event.call f 1 p 0, Event.send 0 p, Event.close 0],
                 panicked := false }
      ∧ AllRuns cfg (State.finished cap ([Event.call f 1 p 0] ++ bufferedEvents p)) 5
          (callThenRead cap f 1 p) := by
  have h1 : step cfg (callThenRead cap f 1 p) 0 = some
      { main := [{ code := [Instr.send 0 p, Instr.close 0, Instr.ret], deferred := [] },
                 readerFrame],
        others := [], chans := [Chan.fresh cap],
        trace := [Event.call f 1 p 0], panicked := false } := by
    cases f <;>
      simp [step, callThenRead, State.start, readerFrame, State.tasks, State.withTasks,
        State.log, Fn.body, FactorialChannel, FactorialDefer, unwind_running]
  have h2 : step cfg
      { main := [{ code := [Instr.send 0 p, Instr.close 0, Instr.ret], deferred := [] },
                 readerFrame],
        others := [], chans := [Chan.fresh cap],
        trace := [Event.call f 1 p 0], panicked := false } 0 = some
      { main := [{ code := [Instr.close 0, Instr.ret], deferred := [] }, readerFrame],
        others := [], chans := [{ cap := cap, buf := [p], closed := false }],
        trace := [Event.call f 1 p 0] ++ [Event.send 0 p],
        panicked := false } := by
    simp [step, readerFrame, State.tasks, State.withTasks, State.log, State.advance,
      Task.advance, unwind_running, Chan.fresh, hcap]
  have h3 : step cfg
      { main := [{ code := [Instr.close 0, Instr.ret], deferred := [] }, readerFrame],
        others := [], chans := [{ cap := cap, buf := [p], closed := false }],
        trace := [Event.call f 1 p 0] ++ [Event.send 0 p],
        panicked := false } 0 = some
      { main := [readerFrame],
        others := [], chans := [{ cap := cap, buf := [p], closed := true }],
        trace := [Event.call f 1 p 0] ++ [Event.send 0 p] ++ [Event.close 0],
        panicked := false } := by
    simp [step, readerFrame, State.tasks, State.withTasks, State.log, State.advance,
      Task.advance, unwind_running, unwind_ret]
  constructor
  · simp only [runSchedule, h1, h2, h3]
    rfl
  refine AllRuns.only 0 (by simp [callThenRead, State.start]) _ h1 ?_ ?_
  · intro i hi
    match i with
    | 0 => exact absurd rfl hi
    | j + 1 => simp [step, callThenRead, State.start, State.tasks]
  refine AllRuns.only 0 (by simp) _ h2 ?_ ?_
  · intro i hi
    match i with
    | 0 => exact absurd rfl hi
    | j + 1 => simp [step, State.tasks]
  refine AllRuns.only 0 (by simp) _ h3 ?_ ?_
  · intro i hi
    match i with
    | 0 => exact absurd rfl hi
    | j + 1 => simp [step, State.tasks]
  refine AllRuns.only 0 (by simp [readerFrame])
    { main := [{ code := [Instr.recv 0], deferred := [] }],
      others := [], chans := [{ cap := cap, buf := [], closed := true }],
      trace := [Event.call f 1 p 0] ++ [Event.send 0 p] ++ [Event.close 0]
        ++ [Event.recv 0 p true],
      panicked := false } ?_ ?_ ?_
  · simp [step, readerFrame, State.tasks, State.withTasks, State.log, State.advance,
      Task.advance, unwind_running, recvEvents]
  · intro i hi
    match i with
    | 0 => exact absurd rfl hi
    | j + 1 => simp [step, State.tasks]
  refine AllRuns.only 0 (by simp)
    { main := [],
      others := [], chans := [{ cap := cap, buf := [], closed := true }],
      trace := [Event.call f 1 p 0] ++ [Event.send 0 p] ++ [Event.close 0]
        ++ [Event.recv 0 p true] ++ [Event.recv 0 0 false],
      panicked := false } ?_ ?_ ?_
  · simp [step, State.tasks, State.withTasks, State.log, State.advance, Task.advance,
      unwind, Frame.returning, recvEvents]
  · intro i hi
    match i with
    | 0 => exact absurd rfl hi
    | j + 1 => simp [step, State.tasks]
  exact AllRuns.done rfl (by simp [State.finished, bufferedEvents])

/-- C7, as stated, fails for the channel variants: called with `x = 1` and
`progress = 1` on a fresh unbuffered channel, the kind `make(chan int)` gives, by
the goroutine that is to read it, `FactorialDefer(1, 1, ch)` and
`FactorialChannel(1, 1, ch)` have one possible first step, the invocation, after
which the program is deadlocked with main at the send: nothing has been written,
the channel is open and empty, and the call has not returned. -/
theorem base_case_send_blocks_without_reader :
    (runSchedule (Cfg.int64 0) (callThenRead 0 Fn.factorialDefer 1 1) [0]).map
        (fun s => (s.deadlocked (Cfg.int64 0), s.trace, s.chans, s.main))
      = some (true, [Event.call Fn.factorialDefer 1 1 0], [Chan.fresh 0],
          [{ code := [Instr.send 0 1, Instr.close 0, Instr.ret], deferred := [] },
           readerFrame])
    ∧ (runSchedule (Cfg.int64 0) (callThenRead 0 Fn.factorialChannel 1 1) [0]).map
        (fun s => (s.deadlocked (Cfg.int64 0), s.trace, s.chans, s.main))
      = some (true, [Event.call Fn.factorialChannel 1 1 0], [Chan.fresh 0],
          [{ code := [Instr.send 0 1, Instr.close 0, Instr.ret], deferred := [] },
           readerFrame])
    ∧ ((callThenRead 0 Fn.factorialDefer 1 1).succs (Cfg.int64 0)).length = 1
    ∧ ((callThenRead 0 Fn.factorialChannel 1 1).succs (Cfg.int64 0)).length = 1 :=
  ⟨by decide, by decide, by decide, by decide⟩

/-- C7, amended: with `x = 1` and `progress = 1`, for any integer type that can hold
1, each variant produces 1 with no further call.  `Factorial(1)` and
`FactorialTail(1, 1)` return 1 within a single invocation, with no recursive call.
The bodies of `FactorialDefer(1, 1, ch)` and `FactorialChannel(1, 1, ch)` are the
send of 1, the close and the return, with no deferred or spawned call.  Called ahead
of the reads on a fresh channel with buffer capacity at least 1, the invocation
writes 1, closes the channel and has returned to its caller after three steps, with
no other goroutine started, and every run ends with the reads of 1 and of the
channel-closed signal.  Run as a goroutine of its own on a fresh unbuffered channel
that main reads, under every schedule the events are the single invocation, the
write of 1, its receipt, the close and the channel-closed signal.  Called on a
fresh unbuffered channel by the only goroutine, the send is reached at once but
never completes: under every schedule nothing is written or closed, the call does
not return, and the run ends deadlocked after the invocation with main at the send
of 1. -/
theorem base_case_emits_one (cfg : Cfg) (f : Fn) (cap fuel : Nat)
    (h1 : cfg.ints.fits 1 = true) (hcap : 0 < cap) :
    Factorial cfg.ints (fuel + 1) 1 = some 1
      ∧ FactorialTail cfg.ints (fuel + 1) 1 1 = some 1
      ∧ (FactorialTraced cfg.ints (fuel + 1) 1).map Traced.calls = some 0
      ∧ (FactorialTailTraced cfg.ints (fuel + 1) 1 1).map Traced.calls = some 0
      ∧ (∀ c, f.body cfg.ints 1 1 c = [Instr.send c 1, Instr.close c, Instr.ret])
      ∧ runSchedule cfg (callThenRead cap f 1 1) [0, 0, 0]
          = some { main := [readerFrame], others := [],
                   chans := [{ cap := cap, buf := [1], closed := true }],
                   trace := [Event.call f 1 1 0, Event.send 0 1, Event.close 0],
                   panicked := false }
      ∧ EveryRun cfg (callThenRead cap f 1 1) 5
          (State.finished cap
            [Event.call f 1 1 0, Event.send 0 1, Event.close 0, Event.recv 0 1 true,
             Event.recv 0 0 false])
      ∧ EveryRun cfg (goThenRead f 1 1) 4
          (State.finished 0
            [Event.call f 1 1 0, Event.send 0 1, Event.recv 0 1 true, Event.close 0,
             Event.recv 0 0 false])
      ∧ EveryRunBlocks cfg (callThenRead 0 f 1 1) 1 StillInCall
          (BlockedAt [Event.call f 1 1 0] 1) := by
  have hn : cfg.ints.norm 1 = 1 := by simpa [IntModel.fits] using h1
  refine ⟨by simp [Factorial], by simp [FactorialTail, hn], by simp [FactorialTraced],
    by simp [FactorialTailTraced], fun c => by cases f <;> simp [Fn.body, FactorialDefer,
      FactorialChannel], (callThenRead_base cfg cap hcap f 1).1, ?_, ?_, ?_⟩
  · exact EveryRun.imp (callThenRead_base cfg cap hcap f 1).2.sound (fun s hs => hs)
  · exact EveryRun.imp (goThenRead_runs_any cfg f 0 1 1 rfl h1).sound (fun s hs => hs)
  · exact callThenRead_base_blocks cfg f 1

theorem base_case_emits_one_witness :
    (Cfg.int64 0).ints.fits 1 = true ∧ 0 < 1
      ∧ Factorial (Cfg.int64 0).ints (0 + 1) 1 = some 1
      ∧ FactorialTail (Cfg.int64 0).ints (0 + 1) 1 1 = some 1
      ∧ EveryRun (Cfg.int64 0) (callThenRead 1 Fn.factorialDefer 1 1) 5
          (State.finished 1
            [Event.call Fn.factorialDefer 1 1 0, Event.send 0 1, Event.close 0,
             Event.recv 0 1 true, Event.recv 0 0 false])
      ∧ EveryRunBlocks (Cfg.int64 0) (callThenRead 0 Fn.factorialDefer 1 1) 1 StillInCall
          (BlockedAt [Event.call Fn.factorialDefer 1 1 0] 1) :=
  ⟨by decide, by decide,
    (base_case_emits_one (Cfg.int64 0) Fn.factorialDefer 1 0 (by decide) (by decide)).1,
    (base_case_emits_one (Cfg.int64 0) Fn.factorialDefer 1 0 (by decide) (by decide)).2.1,
    (base_case_emits_one (Cfg.int64 0) Fn.factorialDefer 1 0 (by decide)
      (by decide)).2.2.2.2.2.2.1,
    (base_case_emits_one (Cfg.int64 0) Fn.factorialDefer 1 0 (by decide)
      (by decide)).2.2.2.2.2.2.2.2⟩

end GoRecurse
